import Mathlib

/-!
Verification of the explicit-free-list dynamic memory allocator in `src/mm.c`.

The heap is modelled as a word-addressed memory (word `i` holds the 32-bit
value stored at byte address `4 * i`), together with the current break (the
heap size in bytes), the number of bytes the backing store is still willing
to grant, and the explicit free list.  Block handles are byte addresses of
block headers; payload pointers are byte addresses 4 past a header.

The functions of `mm.c` (`free_coalesce`, `extend_heap`, `mm_init`,
`mm_free`, `find_fit`, `place`, `required_block_size`, `mm_malloc`,
`mm_realloc`) are translated statement by statement.  C `int` values are
modelled as `Int`; the two places where the code converts a 64-bit
`size_t` to a 32-bit `int` (and back) are modelled with explicit
truncation (`sizeTToInt`, `intToSizeT`).  The helper layers that `mm.c`
includes (`mm_block.h`, `mm_list.h`, `memlib.h`) are not part of the
repository sources; those primitives are modelled from the specification
(sections 4.1, 4.2 and the backing-store interface) and are each marked
`Modelled from the spec:` below.  `mm_malloc`'s internal search loop has no
bound in the C source; it is modelled with an explicit fuel parameter, and
a result of `none` (with nonzero request) means the loop was still running
when the fuel ran out.
-/

set_option maxHeartbeats 1000000

/-- Allocator state: the heap memory (word `i` is the 32-bit word at byte
address `4 * i`), the break `brk` (heap size in bytes), the remaining bytes
the backing store will grant, and the explicit free list as the list of the
free blocks' header byte addresses in traversal order. -/
structure AllocState where
  mem : Nat → Nat
  brk : Nat
  budget : Nat
  freeList : List Nat

/-- Two's-complement reading of a 32-bit word as a signed `int`. -/
def asInt32 (w : Nat) : Int :=
  if w % 4294967296 < 2147483648 then ((w % 4294967296 : Nat) : Int)
  else ((w % 4294967296 : Nat) : Int) - 4294967296

/-- Truncation of a signed value to its 32-bit two's-complement
representation. -/
def toWord32 (x : Int) : Nat := (x % 4294967296).toNat

/-- Conversion of a 64-bit unsigned `size_t` value to a signed 32-bit `int`,
as performed implicitly at the call of `required_block_size` inside
`mm_malloc` and at the assignments to `tempp` inside `mm_realloc`. -/
def sizeTToInt (n : Nat) : Int := asInt32 (n % 18446744073709551616)

/-- Conversion of a signed 32-bit `int` to a 64-bit unsigned `size_t`. -/
def intToSizeT (x : Int) : Nat := (x % 18446744073709551616).toNat

/-- Read the 32-bit word at byte address `a` (assumed word-aligned). -/
def readWord (s : AllocState) (a : Nat) : Nat := s.mem (a / 4)

/-- Write the 32-bit word at byte address `a` (assumed word-aligned). -/
def writeWord (s : AllocState) (a : Nat) (v : Nat) : AllocState :=
  { s with mem := fun i => if i = a / 4 then v else s.mem i }

/-- Modelled from the spec: `mm_block.h` is not among the repository sources.
A header or footer tag packs the block size (a multiple of 8) and the
allocation bit into a single 32-bit word, written `size | allocated`. -/
def packTag (size : Int) (alloc : Nat) : Nat := toWord32 size ||| alloc

/-- Modelled from the spec: decode the size field of the tag word at byte
address `bp` (mask off the low three bits, read the rest as a signed
`int`). -/
def mm_block_size (s : AllocState) (bp : Nat) : Int :=
  asInt32 (readWord s bp &&& 4294967288)

/-- Modelled from the spec: decode the allocation bit of the tag word at
byte address `bp`. -/
def mm_block_allocated (s : AllocState) (bp : Nat) : Nat :=
  readWord s bp &&& 1

/-- Modelled from the spec: write the header tag of the block at `bp`. -/
def mm_block_set_header (s : AllocState) (bp : Nat) (size : Int) (alloc : Nat) : AllocState :=
  writeWord s bp (packTag size alloc)

/-- Modelled from the spec: write the footer tag of the block at `bp`, which
sits at the block's last word, `size - 4` bytes past the header. -/
def mm_block_set_footer (s : AllocState) (bp : Nat) (size : Int) (alloc : Nat) : AllocState :=
  writeWord s ((bp : Int) + size - 4).toNat (packTag size alloc)

/-- Modelled from the spec: the physically next block starts `size` bytes
past this block's header. -/
def mm_block_next (s : AllocState) (bp : Nat) : Nat :=
  ((bp : Int) + mm_block_size s bp).toNat

/-- Modelled from the spec: the physical predecessor is found by reading its
size from its footer, the word immediately before this block's header. -/
def mm_block_prev (s : AllocState) (bp : Nat) : Nat :=
  ((bp : Int) - asInt32 (readWord s (bp - 4) &&& 4294967288)).toNat

/-- Modelled from the spec: `mm_list_init` resets the free list to empty. -/
def mm_list_init (s : AllocState) : AllocState := { s with freeList := [] }

/-- Modelled from the spec: `mm_list_prepend` inserts a block at the
traversal head of the free list. -/
def mm_list_prepend (s : AllocState) (bp : Nat) : AllocState :=
  { s with freeList := bp :: s.freeList }

/-- Modelled from the spec: `mm_list_remove` detaches a block from wherever
it sits in the free list. -/
def mm_list_remove (s : AllocState) (bp : Nat) : AllocState :=
  { s with freeList := s.freeList.erase bp }

/-- Modelled from the spec: `mem_sbrk` from `memlib.h` grows the heap
contiguously by `incr` bytes and returns the previous break, or fails (the
C code checks for a `-1` result, modelled as `none`) when the request is
negative or the backing store is exhausted.  The state is unchanged on
failure. -/
def mem_sbrk (s : AllocState) (incr : Int) : Option Nat × AllocState :=
  if 0 ≤ incr ∧ incr ≤ (s.budget : Int) then
    (some s.brk, { s with brk := s.brk + incr.toNat, budget := s.budget - incr.toNat })
  else (none, s)

/-- Translation of `free_coalesce` from `mm.c`: mark the block free,
coalesce with free physical neighbours (four cases on the neighbours'
allocation bits), and maintain the free list; returns the updated state and
the address of the coalesced block. -/
def free_coalesce (s : AllocState) (bp : Nat) : AllocState × Nat :=
  let size := mm_block_size s bp
  let s := mm_block_set_header s bp size 0
  let s := mm_block_set_footer s bp size 0
  let prev_alloc := mm_block_allocated s (mm_block_prev s bp)
  let next_alloc := mm_block_allocated s (mm_block_next s bp)
  if prev_alloc ≠ 0 ∧ next_alloc ≠ 0 then
    (mm_list_prepend s bp, bp)
  else if prev_alloc ≠ 0 ∧ next_alloc = 0 then
    let size := size + mm_block_size s (mm_block_next s bp)
    let s := mm_list_remove s (mm_block_next s bp)
    let s := mm_list_prepend s bp
    let s := mm_block_set_header s bp size 0
    let s := mm_block_set_footer s bp size 0
    (s, bp)
  else if prev_alloc = 0 ∧ next_alloc ≠ 0 then
    let size := size + mm_block_size s (mm_block_prev s bp)
    let s := mm_block_set_header s (mm_block_prev s bp) size 0
    let s := mm_block_set_footer s (mm_block_prev s bp) size 0
    (s, mm_block_prev s bp)
  else
    let size := size + mm_block_size s (mm_block_next s bp) + mm_block_size s (mm_block_prev s bp)
    let s := mm_list_remove s (mm_block_next s bp)
    let s := mm_block_set_header s (mm_block_prev s bp) size 0
    let s := mm_block_set_footer s (mm_block_prev s bp) size 0
    (s, mm_block_prev s bp)

/-- Translation of `extend_heap` from `mm.c`: request `size` more bytes from
the backing store; on failure return `none` with the state unchanged; on
success overwrite the old epilogue with a free block of `size` bytes, write
a fresh epilogue, and coalesce the new block with its predecessor. -/
def extend_heap (s : AllocState) (size : Int) : AllocState × Option Nat :=
  match mem_sbrk s size with
  | (none, s) => (s, none)
  | (some bp, s) =>
    let old_epilogue := bp - 4
    let s := mm_block_set_header s old_epilogue size 0
    let s := mm_block_set_footer s old_epilogue size 0
    let s := mm_block_set_header s (mm_block_next s old_epilogue) 0 1
    let r := free_coalesce s old_epilogue
    (r.1, some r.2)

/-- Translation of `mm_init` from `mm.c`: reset the free list, obtain 16
bytes (fail with `-1` if that fails), lay down the alignment pad, the
allocated size-8 prologue (header and footer) and the allocated size-0
epilogue, then extend the heap by 64 bytes.  The result of that extension
is not checked by the C code. -/
def mm_init (s : AllocState) : AllocState × Int :=
  let s := mm_list_init s
  match mem_sbrk s 16 with
  | (none, s) => (s, -1)
  | (some new_region, s) =>
    let heap_blocks := new_region
    let s := mm_block_set_header s heap_blocks 0 0
    let s := mm_block_set_header s (heap_blocks + 4) 8 1
    let s := mm_block_set_footer s (heap_blocks + 4) 8 1
    let s := mm_block_set_header s (heap_blocks + 12) 0 1
    let r := extend_heap s 64
    (r.1, 0)

/-- Translation of `mm_free` from `mm.c`: a null pointer is a no-op;
otherwise move back 4 bytes to the block header and run `free_coalesce`. -/
def mm_free (s : AllocState) (bp : Option Nat) : AllocState :=
  match bp with
  | none => s
  | some p => (free_coalesce s (p - 4)).1

/-- The traversal inside `find_fit`, over the free list in order. -/
def find_fit_walk (s : AllocState) (size : Int) : List Nat → Option Nat
  | [] => none
  | bp :: rest =>
    if size ≤ mm_block_size s bp then some bp else find_fit_walk s size rest

/-- Translation of `find_fit` from `mm.c`: first-fit scan of the free list,
returning the first block whose size is at least `size`, or `none`. -/
def find_fit (s : AllocState) (size : Int) : Option Nat :=
  find_fit_walk s size s.freeList

/-- Translation of `place` from `mm.c`: allocate `size` bytes inside the
free block `bp`.  The C computes `int new_size = old_size - size`, a 32-bit
subtraction that wraps on overflow, modelled by `asInt32 (toWord32 ...)`.
If the remainder is at least 16 bytes the block is split (request at the
high end when `size ≥ 75`, at the low end otherwise); otherwise the whole
block is allocated.  Returns the updated state and the header address of
the allocated piece. -/
def place (s : AllocState) (bp : Nat) (size : Int) : AllocState × Nat :=
  let old_size := mm_block_size s bp
  let new_size := asInt32 (toWord32 (old_size - size))
  if 16 ≤ new_size then
    if 75 ≤ size then
      let s := mm_block_set_header s bp new_size 1
      let s := mm_block_set_footer s bp new_size 1
      let new_bp := mm_block_next s bp
      let s := mm_block_set_header s new_bp size 1
      let s := mm_block_set_footer s new_bp size 1
      let s := mm_block_set_header s bp new_size 0
      let s := mm_block_set_footer s bp new_size 0
      (s, new_bp)
    else
      let s := mm_block_set_header s bp size 1
      let s := mm_block_set_footer s bp size 1
      let new_bp := mm_block_next s bp
      let s := mm_list_prepend s new_bp
      let s := mm_block_set_header s new_bp new_size 0
      let s := mm_block_set_footer s new_bp new_size 0
      let s := mm_list_remove s bp
      (s, bp)
  else
    let s := mm_block_set_header s bp old_size 1
    let s := mm_block_set_footer s bp old_size 1
    let s := mm_list_remove s bp
    (s, bp)

/-- Translation of `required_block_size` from `mm.c`: add 8 bytes for the
header and footer, then round up to a multiple of 8 in C `int` arithmetic
(division truncating toward zero). -/
def required_block_size (payload_size : Int) : Int :=
  ((payload_size + 8 + 7).tdiv 8) * 8

/-- The search loop of `mm_malloc`, with explicit fuel: while no fit is
found, extend the heap by `max(required_size, 512)` bytes and search again;
once a fit is found, `place` the request there and return the payload
address (header address + 4).  With the fuel exhausted and still no fit the
result is `none`. -/
def mm_malloc_loop : Nat → AllocState → Int → Option Nat → AllocState × Option Nat
  | _, s, required_size, some bp =>
    let r := place s bp required_size
    (r.1, some (r.2 + 4))
  | 0, s, _, none => (s, none)
  | fuel + 1, s, required_size, none =>
    let tempp := if required_size > 512 then required_size else 512
    let s' := (extend_heap s tempp).1
    mm_malloc_loop fuel s' required_size (find_fit s' required_size)

/-- Translation of `mm_malloc` from `mm.c`: a zero-size request returns
null; otherwise compute the required block size (the `size_t` request is
truncated to `int` here) and run the search loop. -/
def mm_malloc (fuel : Nat) (s : AllocState) (size : Nat) : AllocState × Option Nat :=
  if size = 0 then (s, none)
  else
    let required_size := required_block_size (sizeTToInt size)
    mm_malloc_loop fuel s required_size (find_fit s required_size)

/-- Read the byte at byte address `a`. -/
def readByte (s : AllocState) (a : Nat) : Nat :=
  (s.mem (a / 4) >>> (8 * (a % 4))) &&& 255

/-- Write the byte at byte address `a`, leaving the other bytes of its word
unchanged. -/
def writeByte (s : AllocState) (a : Nat) (v : Nat) : AllocState :=
  { s with mem := fun i =>
      if i = a / 4 then
        (s.mem (a / 4) &&& (4294967295 ^^^ (255 <<< (8 * (a % 4))))) |||
          ((v &&& 255) <<< (8 * (a % 4)))
      else s.mem i }

/-- Byte-wise copy of `n` bytes from `src` to `dst`, front to back, as
`memcpy` does for the non-overlapping regions `mm_realloc` passes it. -/
def memcpyBytes : Nat → AllocState → Nat → Nat → AllocState
  | 0, s, _, _ => s
  | k + 1, s, dst, src => memcpyBytes k (writeByte s dst (readByte s src)) (dst + 1) (src + 1)

/-- The fallback path of `mm_realloc`: allocate a new block, give up if that
fails, copy `min(old_size, size)` bytes (the minimum is computed in `int`
arithmetic in the C code), free the old block, return the new payload. -/
def mm_realloc_copy (fuel : Nat) (s : AllocState) (p : Nat) (size old_size : Nat) :
    AllocState × Option Nat :=
  let r := mm_malloc fuel s size
  match r.2 with
  | none => (r.1, none)
  | some new_ptr =>
    let tempp : Int := if old_size > size then sizeTToInt size else sizeTToInt old_size
    let s := memcpyBytes (intToSizeT tempp) r.1 new_ptr p
    let s := mm_free s (some p)
    (s, some new_ptr)

/-- Translation of `mm_realloc` from `mm.c`: null pointer behaves as
`mm_malloc`; zero size behaves as `mm_free` and returns null; a request
that fits the current payload capacity returns the pointer unchanged; a
free physical successor whose size makes the combined block large enough is
absorbed in place; otherwise allocate-copy-free. -/
def mm_realloc (fuel : Nat) (s : AllocState) (ptr : Option Nat) (size : Nat) :
    AllocState × Option Nat :=
  match ptr with
  | none => mm_malloc fuel s size
  | some p =>
    if size = 0 then
      (mm_free s (some p), none)
    else
      let block_header := p - 4
      let old_size := intToSizeT (mm_block_size s block_header - 8)
      if size ≤ old_size then
        (s, some p)
      else
        let next_block := mm_block_next s block_header
        if mm_block_allocated s next_block = 0 then
          let combined_size :=
            (intToSizeT (mm_block_size s block_header) +
              intToSizeT (mm_block_size s next_block)) % 18446744073709551616
          if size ≤ (combined_size + 18446744073709551616 - 8) % 18446744073709551616 then
            let s := mm_list_remove s next_block
            let s := mm_block_set_header s block_header (sizeTToInt combined_size) 1
            let s := mm_block_set_footer s block_header (sizeTToInt combined_size) 1
            (s, some p)
          else
            mm_realloc_copy fuel s p size old_size
        else
          mm_realloc_copy fuel s p size old_size

/-- The all-zero initial state with backing-store budget `b`: empty heap,
empty free list. -/
def initState (b : Nat) : AllocState :=
  { mem := fun _ => 0, brk := 0, budget := b, freeList := [] }

/-- Round a byte count up to the next multiple of 8, stated over `Nat` the
way the specification words it (used to compare `required_block_size`
against the specified rounding). -/
def roundUp8 (m : Nat) : Nat := (m + 7) / 8 * 8

/-- The heap right after a successful `mm_init` against a 4096-byte backing
store: break 80, one free block of 64 bytes at address 12. -/
def heap4096 : AllocState := (mm_init (initState 4096)).1

/-- The heap right after a successful `mm_init` against a 10000-byte backing
store. -/
def heap10k : AllocState := (mm_init (initState 10000)).1

/-- The heap after `mm_init` against a backing store of exactly 80 bytes:
initialization succeeds and exhausts the store completely. -/
def heap80 : AllocState := (mm_init (initState 80)).1

/-- Running `mm_init` against a backing store of only 16 bytes: the initial
region request succeeds but the initial 64-byte extension fails. -/
def init16 : AllocState × Int := mm_init (initState 16)

/-- The first `mm_malloc 100` on the freshly initialized heap. -/
def mallocA : AllocState × Option Nat := mm_malloc 4 heap4096 100

/-- The heap after freeing the block obtained by `mallocA`. -/
def heapAfterFree : AllocState := mm_free mallocA.1 mallocA.2

/-- The second `mm_malloc 100`, after the free. -/
def mallocB : AllocState × Option Nat := mm_malloc 4 heapAfterFree 100

/-- A heap holding (from low to high) the 8-byte prologue, two adjacent
allocated 24-byte blocks at addresses 12 and 36, and the epilogue at 60;
the free list is empty. -/
def twoBlockState : AllocState :=
  { mem := fun i =>
      if i = 1 then 9 else if i = 2 then 9 else
      if i = 3 then 25 else if i = 8 then 25 else
      if i = 9 then 25 else if i = 14 then 25 else
      if i = 15 then 1 else 0,
    brk := 64, budget := 0, freeList := [] }

/-- The heap after `mm_malloc 10` on the freshly initialized heap: an
allocated 24-byte block at address 12 (payload pointer 16) and a free
40-byte block at 36. -/
def heapOneAlloc : AllocState := (mm_malloc 4 heap4096 10).1

/-- The tag bit of an allocation flag. -/
def bitOf (al : Bool) : Nat := if al then 1 else 0

/-- A chain of blocks laid out consecutively from byte address `a` up to
byte address `e`: each entry records a block's header address, its size and
its allocation flag, and both boundary tags are present in memory.  Sizes
are multiples of 8, at least 16, and representable as positive 32-bit
ints. -/
def chainAt (s : AllocState) : Nat → Nat → List (Nat × Nat × Bool) → Prop
  | a, e, [] => a = e
  | a, e, (b, sz, al) :: rest =>
      b = a ∧ 16 ≤ sz ∧ sz % 8 = 0 ∧ sz < 2147483648 ∧
      readWord s a = packTag (sz : Int) (bitOf al) ∧
      readWord s (a + sz - 4) = packTag (sz : Int) (bitOf al) ∧
      chainAt s (a + sz) e rest

/-- The header addresses of the free blocks of a block list, in layout
order. -/
def freeAddrs : List (Nat × Nat × Bool) → List Nat
  | [] => []
  | (b, _, al) :: rest => if al then freeAddrs rest else b :: freeAddrs rest

/-- Structural well-formedness of an allocator state: an 8-byte-multiple
break of at least 16 with the total backing store below 2^31, the alignment
pad and the allocated size-8 prologue and size-0 epilogue sentinels in
place, a block chain covering the span from 12 to the epilogue, and a free
list that holds exactly the chain's free blocks, without duplicates. -/
def HeapInv (s : AllocState) : Prop :=
  s.brk % 8 = 0 ∧ 16 ≤ s.brk ∧ s.brk + s.budget < 2147483648 ∧
  readWord s 4 = packTag (8 : Int) 1 ∧
  readWord s 8 = packTag (8 : Int) 1 ∧
  readWord s (s.brk - 4) = packTag (0 : Int) 1 ∧
  ∃ bl, chainAt s 12 (s.brk - 4) bl ∧
    s.freeList.Nodup ∧
    (∀ x, x ∈ s.freeList ↔ x ∈ freeAddrs bl)

/-- Structural well-formedness with the block chain given explicitly. -/
def HeapInvWith (s : AllocState) (bl : List (Nat × Nat × Bool)) : Prop :=
  s.brk % 8 = 0 ∧ 16 ≤ s.brk ∧ s.brk + s.budget < 2147483648 ∧
  readWord s 4 = packTag (8 : Int) 1 ∧
  readWord s 8 = packTag (8 : Int) 1 ∧
  readWord s (s.brk - 4) = packTag (0 : Int) 1 ∧
  chainAt s 12 (s.brk - 4) bl ∧
  s.freeList.Nodup ∧
  (∀ x, x ∈ s.freeList ↔ x ∈ freeAddrs bl)

/-- The free-list/allocation-bit correspondence the specification claims
as an invariant: some block chain covers the heap, a chain block is in the
free list exactly when its allocation bit is false, every free-list entry
is a chain block, and the free list has no duplicates. -/
def FreeListInvariant (s : AllocState) : Prop :=
  ∃ bl, chainAt s 12 (s.brk - 4) bl ∧
    s.freeList.Nodup ∧
    (∀ b sz al, (b, sz, al) ∈ bl → (b ∈ s.freeList ↔ al = false)) ∧
    (∀ x, x ∈ s.freeList → ∃ sz, (x, sz, false) ∈ bl)

/-- The states reachable from a successful-or-not `mm_init` through
`mm_malloc`, `mm_free` and `mm_realloc` calls whose requests stay below the
32-bit truncation threshold and whose pointers are live payload pointers
(or null). -/
inductive Reachable : AllocState → Prop
  | init (B : Nat) (h16 : 16 ≤ B) (hB : B < 2147483648) :
      Reachable (mm_init (initState B)).1
  | malloc (s : AllocState) (fuel n : Nat) (h : Reachable s)
      (hn : n + 15 < 2147483648) : Reachable (mm_malloc fuel s n).1
  | free_null (s : AllocState) (h : Reachable s) : Reachable (mm_free s none)
  | free (s : AllocState) (p sz : Nat) (bl : List (Nat × Nat × Bool))
      (h : Reachable s) (hw : HeapInvWith s bl) (hmem : (p - 4, sz, true) ∈ bl)
      (hp : 4 ≤ p) : Reachable (mm_free s (some p))
  | realloc_null (s : AllocState) (fuel n : Nat) (h : Reachable s)
      (hn : n + 15 < 2147483648) : Reachable (mm_realloc fuel s none n).1
  | realloc (s : AllocState) (fuel p n sz : Nat) (bl : List (Nat × Nat × Bool))
      (h : Reachable s) (hw : HeapInvWith s bl) (hmem : (p - 4, sz, true) ∈ bl)
      (hp : 4 ≤ p) (hn : n + 15 < 2147483648) :
      Reachable (mm_realloc fuel s (some p) n).1

/-! ### Basic lemmas about the state operations -/

theorem writeWord_brk (s : AllocState) (a v : Nat) : (writeWord s a v).brk = s.brk := rfl

theorem writeWord_budget (s : AllocState) (a v : Nat) : (writeWord s a v).budget = s.budget := rfl

theorem writeWord_freeList (s : AllocState) (a v : Nat) :
    (writeWord s a v).freeList = s.freeList := rfl

theorem readWord_writeWord_self (s : AllocState) (a v : Nat) :
    readWord (writeWord s a v) a = v := by
  simp [readWord, writeWord]

theorem readWord_writeWord_other (s : AllocState) (a b v : Nat)
    (ha : a % 4 = 0) (hb : b % 4 = 0) (hne : b ≠ a) :
    readWord (writeWord s a v) b = readWord s b := by
  have : b / 4 ≠ a / 4 := by omega
  simp [readWord, writeWord, this]

theorem toWord32_ofNat (n : Nat) (h : n < 4294967296) : toWord32 (n : Int) = n := by
  unfold toWord32
  omega

theorem packTag_eq_add (sz al : Nat) (h8 : sz % 8 = 0) (hlt : sz < 4294967296)
    (hal : al ≤ 1) : packTag (sz : Int) al = sz + al := by
  unfold packTag
  rw [toWord32_ofNat sz hlt]
  have hsz : sz = 2 ^ 3 * (sz / 8) := by omega
  have hb : al < 2 ^ 3 := by omega
  calc sz ||| al = 2 ^ 3 * (sz / 8) ||| al := by rw [← hsz]
    _ = 2 ^ 3 * (sz / 8) + al := (Nat.mul_add_lt_is_or hb _).symm
    _ = sz + al := by omega

theorem and_mask32_eq (x : Nat) (hx : x < 4294967296) : x &&& 4294967288 = x / 8 * 8 := by
  have hmask : (4294967288 : Nat) = (2 ^ 29 - 1) <<< 3 := by decide
  have hdiv : x / 8 * 8 = (x >>> 3) <<< 3 := by
    rw [Nat.shiftRight_eq_div_pow, Nat.shiftLeft_eq]
  apply Nat.eq_of_testBit_eq
  intro i
  rw [Nat.testBit_and, hmask, hdiv, Nat.testBit_shiftLeft, Nat.testBit_shiftLeft,
    Nat.testBit_shiftRight, Nat.testBit_two_pow_sub_one]
  by_cases h3 : 3 ≤ i
  · have hi : 3 + (i - 3) = i := by omega
    rw [hi]
    by_cases h32 : i < 32
    · have h29 : i - 3 < 29 := by omega
      simp [h3, h29]
    · have hpow32 : (2 : Nat) ^ 32 ≤ 2 ^ i := Nat.pow_le_pow_right (by norm_num) (by omega)
      have hpow : x < 2 ^ i := lt_of_lt_of_le (by norm_num [hx]) hpow32
      have hbit : x.testBit i = false := Nat.testBit_lt_two_pow hpow
      have h29 : ¬(i - 3 < 29) := by omega
      simp [hbit, h29]
  · simp [h3]

theorem asInt32_ofNat (n : Nat) (h : n < 2147483648) : asInt32 n = n := by
  unfold asInt32
  have h1 : n % 4294967296 = n := by omega
  rw [h1, if_pos h]

theorem mm_block_size_read (s : AllocState) (bp : Nat) (sz al : Nat)
    (h : readWord s bp = packTag (sz : Int) al) (h8 : sz % 8 = 0)
    (hlt : sz < 2147483648) (hal : al ≤ 1) : mm_block_size s bp = sz := by
  unfold mm_block_size
  rw [h, packTag_eq_add sz al h8 (by omega) hal, and_mask32_eq _ (by omega)]
  have : (sz + al) / 8 * 8 = sz := by omega
  rw [this, asInt32_ofNat _ hlt]

theorem mm_block_allocated_read (s : AllocState) (bp : Nat) (sz al : Nat)
    (h : readWord s bp = packTag (sz : Int) al) (h8 : sz % 8 = 0)
    (hlt : sz < 2147483648) (hal : al ≤ 1) : mm_block_allocated s bp = al := by
  unfold mm_block_allocated
  rw [h, packTag_eq_add sz al h8 (by omega) hal, Nat.and_one_is_mod]
  omega

theorem mm_block_next_read (s : AllocState) (bp : Nat) (sz al : Nat)
    (h : readWord s bp = packTag (sz : Int) al) (h8 : sz % 8 = 0)
    (hlt : sz < 2147483648) (hal : al ≤ 1) : mm_block_next s bp = bp + sz := by
  unfold mm_block_next
  rw [mm_block_size_read s bp sz al h h8 hlt hal]
  omega

theorem mm_block_prev_read (s : AllocState) (bp : Nat) (sz al : Nat)
    (h : readWord s (bp - 4) = packTag (sz : Int) al) (h8 : sz % 8 = 0)
    (hlt : sz < 2147483648) (hal : al ≤ 1) (hle : sz ≤ bp) : mm_block_prev s bp = bp - sz := by
  unfold mm_block_prev
  rw [h, packTag_eq_add sz al h8 (by omega) hal, and_mask32_eq _ (by omega)]
  have h2 : (sz + al) / 8 * 8 = sz := by omega
  rw [h2, asInt32_ofNat _ hlt]
  omega

theorem intToSizeT_coe_sub_eight (sz : Nat) (h : 8 ≤ sz) (hlt : sz < 2147483648) :
    intToSizeT ((sz : Int) - 8) = sz - 8 := by
  unfold intToSizeT
  omega

/-! ### The malloc loop under a failing backing store -/

theorem mm_malloc_loop_stuck (s : AllocState) (r : Int)
    (hfit : find_fit s r = none)
    (hsbrk : ¬ (0 ≤ (if r > 512 then r else 512) ∧
      (if r > 512 then r else 512) ≤ (s.budget : Int))) :
    ∀ fuel, mm_malloc_loop fuel s r none = (s, none) := by
  intro fuel
  induction fuel with
  | zero => rfl
  | succ k ih =>
    have hext : extend_heap s (if r > 512 then r else 512) = (s, none) := by
      unfold extend_heap mem_sbrk
      rw [if_neg hsbrk]
    show mm_malloc_loop k (extend_heap s (if r > 512 then r else 512)).1 r
      (find_fit (extend_heap s (if r > 512 then r else 512)).1 r) = (s, none)
    rw [hext]
    show mm_malloc_loop k s r (find_fit s r) = (s, none)
    rw [hfit]
    exact ih

/-- Claim C1: the claim says `allocate` loops, growing the heap by
`max(required, 512)` bytes per round, until a fit is found or the backing
store fails, in which case it returns null.  The code never checks the
result of `extend_heap`: with the backing store exhausted (the 80-byte
store is fully consumed by `mm_init`) and a request of 1000 bytes, the call
keeps re-invoking `extend_heap` forever.  In the fuel model this reads: for
every fuel bound the loop is still running (`none`) and the state is
exactly the starting state (the failed growth attempts mutate nothing), so
the C code neither terminates nor returns null. -/
theorem mm_malloc_never_returns_on_store_failure :
    ∀ fuel, mm_malloc fuel heap80 1000 = (heap80, none) := by
  intro fuel
  show mm_malloc_loop fuel heap80 (required_block_size (sizeTToInt 1000))
    (find_fit heap80 (required_block_size (sizeTToInt 1000))) = (heap80, none)
  rw [show required_block_size (sizeTToInt 1000) = 1008 from by decide]
  rw [show find_fit heap80 1008 = none from by decide]
  exact mm_malloc_loop_stuck heap80 1008 (by decide) (by decide) fuel

/-- Claim C4: `mm_init` resets the free list, writes the allocated size-8
prologue (header at 4, footer at 8) and the allocated size-0 epilogue, and
performs one initial extension; it returns -1 when the very first region
request fails (budget 10 < 16).  However, when the backing store fails at
the second step (budget 16: the 16-byte region request succeeds, the
64-byte extension fails), the code ignores `extend_heap`'s failure and
still returns 0, with an empty free list and an unextended 16-byte heap —
contradicting the claim that init fails when the backing store fails at
either of its two steps. -/
theorem mm_init_ignores_failed_extension :
    init16.2 = 0 ∧ init16.1.freeList = [] ∧ init16.1.brk = 16 ∧
    init16.1.budget = 0 ∧
    readWord init16.1 4 = packTag 8 1 ∧ readWord init16.1 8 = packTag 8 1 ∧
    readWord init16.1 12 = packTag 0 1 ∧
    (mm_init (initState 10)).2 = -1 := by decide

/-- Claim C5: on the freshly initialized heap, `allocate(100)` returns
payload address 480; after `free` of that pointer, a second `allocate(100)`
returns the same address 480, and the break is unchanged across the free
and the second allocation (the heap is not grown between the two calls). -/
theorem malloc_free_malloc_reuses_address :
    mallocA.2 = some 480 ∧ mallocB.2 = some 480 ∧
    heapAfterFree.brk = mallocA.1.brk ∧ mallocB.1.brk = mallocA.1.brk := by decide

theorem required_eq_roundUp8 (n : Nat) (hn : 0 < n) (hlt : n + 15 < 2147483648) :
    required_block_size (sizeTToInt n) = ((roundUp8 (n + 8) : Nat) : Int) := by
  have h1 : sizeTToInt n = (n : Int) := by
    unfold sizeTToInt asInt32
    have h64 : n % 18446744073709551616 = n := by omega
    rw [h64]
    have h32 : n % 4294967296 = n := by omega
    rw [h32, if_pos (by omega)]
  rw [h1]
  unfold required_block_size
  have h2 : (n : Int) + 8 + 7 = ((n + 15 : Nat) : Int) := by push_cast; ring
  rw [h2]
  have h3 : ((n + 15 : Nat) : Int).tdiv ((8 : Nat) : Int) = (((n + 15) / 8 : Nat) : Int) := rfl
  have h4 : ((8 : Nat) : Int) = (8 : Int) := rfl
  rw [← h4, h3]
  have h5 : roundUp8 (n + 8) = (n + 15) / 8 * 8 := by
    unfold roundUp8
    omega
  rw [h5]
  push_cast
  ring

/-- Claim C10: `mm_malloc` passes its `size_t` request to
`required_block_size`, whose parameter is a 32-bit `int`, so the request is
truncated and rounded in signed arithmetic.  For every request `n` with
`n + 15 < 2^31` the computed block size is exactly `n + 8` rounded up to a
multiple of 8; but for `n = 2^32` (≥ 2^31) the truncated value is 0, the
computed block size is 8, and the allocation succeeds (payload 16, block at
12 of size 8), returning a block whose payload capacity `8 - 8 = 0` is
smaller than `n`. -/
theorem required_block_size_int_truncation :
    (∀ n : Nat, 0 < n → n + 15 < 2147483648 →
      required_block_size (sizeTToInt n) = ((roundUp8 (n + 8) : Nat) : Int)) ∧
    ((mm_malloc 4 heap10k 4294967296).2 = some 16 ∧
      mm_block_size (mm_malloc 4 heap10k 4294967296).1 12 = 8 ∧
      (mm_block_size (mm_malloc 4 heap10k 4294967296).1 12).toNat - 8 < 4294967296) := by
  constructor
  · intro n hn hlt
    exact required_eq_roundUp8 n hn hlt
  · decide

theorem required_block_size_int_truncation_witness :
    required_block_size (sizeTToInt 100) = ((roundUp8 (100 + 8) : Nat) : Int) :=
  required_block_size_int_truncation.1 100 (by decide) (by decide)

/-- Claim C2 counterexample: the claim quantifies over every successful
`allocate(n)` with `n > 0` and asserts payload capacity at least `n`, with
block size `n + 8` rounded up to a multiple of 8.  At `n = 2^32 + 1` the
request is truncated to the `int` 1, the allocation succeeds with payload
address 16 and owning block of size 16 at address 12, whose payload
capacity `16 - 8 = 8` is far smaller than `n` (and 16 is not
`round8(n + 8)`), so the claim as stated is false. -/
theorem malloc_huge_request_capacity_shortfall :
    (mm_malloc 4 heap4096 4294967297).2 = some 16 ∧
    mm_block_size (mm_malloc 4 heap4096 4294967297).1 12 = 16 ∧
    (mm_block_size (mm_malloc 4 heap4096 4294967297).1 12).toNat - 8 < 4294967297 := by
  decide

/-- Claim C3 counterexample: the claim quantifies over every request of `R`
bytes with `R ≤ S`, both multiples of 8, and asserts that in the split case
with `R < 75` the allocated piece is removed from the free list (and, being
an allocated piece, carries the allocation bit).  At `R = 0` against the
free 64-byte block at address 12 of the freshly initialized heap, `place`
returns handle 12, yet block 12 ends up marked free (allocation bit 0) and
still sits in the free list, so the claim as stated is false. -/
theorem place_zero_request_leaves_block_free :
    (place heap4096 12 0).2 = 12 ∧
    mm_block_allocated (place heap4096 12 0).1 12 = 0 ∧
    (place heap4096 12 0).1.freeList = [12] := by decide

/-- Claim C8: for a live pointer `p` whose block header records an allocated
block of size `sz`, and any request `0 < n` at most the payload capacity
`sz - 8`, `mm_realloc` returns `p` unchanged and the resulting state is the
input state itself — heap bytes, block tags and free list all untouched. -/
theorem mm_realloc_within_capacity_noop (fuel : Nat) (s : AllocState) (p n sz : Nat)
    (hdr : readWord s (p - 4) = packTag (sz : Int) 1)
    (h8 : sz % 8 = 0) (hsz : 16 ≤ sz) (hlt : sz < 2147483648)
    (hn0 : 0 < n) (hn : n ≤ sz - 8) :
    mm_realloc fuel s (some p) n = (s, some p) := by
  have hbs := mm_block_size_read s (p - 4) sz 1 hdr h8 hlt (by omega)
  simp only [mm_realloc]
  rw [if_neg (by omega), hbs, intToSizeT_coe_sub_eight sz (by omega) hlt, if_pos hn]

theorem mm_realloc_within_capacity_noop_witness :
    mm_realloc 4 heapOneAlloc (some 16) 16 = (heapOneAlloc, some 16) :=
  mm_realloc_within_capacity_noop 4 heapOneAlloc 16 16 24 (by decide) (by decide)
    (by decide) (by decide) (by decide) (by decide)

theorem intToSizeT_coe (m : Nat) (h : m < 18446744073709551616) :
    intToSizeT ((m : Nat) : Int) = m := by
  unfold intToSizeT
  omega

theorem sizeTToInt_small (m : Nat) (h : m < 2147483648) : sizeTToInt m = (m : Int) := by
  unfold sizeTToInt asInt32
  have h64 : m % 18446744073709551616 = m := by omega
  rw [h64]
  have h32 : m % 4294967296 = m := by omega
  rw [h32, if_pos (by omega)]

theorem asInt32_toWord32_small (z : Int) (h0 : 0 ≤ z) (hlt : z < 2147483648) :
    asInt32 (toWord32 z) = z := by
  have hz : toWord32 z = z.toNat := by
    unfold toWord32
    rw [show z % 4294967296 = z from by omega]
  rw [hz]
  unfold asInt32
  rw [if_pos (by omega : z.toNat % 4294967296 < 2147483648)]
  omega

theorem mm_block_set_header_eq (s : AllocState) (b : Nat) (z : Int) (al : Nat) :
    mm_block_set_header s b z al = writeWord s b (packTag z al) := rfl

theorem mm_block_set_footer_coe (s : AllocState) (b m al : Nat) (h : 4 ≤ b + m) :
    mm_block_set_footer s b ((m : Nat) : Int) al = writeWord s (b + m - 4) (packTag (m : Int) al) := by
  unfold mm_block_set_footer
  congr 1
  omega

theorem mm_list_remove_mem (s : AllocState) (b : Nat) : (mm_list_remove s b).mem = s.mem := rfl

theorem mm_list_remove_freeList (s : AllocState) (b : Nat) :
    (mm_list_remove s b).freeList = s.freeList.erase b := rfl

theorem readWord_mm_list_remove (s : AllocState) (b a : Nat) :
    readWord (mm_list_remove s b) a = readWord s a := rfl

theorem mm_block_size_mm_list_remove (s : AllocState) (b a : Nat) :
    mm_block_size (mm_list_remove s b) a = mm_block_size s a := rfl

/-- Claim C7: for a live pointer `p` to an allocated block of size `sz`
whose physical successor is a free block of size `tz`, and a request `n`
larger than the current capacity `sz - 8` but within the combined capacity
`sz + tz - 8`, `mm_realloc` absorbs the successor in place: it returns `p`
unchanged, removes the successor from the free list, rewrites header and
footer as one allocated block of the combined size, and never invokes the
backing-store growth primitive (break and budget are unchanged). -/
theorem mm_realloc_absorbs_free_successor (fuel : Nat) (s : AllocState) (p n sz tz : Nat)
    (hp4 : p % 4 = 0) (hp : 8 ≤ p)
    (hdr : readWord s (p - 4) = packTag (sz : Int) 1)
    (hnext : readWord s (p - 4 + sz) = packTag (tz : Int) 0)
    (h8 : sz % 8 = 0) (hsz : 16 ≤ sz)
    (ht8 : tz % 8 = 0) (htz : 16 ≤ tz)
    (hlt : sz + tz < 2147483648)
    (hbig : sz - 8 < n) (hfit : n ≤ sz + tz - 8) :
    (mm_realloc fuel s (some p) n).2 = some p ∧
    (mm_realloc fuel s (some p) n).1.brk = s.brk ∧
    (mm_realloc fuel s (some p) n).1.budget = s.budget ∧
    (mm_realloc fuel s (some p) n).1.freeList = s.freeList.erase (p - 4 + sz) ∧
    readWord (mm_realloc fuel s (some p) n).1 (p - 4) = packTag ((sz + tz : Nat) : Int) 1 ∧
    readWord (mm_realloc fuel s (some p) n).1 (p - 4 + sz + tz - 4) =
      packTag ((sz + tz : Nat) : Int) 1 := by
  have hbs := mm_block_size_read s (p - 4) sz 1 hdr h8 (by omega) (by omega)
  have hbn := mm_block_next_read s (p - 4) sz 1 hdr h8 (by omega) (by omega)
  have hts := mm_block_size_read s (p - 4 + sz) tz 0 hnext ht8 (by omega) (by omega)
  have hta := mm_block_allocated_read s (p - 4 + sz) tz 0 hnext ht8 (by omega) (by omega)
  have habs : mm_realloc fuel s (some p) n =
      (mm_block_set_footer (mm_block_set_header (mm_list_remove s (p - 4 + sz))
        (p - 4) (sizeTToInt ((sz + tz : Nat))) 1)
        (p - 4) (sizeTToInt ((sz + tz : Nat))) 1, some p) := by
    simp only [mm_realloc]
    rw [if_neg (by omega), hbs, intToSizeT_coe_sub_eight sz (by omega) (by omega),
      if_neg (by omega), hbn, hta, if_pos rfl, hts,
      intToSizeT_coe sz (by omega), intToSizeT_coe tz (by omega)]
    have hc : (sz + tz) % 18446744073709551616 = (sz + tz : Nat) := by omega
    rw [hc, if_pos (by omega)]
  rw [habs]
  have hst : sizeTToInt ((sz + tz : Nat)) = (((sz + tz : Nat) : Nat) : Int) :=
    sizeTToInt_small (sz + tz) (by omega)
  rw [hst, mm_block_set_footer_coe _ (p - 4) (sz + tz) 1 (by omega), mm_block_set_header_eq]
  refine ⟨rfl, rfl, rfl, rfl, ?_, ?_⟩
  · dsimp only
    rw [readWord_writeWord_other _ _ _ _ (by omega) (by omega) (by omega),
      readWord_writeWord_self]
  · dsimp only
    have haddr : p - 4 + sz + tz - 4 = p - 4 + (sz + tz) - 4 := by omega
    rw [haddr, readWord_writeWord_self]

theorem mm_realloc_absorbs_free_successor_witness :
    (mm_realloc 4 heapOneAlloc (some 16) 40).2 = some 16 ∧
    (mm_realloc 4 heapOneAlloc (some 16) 40).1.brk = heapOneAlloc.brk ∧
    (mm_realloc 4 heapOneAlloc (some 16) 40).1.budget = heapOneAlloc.budget ∧
    (mm_realloc 4 heapOneAlloc (some 16) 40).1.freeList = heapOneAlloc.freeList.erase 36 ∧
    readWord (mm_realloc 4 heapOneAlloc (some 16) 40).1 12 = packTag ((64 : Nat) : Int) 1 ∧
    readWord (mm_realloc 4 heapOneAlloc (some 16) 40).1 72 = packTag ((64 : Nat) : Int) 1 :=
  mm_realloc_absorbs_free_successor 4 heapOneAlloc 16 40 24 40 (by decide) (by decide)
    (by decide) (by decide) (by decide) (by decide) (by decide) (by decide) (by decide)
    (by decide) (by decide)

theorem readWord_mm_list_prepend (s : AllocState) (b a : Nat) :
    readWord (mm_list_prepend s b) a = readWord s a := rfl

/-- Claim C3 (amended: the request `R` must be at least 8 bytes; at `R = 0`
the code leaves the "allocated" piece free and on the free list, see the
counterexample): for a free block of size `S` placed for a request of `R`
bytes, `8 ≤ R ≤ S`, both multiples of 8: if `S - R < 16` the whole block is
allocated as-is and removed from the free list; if `S - R ≥ 16` and
`R ≥ 75` the allocated `R`-byte piece sits at the high end, the free
`S - R`-byte remainder keeps the low address with only its tags rewritten
and the free list untouched; if `S - R ≥ 16` and `R < 75` the allocated
piece sits at the low end (and is removed from the list) and the remainder
at the high end is prepended to the free list.  The returned handle is the
allocated piece's address in every case. -/
theorem place_split_policy (s : AllocState) (bp S R : Nat)
    (hbp4 : bp % 4 = 0) (hbp : 4 ≤ bp)
    (hhdr : readWord s bp = packTag (S : Int) 0)
    (hS8 : S % 8 = 0) (hS : 16 ≤ S) (hSlt : S < 2147483648)
    (hR8 : R % 8 = 0) (hR : 8 ≤ R) (hRS : R ≤ S) :
    (S - R < 16 →
      (place s bp (R : Int)).2 = bp ∧
      (place s bp (R : Int)).1.freeList = s.freeList.erase bp ∧
      readWord (place s bp (R : Int)).1 bp = packTag (S : Int) 1 ∧
      readWord (place s bp (R : Int)).1 (bp + S - 4) = packTag (S : Int) 1) ∧
    (16 ≤ S - R → 75 ≤ R →
      (place s bp (R : Int)).2 = bp + (S - R) ∧
      (place s bp (R : Int)).1.freeList = s.freeList ∧
      readWord (place s bp (R : Int)).1 bp = packTag ((S - R : Nat) : Int) 0 ∧
      readWord (place s bp (R : Int)).1 (bp + (S - R) - 4) = packTag ((S - R : Nat) : Int) 0 ∧
      readWord (place s bp (R : Int)).1 (bp + (S - R)) = packTag (R : Int) 1 ∧
      readWord (place s bp (R : Int)).1 (bp + S - 4) = packTag (R : Int) 1) ∧
    (16 ≤ S - R → R < 75 →
      (place s bp (R : Int)).2 = bp ∧
      (place s bp (R : Int)).1.freeList = (bp + R) :: s.freeList.erase bp ∧
      readWord (place s bp (R : Int)).1 bp = packTag (R : Int) 1 ∧
      readWord (place s bp (R : Int)).1 (bp + R - 4) = packTag (R : Int) 1 ∧
      readWord (place s bp (R : Int)).1 (bp + R) = packTag ((S - R : Nat) : Int) 0 ∧
      readWord (place s bp (R : Int)).1 (bp + S - 4) = packTag ((S - R : Nat) : Int) 0) := by
  have hbs := mm_block_size_read s bp S 0 hhdr hS8 hSlt (by omega)
  refine ⟨?_, ?_, ?_⟩
  · intro h1
    simp only [place]
    rw [hbs, asInt32_toWord32_small ((S : Int) - (R : Int)) (by omega) (by omega), if_neg (by omega), mm_block_set_footer_coe _ bp S 1 (by omega),
      mm_block_set_header_eq]
    refine ⟨by trivial, by trivial, ?_, ?_⟩
    · rw [readWord_mm_list_remove,
        readWord_writeWord_other _ _ _ _ (by omega) (by omega) (by omega),
        readWord_writeWord_self]
    · rw [readWord_mm_list_remove, readWord_writeWord_self]
  · intro h1 h2
    have hnew : (S : Int) - (R : Int) = ((S - R : Nat) : Int) := by omega
    simp only [place]
    rw [hbs, asInt32_toWord32_small ((S : Int) - (R : Int)) (by omega) (by omega), hnew, if_pos (by exact_mod_cast by omega : (16 : Int) ≤ ((S - R : Nat) : Int)),
      if_pos (by exact_mod_cast h2 : (75 : Int) ≤ (R : Int))]
    simp only [mm_block_set_header_eq]
    rw [mm_block_set_footer_coe _ bp (S - R) 1 (by omega)]
    have hnb : mm_block_next (writeWord (writeWord s bp (packTag ((S - R : Nat) : Int) 1))
        (bp + (S - R) - 4) (packTag ((S - R : Nat) : Int) 1)) bp = bp + (S - R) :=
      mm_block_next_read _ _ (S - R) 1
        (by rw [readWord_writeWord_other _ _ _ _ (by omega) (by omega) (by omega),
          readWord_writeWord_self]) (by omega) (by omega) (by omega)
    rw [hnb, mm_block_set_footer_coe _ (bp + (S - R)) R 1 (by omega),
      mm_block_set_footer_coe _ bp (S - R) 0 (by omega)]
    refine ⟨by trivial, by trivial, ?_, ?_, ?_, ?_⟩
    · rw [readWord_writeWord_other _ _ _ _ (by omega) (by omega) (by omega),
        readWord_writeWord_self]
    · rw [readWord_writeWord_self]
    · rw [readWord_writeWord_other _ _ _ _ (by omega) (by omega) (by omega),
        readWord_writeWord_other _ _ _ _ (by omega) (by omega) (by omega),
        readWord_writeWord_other _ _ _ _ (by omega) (by omega) (by omega),
        readWord_writeWord_self]
    · rw [show bp + S - 4 = bp + (S - R) + R - 4 from by omega,
        readWord_writeWord_other _ _ _ _ (by omega) (by omega) (by omega),
        readWord_writeWord_other _ _ _ _ (by omega) (by omega) (by omega),
        readWord_writeWord_self]
  · intro h1 h2
    have hnew : (S : Int) - (R : Int) = ((S - R : Nat) : Int) := by omega
    simp only [place]
    rw [hbs, asInt32_toWord32_small ((S : Int) - (R : Int)) (by omega) (by omega), hnew, if_pos (by exact_mod_cast by omega : (16 : Int) ≤ ((S - R : Nat) : Int)),
      if_neg (by exact_mod_cast by omega : ¬ (75 : Int) ≤ (R : Int))]
    simp only [mm_block_set_header_eq]
    rw [mm_block_set_footer_coe _ bp R 1 (by omega)]
    have hnb : mm_block_next (writeWord (writeWord s bp (packTag (R : Int) 1))
        (bp + R - 4) (packTag (R : Int) 1)) bp = bp + R :=
      mm_block_next_read _ _ R 1
        (by rw [readWord_writeWord_other _ _ _ _ (by omega) (by omega) (by omega),
          readWord_writeWord_self]) (by omega) (by omega) (by omega)
    rw [hnb, mm_block_set_footer_coe _ (bp + R) (S - R) 0 (by omega)]
    refine ⟨by trivial, ?_, ?_, ?_, ?_, ?_⟩
    · show ((bp + R) :: s.freeList).erase bp = (bp + R) :: s.freeList.erase bp
      exact List.erase_cons_tail (by simp only [beq_iff_eq]; omega)
    · rw [readWord_mm_list_remove,
        readWord_writeWord_other _ _ _ _ (by omega) (by omega) (by omega),
        readWord_writeWord_other _ _ _ _ (by omega) (by omega) (by omega),
        readWord_mm_list_prepend,
        readWord_writeWord_other _ _ _ _ (by omega) (by omega) (by omega),
        readWord_writeWord_self]
    · rw [readWord_mm_list_remove,
        readWord_writeWord_other _ _ _ _ (by omega) (by omega) (by omega),
        readWord_writeWord_other _ _ _ _ (by omega) (by omega) (by omega),
        readWord_mm_list_prepend, readWord_writeWord_self]
    · rw [readWord_mm_list_remove,
        readWord_writeWord_other _ _ _ _ (by omega) (by omega) (by omega),
        readWord_writeWord_self]
    · rw [readWord_mm_list_remove,
        show bp + S - 4 = bp + R + (S - R) - 4 from by omega,
        readWord_writeWord_self]

theorem place_split_policy_witness :
    (place heap4096 12 ((24 : Nat) : Int)).2 = 12 ∧
    (place heap4096 12 ((24 : Nat) : Int)).1.freeList = (12 + 24) :: heap4096.freeList.erase 12 ∧
    readWord (place heap4096 12 ((24 : Nat) : Int)).1 12 = packTag ((24 : Nat) : Int) 1 ∧
    readWord (place heap4096 12 ((24 : Nat) : Int)).1 (12 + 24 - 4) = packTag ((24 : Nat) : Int) 1 ∧
    readWord (place heap4096 12 ((24 : Nat) : Int)).1 (12 + 24) = packTag ((64 - 24 : Nat) : Int) 0 ∧
    readWord (place heap4096 12 ((24 : Nat) : Int)).1 (12 + 64 - 4) =
      packTag ((64 - 24 : Nat) : Int) 0 :=
  (place_split_policy heap4096 12 64 24 (by decide) (by decide) (by decide) (by decide)
    (by decide) (by decide) (by decide) (by decide) (by decide)).2.2 (by decide) (by decide)

theorem mm_block_allocated_def (s : AllocState) (a : Nat) :
    mm_block_allocated s a = readWord s a &&& 1 := rfl

/-- Shape of `free_coalesce` when both physical neighbours are allocated:
the freed block keeps its size, gets free tags, and is prepended to the
free list. -/
theorem free_coalesce_both_alloc (s : AllocState) (bp SZ P Q al : Nat)
    (hbp4 : bp % 4 = 0) (hbp : 8 ≤ bp) (hPbp : P ≤ bp)
    (hP8 : P % 8 = 0) (hP : 8 ≤ P) (hPlt : P < 2147483648)
    (hSZ8 : SZ % 8 = 0) (hSZ : 16 ≤ SZ) (hSZlt : SZ < 2147483648) (hal : al ≤ 1)
    (hQ8 : Q % 8 = 0) (hQlt : Q < 2147483648)
    (hhdr : readWord s bp = packTag (SZ : Int) al)
    (hLfoot : readWord s (bp - 4) = packTag (P : Int) 1)
    (hLhead : readWord s (bp - P) = packTag (P : Int) 1)
    (hNh : readWord s (bp + SZ) = packTag (Q : Int) 1) :
    free_coalesce s bp =
      (mm_list_prepend (writeWord (writeWord s bp (packTag (SZ : Int) 0))
        (bp + SZ - 4) (packTag (SZ : Int) 0)) bp, bp) := by
  have hbs := mm_block_size_read s bp SZ al hhdr hSZ8 hSZlt hal
  simp only [free_coalesce]
  rw [hbs]
  simp only [mm_block_set_header_eq]
  rw [mm_block_set_footer_coe _ bp SZ 0 (by omega)]
  have hf : readWord (writeWord (writeWord s bp (packTag (SZ : Int) 0))
      (bp + SZ - 4) (packTag (SZ : Int) 0)) (bp - 4) = packTag (P : Int) 1 := by
    rw [readWord_writeWord_other _ _ _ _ (by omega) (by omega) (by omega),
      readWord_writeWord_other _ _ _ _ (by omega) (by omega) (by omega)]
    exact hLfoot
  have hprev := mm_block_prev_read _ bp P 1 hf hP8 hPlt (by omega) hPbp
  rw [hprev]
  have hping : readWord (writeWord (writeWord s bp (packTag (SZ : Int) 0))
      (bp + SZ - 4) (packTag (SZ : Int) 0)) (bp - P) = packTag (P : Int) 1 := by
    rw [readWord_writeWord_other _ _ _ _ (by omega) (by omega) (by omega),
      readWord_writeWord_other _ _ _ _ (by omega) (by omega) (by omega)]
    exact hLhead
  have hpa := mm_block_allocated_read _ (bp - P) P 1 hping hP8 hPlt (by omega)
  rw [hpa]
  have hh : readWord (writeWord (writeWord s bp (packTag (SZ : Int) 0))
      (bp + SZ - 4) (packTag (SZ : Int) 0)) bp = packTag (SZ : Int) 0 := by
    rw [readWord_writeWord_other _ _ _ _ (by omega) (by omega) (by omega),
      readWord_writeWord_self]
  have hnext := mm_block_next_read _ bp SZ 0 hh hSZ8 hSZlt (by omega)
  rw [hnext]
  have hng : readWord (writeWord (writeWord s bp (packTag (SZ : Int) 0))
      (bp + SZ - 4) (packTag (SZ : Int) 0)) (bp + SZ) = packTag (Q : Int) 1 := by
    rw [readWord_writeWord_other _ _ _ _ (by omega) (by omega) (by omega),
      readWord_writeWord_other _ _ _ _ (by omega) (by omega) (by omega)]
    exact hNh
  have hna := mm_block_allocated_read _ (bp + SZ) Q 1 hng hQ8 hQlt (by omega)
  rw [hna, if_pos (by omega : (1 : Nat) ≠ 0 ∧ (1 : Nat) ≠ 0)]

/-- Shape of `free_coalesce` when only the physical successor is free: the
successor is removed from the free list, the freed block is prepended, and
the merged tags are written at the freed block's own address. -/
theorem free_coalesce_merge_next (s : AllocState) (bp SZ NS P al : Nat)
    (hbp4 : bp % 4 = 0) (hbp : 8 ≤ bp) (hPbp : P ≤ bp)
    (hP8 : P % 8 = 0) (hP : 8 ≤ P) (hPlt : P < 2147483648)
    (hSZ8 : SZ % 8 = 0) (hSZ : 16 ≤ SZ)
    (hNS8 : NS % 8 = 0) (hNS : 16 ≤ NS) (hlt : SZ + NS < 2147483648) (hal : al ≤ 1)
    (hhdr : readWord s bp = packTag (SZ : Int) al)
    (hLfoot : readWord s (bp - 4) = packTag (P : Int) 1)
    (hLhead : readWord s (bp - P) = packTag (P : Int) 1)
    (hNh : readWord s (bp + SZ) = packTag (NS : Int) 0) :
    free_coalesce s bp =
      (writeWord (writeWord (mm_list_prepend (mm_list_remove
          (writeWord (writeWord s bp (packTag (SZ : Int) 0)) (bp + SZ - 4) (packTag (SZ : Int) 0))
          (bp + SZ)) bp)
        bp (packTag ((SZ + NS : Nat) : Int) 0))
        (bp + (SZ + NS) - 4) (packTag ((SZ + NS : Nat) : Int) 0), bp) := by
  have hbs := mm_block_size_read s bp SZ al hhdr hSZ8 (by omega) hal
  simp only [free_coalesce]
  rw [hbs]
  simp only [mm_block_set_header_eq]
  rw [mm_block_set_footer_coe _ bp SZ 0 (by omega)]
  have hf : readWord (writeWord (writeWord s bp (packTag (SZ : Int) 0))
      (bp + SZ - 4) (packTag (SZ : Int) 0)) (bp - 4) = packTag (P : Int) 1 := by
    rw [readWord_writeWord_other _ _ _ _ (by omega) (by omega) (by omega),
      readWord_writeWord_other _ _ _ _ (by omega) (by omega) (by omega)]
    exact hLfoot
  have hprev := mm_block_prev_read _ bp P 1 hf hP8 hPlt (by omega) hPbp
  rw [hprev]
  have hping : readWord (writeWord (writeWord s bp (packTag (SZ : Int) 0))
      (bp + SZ - 4) (packTag (SZ : Int) 0)) (bp - P) = packTag (P : Int) 1 := by
    rw [readWord_writeWord_other _ _ _ _ (by omega) (by omega) (by omega),
      readWord_writeWord_other _ _ _ _ (by omega) (by omega) (by omega)]
    exact hLhead
  have hpa := mm_block_allocated_read _ (bp - P) P 1 hping hP8 hPlt (by omega)
  rw [hpa]
  have hh : readWord (writeWord (writeWord s bp (packTag (SZ : Int) 0))
      (bp + SZ - 4) (packTag (SZ : Int) 0)) bp = packTag (SZ : Int) 0 := by
    rw [readWord_writeWord_other _ _ _ _ (by omega) (by omega) (by omega),
      readWord_writeWord_self]
  have hnext := mm_block_next_read _ bp SZ 0 hh hSZ8 (by omega) (by omega)
  rw [hnext]
  have hng : readWord (writeWord (writeWord s bp (packTag (SZ : Int) 0))
      (bp + SZ - 4) (packTag (SZ : Int) 0)) (bp + SZ) = packTag (NS : Int) 0 := by
    rw [readWord_writeWord_other _ _ _ _ (by omega) (by omega) (by omega),
      readWord_writeWord_other _ _ _ _ (by omega) (by omega) (by omega)]
    exact hNh
  have hna := mm_block_allocated_read _ (bp + SZ) NS 0 hng hNS8 (by omega) (by omega)
  rw [hna, if_neg (by omega : ¬ ((1 : Nat) ≠ 0 ∧ (0 : Nat) ≠ 0)),
    if_pos (by omega : (1 : Nat) ≠ 0 ∧ (0 : Nat) = 0)]
  have hns := mm_block_size_read _ (bp + SZ) NS 0 hng hNS8 (by omega) (by omega)
  rw [hns, show (SZ : Int) + (NS : Int) = ((SZ + NS : Nat) : Int) from by push_cast; ring,
    mm_block_set_footer_coe _ bp (SZ + NS) 0 (by omega)]

/-- Shape of `free_coalesce` when only the physical predecessor is free: the
free list is untouched, the merged tags are written at the predecessor's
address, and the predecessor is returned as the coalesced block. -/
theorem free_coalesce_merge_prev (s : AllocState) (bp SZ PS Q al : Nat)
    (hbp4 : bp % 4 = 0) (hbp : 8 ≤ bp) (hPSbp : PS ≤ bp)
    (hPS8 : PS % 8 = 0) (hPS : 16 ≤ PS)
    (hSZ8 : SZ % 8 = 0) (hSZ : 16 ≤ SZ) (hlt : SZ + PS < 2147483648) (hal : al ≤ 1)
    (hQ8 : Q % 8 = 0) (hQlt : Q < 2147483648)
    (hhdr : readWord s bp = packTag (SZ : Int) al)
    (hLfoot : readWord s (bp - 4) = packTag (PS : Int) 0)
    (hLhead : readWord s (bp - PS) = packTag (PS : Int) 0)
    (hNh : readWord s (bp + SZ) = packTag (Q : Int) 1) :
    free_coalesce s bp =
      (writeWord (writeWord
          (writeWord (writeWord s bp (packTag (SZ : Int) 0)) (bp + SZ - 4) (packTag (SZ : Int) 0))
          (bp - PS) (packTag ((SZ + PS : Nat) : Int) 0))
        (bp - PS + (SZ + PS) - 4) (packTag ((SZ + PS : Nat) : Int) 0), bp - PS) := by
  have hbs := mm_block_size_read s bp SZ al hhdr hSZ8 (by omega) hal
  simp only [free_coalesce]
  rw [hbs]
  simp only [mm_block_set_header_eq]
  rw [mm_block_set_footer_coe _ bp SZ 0 (by omega)]
  have hf : readWord (writeWord (writeWord s bp (packTag (SZ : Int) 0))
      (bp + SZ - 4) (packTag (SZ : Int) 0)) (bp - 4) = packTag (PS : Int) 0 := by
    rw [readWord_writeWord_other _ _ _ _ (by omega) (by omega) (by omega),
      readWord_writeWord_other _ _ _ _ (by omega) (by omega) (by omega)]
    exact hLfoot
  have hprev := mm_block_prev_read _ bp PS 0 hf hPS8 (by omega) (by omega) hPSbp
  rw [hprev]
  have hping : readWord (writeWord (writeWord s bp (packTag (SZ : Int) 0))
      (bp + SZ - 4) (packTag (SZ : Int) 0)) (bp - PS) = packTag (PS : Int) 0 := by
    rw [readWord_writeWord_other _ _ _ _ (by omega) (by omega) (by omega),
      readWord_writeWord_other _ _ _ _ (by omega) (by omega) (by omega)]
    exact hLhead
  have hpa := mm_block_allocated_read _ (bp - PS) PS 0 hping hPS8 (by omega) (by omega)
  rw [hpa]
  have hh : readWord (writeWord (writeWord s bp (packTag (SZ : Int) 0))
      (bp + SZ - 4) (packTag (SZ : Int) 0)) bp = packTag (SZ : Int) 0 := by
    rw [readWord_writeWord_other _ _ _ _ (by omega) (by omega) (by omega),
      readWord_writeWord_self]
  have hnext := mm_block_next_read _ bp SZ 0 hh hSZ8 (by omega) (by omega)
  rw [hnext]
  have hng : readWord (writeWord (writeWord s bp (packTag (SZ : Int) 0))
      (bp + SZ - 4) (packTag (SZ : Int) 0)) (bp + SZ) = packTag (Q : Int) 1 := by
    rw [readWord_writeWord_other _ _ _ _ (by omega) (by omega) (by omega),
      readWord_writeWord_other _ _ _ _ (by omega) (by omega) (by omega)]
    exact hNh
  have hna := mm_block_allocated_read _ (bp + SZ) Q 1 hng hQ8 hQlt (by omega)
  rw [hna, if_neg (by omega : ¬ ((0 : Nat) ≠ 0 ∧ (1 : Nat) ≠ 0)),
    if_neg (by omega : ¬ ((0 : Nat) ≠ 0 ∧ (1 : Nat) = 0)),
    if_pos (by omega : (0 : Nat) = 0 ∧ (1 : Nat) ≠ 0)]
  have hps := mm_block_size_read _ (bp - PS) PS 0 hping hPS8 (by omega) (by omega)
  rw [hps, show (SZ : Int) + (PS : Int) = ((SZ + PS : Nat) : Int) from by push_cast; ring]
  have hprev3 : mm_block_prev (writeWord (writeWord (writeWord s bp (packTag (SZ : Int) 0))
      (bp + SZ - 4) (packTag (SZ : Int) 0)) (bp - PS) (packTag ((SZ + PS : Nat) : Int) 0)) bp =
      bp - PS :=
    mm_block_prev_read _ bp PS 0
      (by rw [readWord_writeWord_other _ _ _ _ (by omega) (by omega) (by omega)]; exact hf)
      hPS8 (by omega) (by omega) hPSbp
  rw [hprev3, mm_block_set_footer_coe _ (bp - PS) (SZ + PS) 0 (by omega)]
  have hprev4 : mm_block_prev (writeWord (writeWord (writeWord (writeWord s bp
      (packTag (SZ : Int) 0)) (bp + SZ - 4) (packTag (SZ : Int) 0))
      (bp - PS) (packTag ((SZ + PS : Nat) : Int) 0))
      (bp - PS + (SZ + PS) - 4) (packTag ((SZ + PS : Nat) : Int) 0)) bp = bp - PS :=
    mm_block_prev_read _ bp PS 0
      (by rw [readWord_writeWord_other _ _ _ _ (by omega) (by omega) (by omega),
        readWord_writeWord_other _ _ _ _ (by omega) (by omega) (by omega)]; exact hf)
      hPS8 (by omega) (by omega) hPSbp
  rw [hprev4]

theorem mm_free_some (s : AllocState) (p : Nat) :
    mm_free s (some p) = (free_coalesce s (p - 4)).1 := rfl

/-- Claim C6: freeing two physically adjacent allocated blocks (sizes `SA`
at `a` and `SB` at `a + SA`, with allocated physical neighbours on both
outer sides), in either order, yields a single free block at `a` whose size
is exactly `SA + SB`: the merged header and footer carry `(SA + SB, free)`.
When the second free sees only its successor free (order B first), the
merged tags are written at the current block's address `a` and the free
list gains `a` (the successor having been removed); when it sees its
predecessor free (order A first), the merged tags are written at the
predecessor's address `a`, which already sits in the free list and stays
there untouched.  In both orders the final free list is `a` consed onto the
original one. -/
theorem free_adjacent_pair_coalesces_to_sum (s : AllocState) (a SA SB P Q : Nat)
    (ha4 : a % 4 = 0) (ha : 8 ≤ a) (hPa : P ≤ a)
    (hP8 : P % 8 = 0) (hP : 8 ≤ P) (hPlt : P < 2147483648)
    (hA8 : SA % 8 = 0) (hA : 16 ≤ SA)
    (hB8 : SB % 8 = 0) (hB : 16 ≤ SB)
    (hlt : SA + SB < 2147483648)
    (hQ8 : Q % 8 = 0) (hQlt : Q < 2147483648)
    (hAh : readWord s a = packTag (SA : Int) 1)
    (hAf : readWord s (a + SA - 4) = packTag (SA : Int) 1)
    (hBh : readWord s (a + SA) = packTag (SB : Int) 1)
    (hL : readWord s (a - 4) = packTag (P : Int) 1)
    (hLh : readWord s (a - P) = packTag (P : Int) 1)
    (hRh : readWord s (a + SA + SB) = packTag (Q : Int) 1) :
    (readWord (mm_free (mm_free s (some (a + 4))) (some (a + SA + 4))) a =
        packTag ((SA + SB : Nat) : Int) 0 ∧
      readWord (mm_free (mm_free s (some (a + 4))) (some (a + SA + 4))) (a + SA + SB - 4) =
        packTag ((SA + SB : Nat) : Int) 0 ∧
      (mm_free (mm_free s (some (a + 4))) (some (a + SA + 4))).freeList = a :: s.freeList) ∧
    (readWord (mm_free (mm_free s (some (a + SA + 4))) (some (a + 4))) a =
        packTag ((SA + SB : Nat) : Int) 0 ∧
      readWord (mm_free (mm_free s (some (a + SA + 4))) (some (a + 4))) (a + SA + SB - 4) =
        packTag ((SA + SB : Nat) : Int) 0 ∧
      (mm_free (mm_free s (some (a + SA + 4))) (some (a + 4))).freeList = a :: s.freeList) := by
  constructor
  · -- free A first, then B
    have h1 : mm_free s (some (a + 4)) = mm_list_prepend (writeWord (writeWord s a
        (packTag (SA : Int) 0)) (a + SA - 4) (packTag (SA : Int) 0)) a := by
      rw [mm_free_some, show a + 4 - 4 = a from by omega,
        free_coalesce_both_alloc s a SA P SB 1 ha4 ha hPa hP8 hP hPlt hA8 hA (by omega)
          (by omega) hB8 (by omega) hAh hL hLh hBh]
    have hBh' : readWord (mm_list_prepend (writeWord (writeWord s a
        (packTag (SA : Int) 0)) (a + SA - 4) (packTag (SA : Int) 0)) a) (a + SA) =
        packTag (SB : Int) 1 := by
      rw [readWord_mm_list_prepend,
        readWord_writeWord_other _ _ _ _ (by omega) (by omega) (by omega),
        readWord_writeWord_other _ _ _ _ (by omega) (by omega) (by omega)]
      exact hBh
    have hLf' : readWord (mm_list_prepend (writeWord (writeWord s a
        (packTag (SA : Int) 0)) (a + SA - 4) (packTag (SA : Int) 0)) a) (a + SA - 4) =
        packTag (SA : Int) 0 := by
      rw [readWord_mm_list_prepend, readWord_writeWord_self]
    have hLh' : readWord (mm_list_prepend (writeWord (writeWord s a
        (packTag (SA : Int) 0)) (a + SA - 4) (packTag (SA : Int) 0)) a) (a + SA - SA) =
        packTag (SA : Int) 0 := by
      rw [show a + SA - SA = a from by omega, readWord_mm_list_prepend,
        readWord_writeWord_other _ _ _ _ (by omega) (by omega) (by omega),
        readWord_writeWord_self]
    have hNh' : readWord (mm_list_prepend (writeWord (writeWord s a
        (packTag (SA : Int) 0)) (a + SA - 4) (packTag (SA : Int) 0)) a) (a + SA + SB) =
        packTag (Q : Int) 1 := by
      rw [readWord_mm_list_prepend,
        readWord_writeWord_other _ _ _ _ (by omega) (by omega) (by omega),
        readWord_writeWord_other _ _ _ _ (by omega) (by omega) (by omega)]
      exact hRh
    have h2 := free_coalesce_merge_prev (mm_list_prepend (writeWord (writeWord s a
        (packTag (SA : Int) 0)) (a + SA - 4) (packTag (SA : Int) 0)) a) (a + SA) SB SA Q 1
      (by omega) (by omega) (by omega) hA8 hA hB8 hB (by omega) (by omega) hQ8 hQlt
      hBh' hLf' hLh' hNh'
    rw [show a + SA - SA = a from by omega] at h2
    rw [show SB + SA = SA + SB from by omega] at h2
    rw [show a + (SA + SB) - 4 = a + SA + SB - 4 from by omega] at h2
    rw [h1, mm_free_some, show a + SA + 4 - 4 = a + SA from by omega, h2]
    refine ⟨?_, ?_, rfl⟩
    · dsimp only
      rw [readWord_writeWord_other _ _ _ _ (by omega) (by omega) (by omega),
        readWord_writeWord_self]
    · dsimp only
      rw [readWord_writeWord_self]
  · -- free B first, then A
    have h1 : mm_free s (some (a + SA + 4)) = mm_list_prepend (writeWord (writeWord s (a + SA)
        (packTag (SB : Int) 0)) (a + SA + SB - 4) (packTag (SB : Int) 0)) (a + SA) := by
      have hAh' : readWord s (a + SA - SA) = packTag (SA : Int) 1 := by
        rw [show a + SA - SA = a from by omega]
        exact hAh
      rw [mm_free_some, show a + SA + 4 - 4 = a + SA from by omega,
        free_coalesce_both_alloc s (a + SA) SB SA Q 1 (by omega) (by omega) (by omega)
          hA8 (by omega) (by omega) hB8 hB (by omega) (by omega) hQ8 hQlt hBh hAf hAh' hRh]
    have hAh' : readWord (mm_list_prepend (writeWord (writeWord s (a + SA)
        (packTag (SB : Int) 0)) (a + SA + SB - 4) (packTag (SB : Int) 0)) (a + SA)) a =
        packTag (SA : Int) 1 := by
      rw [readWord_mm_list_prepend,
        readWord_writeWord_other _ _ _ _ (by omega) (by omega) (by omega),
        readWord_writeWord_other _ _ _ _ (by omega) (by omega) (by omega)]
      exact hAh
    have hL' : readWord (mm_list_prepend (writeWord (writeWord s (a + SA)
        (packTag (SB : Int) 0)) (a + SA + SB - 4) (packTag (SB : Int) 0)) (a + SA)) (a - 4) =
        packTag (P : Int) 1 := by
      rw [readWord_mm_list_prepend,
        readWord_writeWord_other _ _ _ _ (by omega) (by omega) (by omega),
        readWord_writeWord_other _ _ _ _ (by omega) (by omega) (by omega)]
      exact hL
    have hLh' : readWord (mm_list_prepend (writeWord (writeWord s (a + SA)
        (packTag (SB : Int) 0)) (a + SA + SB - 4) (packTag (SB : Int) 0)) (a + SA)) (a - P) =
        packTag (P : Int) 1 := by
      rw [readWord_mm_list_prepend,
        readWord_writeWord_other _ _ _ _ (by omega) (by omega) (by omega),
        readWord_writeWord_other _ _ _ _ (by omega) (by omega) (by omega)]
      exact hLh
    have hNh' : readWord (mm_list_prepend (writeWord (writeWord s (a + SA)
        (packTag (SB : Int) 0)) (a + SA + SB - 4) (packTag (SB : Int) 0)) (a + SA)) (a + SA) =
        packTag (SB : Int) 0 := by
      rw [readWord_mm_list_prepend,
        readWord_writeWord_other _ _ _ _ (by omega) (by omega) (by omega),
        readWord_writeWord_self]
    have h2 := free_coalesce_merge_next (mm_list_prepend (writeWord (writeWord s (a + SA)
        (packTag (SB : Int) 0)) (a + SA + SB - 4) (packTag (SB : Int) 0)) (a + SA)) a SA SB P 1
      ha4 ha hPa hP8 hP hPlt hA8 hA hB8 hB (by omega) (by omega) hAh' hL' hLh' hNh'
    rw [show a + (SA + SB) - 4 = a + SA + SB - 4 from by omega] at h2
    rw [h1, mm_free_some, show a + 4 - 4 = a from by omega, h2]
    refine ⟨?_, ?_, ?_⟩
    · dsimp only
      rw [readWord_writeWord_other _ _ _ _ (by omega) (by omega) (by omega),
        readWord_writeWord_self]
    · dsimp only
      rw [readWord_writeWord_self]
    · show a :: (((a + SA) :: s.freeList).erase (a + SA)) = a :: s.freeList
      rw [List.erase_cons_head]

theorem free_adjacent_pair_coalesces_to_sum_witness :
    (readWord (mm_free (mm_free twoBlockState (some 16)) (some 40)) 12 =
        packTag ((48 : Nat) : Int) 0 ∧
      readWord (mm_free (mm_free twoBlockState (some 16)) (some 40)) 56 =
        packTag ((48 : Nat) : Int) 0 ∧
      (mm_free (mm_free twoBlockState (some 16)) (some 40)).freeList =
        12 :: twoBlockState.freeList) ∧
    (readWord (mm_free (mm_free twoBlockState (some 40)) (some 16)) 12 =
        packTag ((48 : Nat) : Int) 0 ∧
      readWord (mm_free (mm_free twoBlockState (some 40)) (some 16)) 56 =
        packTag ((48 : Nat) : Int) 0 ∧
      (mm_free (mm_free twoBlockState (some 40)) (some 16)).freeList =
        12 :: twoBlockState.freeList) :=
  free_adjacent_pair_coalesces_to_sum twoBlockState 12 24 24 8 0 (by decide) (by decide)
    (by decide) (by decide) (by decide) (by decide) (by decide) (by decide) (by decide)
    (by decide) (by decide) (by decide) (by decide) (by decide) (by decide) (by decide)
    (by decide) (by decide) (by decide)

/-! ### Lemmas about block chains -/

theorem chainAt_le (s : AllocState) :
    ∀ bl a e, chainAt s a e bl → a ≤ e := by
  intro bl
  induction bl with
  | nil => intro a e h; exact le_of_eq h
  | cons hd rest ih =>
    intro a e h
    obtain ⟨b, sz, al⟩ := hd
    obtain ⟨-, hsz, -, -, -, -, hrest⟩ := h
    have := ih (a + sz) e hrest
    omega

theorem chainAt_props (s : AllocState) :
    ∀ bl a e, chainAt s a e bl → a % 8 = 4 →
      ∀ b sz al, (b, sz, al) ∈ bl →
        b % 8 = 4 ∧ 16 ≤ sz ∧ sz % 8 = 0 ∧ sz < 2147483648 ∧ a ≤ b ∧ b + sz ≤ e ∧
        readWord s b = packTag (sz : Int) (bitOf al) ∧
        readWord s (b + sz - 4) = packTag (sz : Int) (bitOf al) := by
  intro bl
  induction bl with
  | nil => intro a e _ _ b sz al hmem; exact absurd hmem (List.not_mem_nil _)
  | cons hd rest ih =>
    intro a e h ha b sz al hmem
    obtain ⟨b0, sz0, al0⟩ := hd
    obtain ⟨hb0, hsz0, h80, hlt0, hh0, hf0, hrest⟩ := h
    rcases List.mem_cons.1 hmem with heq | hmem'
    · have h123 : b = b0 ∧ sz = sz0 ∧ al = al0 := by simpa [Prod.ext_iff] using heq
      obtain ⟨rfl, rfl, rfl⟩ := h123
      subst hb0
      have hle := chainAt_le s rest (b + sz) e hrest
      exact ⟨ha, hsz0, h80, hlt0, le_refl _, by omega, hh0, hf0⟩
    · have hres := ih (a + sz0) e hrest (by omega) b sz al hmem'
      obtain ⟨p1, p2, p3, p4, p5, p6, p7, p8⟩ := hres
      exact ⟨p1, p2, p3, p4, by omega, p6, p7, p8⟩

theorem chainAt_writeWord_high (s : AllocState) :
    ∀ bl a e w v, chainAt s a e bl → a % 4 = 0 → w % 4 = 0 → e ≤ w →
      chainAt (writeWord s w v) a e bl := by
  intro bl
  induction bl with
  | nil => intro a e w v h _ _ _; exact h
  | cons hd rest ih =>
    intro a e w v h ha hw hew
    obtain ⟨b, sz, al⟩ := hd
    obtain ⟨hb, hsz, h8, hlt, hh, hf, hrest⟩ := h
    have hae := chainAt_le s rest (a + sz) e hrest
    refine ⟨hb, hsz, h8, hlt, ?_, ?_, ih (a + sz) e w v hrest (by omega) hw hew⟩
    · rw [readWord_writeWord_other _ _ _ _ hw (by omega) (by omega)]
      exact hh
    · rw [readWord_writeWord_other _ _ _ _ hw (by omega) (by omega)]
      exact hf

theorem chainAt_snoc (s : AllocState) :
    ∀ (bl : List (Nat × Nat × Bool)) (a m e sz : Nat) (al : Bool), chainAt s a m bl →
      16 ≤ sz → sz % 8 = 0 → sz < 2147483648 →
      readWord s m = packTag (sz : Int) (bitOf al) →
      readWord s (m + sz - 4) = packTag (sz : Int) (bitOf al) →
      m + sz = e →
      chainAt s a e (bl ++ [(m, sz, al)]) := by
  intro bl
  induction bl with
  | nil =>
    intro a m e sz al h h1 h2 h3 h4 h5 h6
    have ham : a = m := h
    subst ham
    exact ⟨rfl, h1, h2, h3, h4, h5, h6⟩
  | cons hd rest ih =>
    intro a m e sz al h h1 h2 h3 h4 h5 h6
    obtain ⟨b, sz0, al0⟩ := hd
    obtain ⟨hb, hsz, h8, hlt, hh, hf, hrest⟩ := h
    exact ⟨hb, hsz, h8, hlt, hh, hf, ih (a + sz0) m e sz al hrest h1 h2 h3 h4 h5 h6⟩

theorem chainAt_concat_elim (s : AllocState) :
    ∀ (bl : List (Nat × Nat × Bool)) (a e : Nat), chainAt s a e bl → bl ≠ [] →
      ∃ (bl0 : List (Nat × Nat × Bool)) (b sz : Nat) (al : Bool),
        bl = bl0 ++ [(b, sz, al)] ∧ chainAt s a b bl0 ∧
        16 ≤ sz ∧ sz % 8 = 0 ∧ sz < 2147483648 ∧
        readWord s b = packTag (sz : Int) (bitOf al) ∧
        readWord s (b + sz - 4) = packTag (sz : Int) (bitOf al) ∧
        b + sz = e := by
  intro bl
  induction bl with
  | nil => intro a e _ hne; exact absurd rfl hne
  | cons hd rest ih =>
    intro a e h _
    obtain ⟨b, sz0, al0⟩ := hd
    obtain ⟨hb, hsz, h8, hlt, hh, hf, hrest⟩ := h
    by_cases hr : rest = []
    · subst hr
      refine ⟨[], b, sz0, al0, rfl, hb.symm, hsz, h8, hlt, ?_, ?_, ?_⟩
      · rw [hb]
        exact hh
      · rw [hb]
        exact hf
      · have hend : a + sz0 = e := hrest
        omega
    · obtain ⟨bl0, b1, sz1, al1, heq, hch, q1, q2, q3, q4, q5, q6⟩ :=
        ih (a + sz0) e hrest hr
      refine ⟨(b, sz0, al0) :: bl0, b1, sz1, al1, by rw [heq]; rfl,
        ⟨hb, hsz, h8, hlt, hh, hf, hch⟩, q1, q2, q3, q4, q5, q6⟩

theorem freeAddrs_append : ∀ l1 l2 : List (Nat × Nat × Bool),
    freeAddrs (l1 ++ l2) = freeAddrs l1 ++ freeAddrs l2 := by
  intro l1 l2
  induction l1 with
  | nil => rfl
  | cons hd rest ih =>
    obtain ⟨b, sz, al⟩ := hd
    cases al
    · show b :: freeAddrs (rest ++ l2) = (b :: freeAddrs rest) ++ freeAddrs l2
      rw [ih]
      rfl
    · show freeAddrs (rest ++ l2) = freeAddrs rest ++ freeAddrs l2
      exact ih

theorem mem_freeAddrs (bl : List (Nat × Nat × Bool)) (x : Nat) :
    x ∈ freeAddrs bl ↔ ∃ sz, (x, sz, false) ∈ bl := by
  induction bl with
  | nil => simp [freeAddrs]
  | cons hd rest ih =>
    obtain ⟨b, sz0, al⟩ := hd
    cases al
    · show x ∈ b :: freeAddrs rest ↔ ∃ sz, (x, sz, false) ∈ (b, sz0, false) :: rest
      simp only [List.mem_cons, ih, Prod.mk.injEq]
      constructor
      · rintro (rfl | ⟨sz, h⟩)
        · exact ⟨sz0, Or.inl ⟨rfl, rfl, trivial⟩⟩
        · exact ⟨sz, Or.inr h⟩
      · rintro ⟨sz, (⟨rfl, hsz, -⟩ | h)⟩
        · exact Or.inl rfl
        · exact Or.inr ⟨sz, h⟩
    · show x ∈ freeAddrs rest ↔ ∃ sz, (x, sz, false) ∈ (b, sz0, true) :: rest
      simp only [List.mem_cons, ih, Prod.mk.injEq]
      constructor
      · rintro ⟨sz, h⟩
        exact ⟨sz, Or.inr h⟩
      · rintro ⟨sz, (⟨h1, h2, h3⟩ | h)⟩
        · exact absurd h3 (by simp)
        · exact ⟨sz, h⟩

theorem chainAt_mem_congr (s t : AllocState) (h : s.mem = t.mem) :
    ∀ bl a e, chainAt s a e bl → chainAt t a e bl := by
  intro bl
  induction bl with
  | nil => intro a e hc; exact hc
  | cons hd rest ih =>
    intro a e hc
    obtain ⟨b, sz, al⟩ := hd
    obtain ⟨hb, hsz, h8, hlt, hh, hf, hrest⟩ := hc
    refine ⟨hb, hsz, h8, hlt, ?_, ?_, ih (a + sz) e hrest⟩
    · rw [readWord, ← h]; exact hh
    · rw [readWord, ← h]; exact hf

theorem heapInvWith_heapInv (s : AllocState) (bl : List (Nat × Nat × Bool))
    (h : HeapInvWith s bl) : HeapInv s := by
  obtain ⟨h1, h2, h3, h4, h5, h6, h7, h8, h9⟩ := h
  exact ⟨h1, h2, h3, h4, h5, h6, bl, h7, h8, h9⟩

theorem heapInv_heapInvWith (s : AllocState) (h : HeapInv s) :
    ∃ bl, HeapInvWith s bl := by
  obtain ⟨h1, h2, h3, h4, h5, h6, bl, h7, h8, h9⟩ := h
  exact ⟨bl, h1, h2, h3, h4, h5, h6, h7, h8, h9⟩

theorem extend_heap_unfold (s : AllocState) (z : Nat) (hz8 : z % 8 = 0) (hz : 16 ≤ z)
    (hzlt : z < 2147483648) (hbz : z ≤ s.budget) (hbrk16 : 16 ≤ s.brk)
    (hbrk4 : s.brk % 4 = 0) :
    extend_heap s (z : Int) =
      ((free_coalesce (writeWord (writeWord (writeWord
          { s with brk := s.brk + z, budget := s.budget - z }
          (s.brk - 4) (packTag (z : Int) 0))
          (s.brk - 4 + z - 4) (packTag (z : Int) 0))
          (s.brk - 4 + z) (packTag (0 : Int) 1)) (s.brk - 4)).1,
        some ((free_coalesce (writeWord (writeWord (writeWord
          { s with brk := s.brk + z, budget := s.budget - z }
          (s.brk - 4) (packTag (z : Int) 0))
          (s.brk - 4 + z - 4) (packTag (z : Int) 0))
          (s.brk - 4 + z) (packTag (0 : Int) 1)) (s.brk - 4)).2)) := by
  have ht : ((z : Int)).toNat = z := by omega
  have hsbrk : mem_sbrk s (z : Int) =
      (some s.brk, { s with brk := s.brk + z, budget := s.budget - z }) := by
    unfold mem_sbrk
    rw [if_pos ⟨by positivity, by exact_mod_cast hbz⟩, ht]
  unfold extend_heap
  rw [hsbrk]
  simp only [mm_block_set_header_eq]
  rw [mm_block_set_footer_coe _ (s.brk - 4) z 0 (by omega)]
  have hnb : mm_block_next (writeWord (writeWord
      { s with brk := s.brk + z, budget := s.budget - z }
      (s.brk - 4) (packTag (z : Int) 0))
      (s.brk - 4 + z - 4) (packTag (z : Int) 0)) (s.brk - 4) = s.brk - 4 + z :=
    mm_block_next_read _ _ z 0
      (by rw [readWord_writeWord_other _ _ _ _ (by omega) (by omega) (by omega),
        readWord_writeWord_self]) hz8 hzlt (by omega)
  rw [hnb]

theorem extend_heap_inv_aux (s : AllocState) (z P : Nat) (bl : List (Nat × Nat × Bool))
    (hz8 : z % 8 = 0) (hz : 16 ≤ z) (hbz : z ≤ s.budget)
    (hbrk8 : s.brk % 8 = 0) (hbrk16 : 16 ≤ s.brk)
    (hbound : s.brk + s.budget < 2147483648)
    (hpro1 : readWord s 4 = packTag (8 : Int) 1)
    (hpro2 : readWord s 8 = packTag (8 : Int) 1)
    (hchain : chainAt s 12 (s.brk - 4) bl)
    (hnodup : s.freeList.Nodup)
    (hiff : ∀ x, x ∈ s.freeList ↔ x ∈ freeAddrs bl)
    (hP8 : P % 8 = 0) (hP : 8 ≤ P) (hPlt : P < 2147483648) (hPbp : P ≤ s.brk - 4)
    (hLfoot : readWord s (s.brk - 4 - 4) = packTag (P : Int) 1)
    (hLhead : readWord s (s.brk - 4 - P) = packTag (P : Int) 1) :
    HeapInvWith (extend_heap s (z : Int)).1 (bl ++ [(s.brk - 4, z, false)]) := by
  have hzlt : z < 2147483648 := by omega
  rw [extend_heap_unfold s z hz8 hz hzlt hbz hbrk16 (by omega)]
  set s1 : AllocState := { s with brk := s.brk + z, budget := s.budget - z } with hs1
  set W3 : AllocState := writeWord (writeWord (writeWord s1
      (s.brk - 4) (packTag (z : Int) 0))
      (s.brk - 4 + z - 4) (packTag (z : Int) 0))
      (s.brk - 4 + z) (packTag (0 : Int) 1) with hW3
  have hlow : ∀ x, x % 4 = 0 → x < s.brk - 4 → readWord W3 x = readWord s x := by
    intro x hx4 hxlt
    rw [hW3, readWord_writeWord_other _ _ _ _ (by omega) hx4 (by omega),
      readWord_writeWord_other _ _ _ _ (by omega) hx4 (by omega),
      readWord_writeWord_other _ _ _ _ (by omega) hx4 (by omega)]
    rfl
  have hW3hdr : readWord W3 (s.brk - 4) = packTag (z : Int) 0 := by
    rw [hW3, readWord_writeWord_other _ _ _ _ (by omega) (by omega) (by omega),
      readWord_writeWord_other _ _ _ _ (by omega) (by omega) (by omega),
      readWord_writeWord_self]
  have hW3foot : readWord W3 (s.brk - 4 - 4) = packTag (P : Int) 1 := by
    rw [hlow _ (by omega) (by omega)]
    exact hLfoot
  have hW3head : readWord W3 (s.brk - 4 - P) = packTag (P : Int) 1 := by
    rw [hlow _ (by omega) (by omega)]
    exact hLhead
  have hW3epi : readWord W3 (s.brk - 4 + z) = packTag ((0 : Nat) : Int) 1 := by
    rw [hW3, readWord_writeWord_self]
    rfl
  have hfc := free_coalesce_both_alloc W3 (s.brk - 4) z P 0 0 (by omega) (by omega) hPbp
    hP8 hP hPlt hz8 hz hzlt (by omega) (by norm_num) (by norm_num)
    hW3hdr hW3foot hW3head hW3epi
  rw [hfc]
  have hchainW3 : chainAt W3 12 (s.brk - 4) bl := by
    rw [hW3]
    refine chainAt_writeWord_high _ bl 12 (s.brk - 4) (s.brk - 4 + z) _
      (chainAt_writeWord_high _ bl 12 (s.brk - 4) (s.brk - 4 + z - 4) _
        (chainAt_writeWord_high _ bl 12 (s.brk - 4) (s.brk - 4) _ ?_
          (by norm_num) (by omega) (by omega))
        (by norm_num) (by omega) (by omega))
      (by norm_num) (by omega) (by omega)
    exact chainAt_mem_congr s s1 rfl bl 12 (s.brk - 4) hchain
  have hchainW5a : chainAt (writeWord (writeWord W3 (s.brk - 4)
      (packTag (z : Int) 0)) (s.brk - 4 + z - 4) (packTag (z : Int) 0))
      12 (s.brk - 4) bl := by
    refine chainAt_writeWord_high _ bl 12 (s.brk - 4) (s.brk - 4 + z - 4) _
      (chainAt_writeWord_high _ bl 12 (s.brk - 4) (s.brk - 4) _ hchainW3
        (by norm_num) (by omega) (by omega))
      (by norm_num) (by omega) (by omega)
  have hchainW5 : chainAt (mm_list_prepend (writeWord (writeWord W3 (s.brk - 4)
      (packTag (z : Int) 0)) (s.brk - 4 + z - 4) (packTag (z : Int) 0)) (s.brk - 4))
      12 (s.brk - 4) bl :=
    chainAt_mem_congr (writeWord (writeWord W3 (s.brk - 4)
      (packTag (z : Int) 0)) (s.brk - 4 + z - 4) (packTag (z : Int) 0))
      (mm_list_prepend (writeWord (writeWord W3 (s.brk - 4)
      (packTag (z : Int) 0)) (s.brk - 4 + z - 4) (packTag (z : Int) 0)) (s.brk - 4))
      rfl bl 12 (s.brk - 4) hchainW5a
  have hnotmem : s.brk - 4 ∉ s.freeList := by
    intro hx
    obtain ⟨sz, hmem⟩ := (mem_freeAddrs bl (s.brk - 4)).1 ((hiff _).1 hx)
    have hp := chainAt_props s bl 12 (s.brk - 4) hchain (by norm_num) _ _ _ hmem
    omega
  refine ⟨?_, ?_, ?_, ?_, ?_, ?_, ?_, ?_, ?_⟩
  · show (s.brk + z) % 8 = 0
    omega
  · show 16 ≤ s.brk + z
    omega
  · show (s.brk + z) + (s.budget - z) < 2147483648
    omega
  · show readWord _ 4 = packTag (8 : Int) 1
    rw [readWord_mm_list_prepend,
      readWord_writeWord_other _ _ _ _ (by omega) (by omega) (by omega),
      readWord_writeWord_other _ _ _ _ (by omega) (by omega) (by omega),
      hlow _ (by norm_num) (by omega)]
    exact hpro1
  · show readWord _ 8 = packTag (8 : Int) 1
    rw [readWord_mm_list_prepend,
      readWord_writeWord_other _ _ _ _ (by omega) (by omega) (by omega),
      readWord_writeWord_other _ _ _ _ (by omega) (by omega) (by omega),
      hlow _ (by norm_num) (by omega)]
    exact hpro2
  · show readWord _ (s.brk + z - 4) = packTag (0 : Int) 1
    rw [readWord_mm_list_prepend,
      readWord_writeWord_other _ _ _ _ (by omega) (by omega) (by omega),
      readWord_writeWord_other _ _ _ _ (by omega) (by omega) (by omega),
      show s.brk + z - 4 = s.brk - 4 + z from by omega, hW3, readWord_writeWord_self]
  · show chainAt _ 12 (s.brk + z - 4) (bl ++ [(s.brk - 4, z, false)])
    refine chainAt_snoc _ bl 12 (s.brk - 4) (s.brk + z - 4) z false hchainW5
      hz hz8 hzlt ?_ ?_ (by omega)
    · rw [readWord_mm_list_prepend,
        readWord_writeWord_other _ _ _ _ (by omega) (by omega) (by omega),
        readWord_writeWord_self]
      rfl
    · rw [readWord_mm_list_prepend, readWord_writeWord_self]
      rfl
  · show ((s.brk - 4) :: s.freeList).Nodup
    exact List.nodup_cons.2 ⟨hnotmem, hnodup⟩
  · intro x
    show x ∈ (s.brk - 4) :: s.freeList ↔ _
    have hsingle : freeAddrs [(s.brk - 4, z, false)] = [s.brk - 4] := rfl
    rw [List.mem_cons, freeAddrs_append, hsingle, List.mem_append,
      List.mem_singleton, hiff x]
    tauto

theorem extend_heap_inv_aux2 (s : AllocState) (z b ps : Nat) (bl0 : List (Nat × Nat × Bool))
    (hz8 : z % 8 = 0) (hz : 16 ≤ z) (hbz : z ≤ s.budget)
    (hbrk8 : s.brk % 8 = 0) (hbrk16 : 16 ≤ s.brk)
    (hbound : s.brk + s.budget < 2147483648)
    (hpro1 : readWord s 4 = packTag (8 : Int) 1)
    (hpro2 : readWord s 8 = packTag (8 : Int) 1)
    (hchain0 : chainAt s 12 b bl0)
    (hps : 16 ≤ ps) (hps8 : ps % 8 = 0)
    (hbhdr : readWord s b = packTag (ps : Int) 0)
    (hbfoot : readWord s (b + ps - 4) = packTag (ps : Int) 0)
    (hbend : b + ps = s.brk - 4)
    (hnodup : s.freeList.Nodup)
    (hiff : ∀ x, x ∈ s.freeList ↔ x ∈ freeAddrs (bl0 ++ [(b, ps, false)])) :
    HeapInvWith (extend_heap s (z : Int)).1 (bl0 ++ [(b, z + ps, false)]) := by
  have hzlt : z < 2147483648 := by omega
  have hb12 : 12 ≤ b := chainAt_le s bl0 12 b hchain0
  rw [extend_heap_unfold s z hz8 hz hzlt hbz hbrk16 (by omega)]
  set s1 : AllocState := { s with brk := s.brk + z, budget := s.budget - z } with hs1
  set W3 : AllocState := writeWord (writeWord (writeWord s1
      (s.brk - 4) (packTag (z : Int) 0))
      (s.brk - 4 + z - 4) (packTag (z : Int) 0))
      (s.brk - 4 + z) (packTag (0 : Int) 1) with hW3
  have hlow : ∀ x, x % 4 = 0 → x < s.brk - 4 → readWord W3 x = readWord s x := by
    intro x hx4 hxlt
    rw [hW3, readWord_writeWord_other _ _ _ _ (by omega) hx4 (by omega),
      readWord_writeWord_other _ _ _ _ (by omega) hx4 (by omega),
      readWord_writeWord_other _ _ _ _ (by omega) hx4 (by omega)]
    rfl
  have hW3hdr : readWord W3 (s.brk - 4) = packTag (z : Int) 0 := by
    rw [hW3, readWord_writeWord_other _ _ _ _ (by omega) (by omega) (by omega),
      readWord_writeWord_other _ _ _ _ (by omega) (by omega) (by omega),
      readWord_writeWord_self]
  have hW3foot : readWord W3 (s.brk - 4 - 4) = packTag (ps : Int) 0 := by
    rw [show s.brk - 4 - 4 = b + ps - 4 from by omega, hlow _ (by omega) (by omega)]
    exact hbfoot
  have hW3head : readWord W3 (s.brk - 4 - ps) = packTag (ps : Int) 0 := by
    rw [show s.brk - 4 - ps = b from by omega, hlow _ (by omega) (by omega)]
    exact hbhdr
  have hW3epi : readWord W3 (s.brk - 4 + z) = packTag ((0 : Nat) : Int) 1 := by
    rw [hW3, readWord_writeWord_self]
    rfl
  have hfc := free_coalesce_merge_prev W3 (s.brk - 4) z ps 0 0 (by omega) (by omega)
    (by omega) hps8 hps hz8 hz (by omega) (by norm_num) (by norm_num) (by norm_num)
    hW3hdr hW3foot hW3head hW3epi
  rw [show s.brk - 4 - ps = b from by omega] at hfc
  rw [show b + (z + ps) - 4 = s.brk + z - 8 from by omega] at hfc
  rw [hfc]
  have hchainW3 : chainAt W3 12 b bl0 := by
    rw [hW3]
    refine chainAt_writeWord_high _ bl0 12 b (s.brk - 4 + z) _
      (chainAt_writeWord_high _ bl0 12 b (s.brk - 4 + z - 4) _
        (chainAt_writeWord_high _ bl0 12 b (s.brk - 4) _
          (chainAt_mem_congr s s1 rfl bl0 12 b hchain0)
          (by norm_num) (by omega) (by omega))
        (by norm_num) (by omega) (by omega))
      (by norm_num) (by omega) (by omega)
  have hchainW7 : chainAt (writeWord (writeWord (writeWord (writeWord W3
      (s.brk - 4) (packTag (z : Int) 0)) (s.brk - 4 + z - 4) (packTag (z : Int) 0))
      b (packTag ((z + ps : Nat) : Int) 0)) (s.brk + z - 8)
      (packTag ((z + ps : Nat) : Int) 0)) 12 b bl0 := by
    refine chainAt_writeWord_high _ bl0 12 b (s.brk + z - 8) _
      (chainAt_writeWord_high _ bl0 12 b b _
        (chainAt_writeWord_high _ bl0 12 b (s.brk - 4 + z - 4) _
          (chainAt_writeWord_high _ bl0 12 b (s.brk - 4) _ hchainW3
            (by norm_num) (by omega) (by omega))
          (by norm_num) (by omega) (by omega))
        (by norm_num) (by omega) (by omega))
      (by norm_num) (by omega) (by omega)
  refine ⟨?_, ?_, ?_, ?_, ?_, ?_, ?_, ?_, ?_⟩
  · show (s.brk + z) % 8 = 0
    omega
  · show 16 ≤ s.brk + z
    omega
  · show (s.brk + z) + (s.budget - z) < 2147483648
    omega
  · show readWord _ 4 = packTag (8 : Int) 1
    rw [readWord_writeWord_other _ _ _ _ (by omega) (by omega) (by omega),
      readWord_writeWord_other _ _ _ _ (by omega) (by omega) (by omega),
      readWord_writeWord_other _ _ _ _ (by omega) (by omega) (by omega),
      readWord_writeWord_other _ _ _ _ (by omega) (by omega) (by omega),
      hlow _ (by norm_num) (by omega)]
    exact hpro1
  · show readWord _ 8 = packTag (8 : Int) 1
    rw [readWord_writeWord_other _ _ _ _ (by omega) (by omega) (by omega),
      readWord_writeWord_other _ _ _ _ (by omega) (by omega) (by omega),
      readWord_writeWord_other _ _ _ _ (by omega) (by omega) (by omega),
      readWord_writeWord_other _ _ _ _ (by omega) (by omega) (by omega),
      hlow _ (by norm_num) (by omega)]
    exact hpro2
  · show readWord _ (s.brk + z - 4) = packTag (0 : Int) 1
    rw [readWord_writeWord_other _ _ _ _ (by omega) (by omega) (by omega),
      readWord_writeWord_other _ _ _ _ (by omega) (by omega) (by omega),
      readWord_writeWord_other _ _ _ _ (by omega) (by omega) (by omega),
      readWord_writeWord_other _ _ _ _ (by omega) (by omega) (by omega),
      show s.brk + z - 4 = s.brk - 4 + z from by omega, hW3, readWord_writeWord_self]
  · show chainAt _ 12 (s.brk + z - 4) (bl0 ++ [(b, z + ps, false)])
    refine chainAt_snoc _ bl0 12 b (s.brk + z - 4) (z + ps) false hchainW7
      (by omega) (by omega) (by omega) ?_ ?_ (by omega)
    · rw [readWord_writeWord_other _ _ _ _ (by omega) (by omega) (by omega),
        readWord_writeWord_self]
      rfl
    · rw [show b + (z + ps) - 4 = s.brk + z - 8 from by omega, readWord_writeWord_self]
      rfl
  · show s.freeList.Nodup
    exact hnodup
  · intro x
    show x ∈ s.freeList ↔ _
    rw [hiff x, freeAddrs_append, freeAddrs_append]
    rfl

/-- The heap-structure invariant is preserved by `extend_heap` for the
(multiple-of-8, at least 16 bytes) request sizes the allocator passes
it. -/
theorem extend_heap_inv (s : AllocState) (z : Nat)
    (hz8 : z % 8 = 0) (hz : 16 ≤ z) (hinv : HeapInv s) :
    HeapInv (extend_heap s (z : Int)).1 := by
  obtain ⟨hbrk8, hbrk16, hbound, hpro1, hpro2, hepi, bl, hchain, hnodup, hiff⟩ := hinv
  by_cases hbz : z ≤ s.budget
  · by_cases hbl : bl = []
    · subst hbl
      have h12 : (12 : Nat) = s.brk - 4 := hchain
      refine heapInvWith_heapInv _ _
        (extend_heap_inv_aux s z 8 [] hz8 hz hbz hbrk8 hbrk16 hbound hpro1 hpro2
          hchain hnodup hiff (by norm_num) (by norm_num) (by norm_num) (by omega) ?_ ?_)
      · rw [show s.brk - 4 - 4 = (8 : Nat) from by omega]
        exact hpro2
      · rw [show s.brk - 4 - 8 = (4 : Nat) from by omega]
        exact hpro1
    · obtain ⟨bl0, b, ps, al, hbleq, hch0, hps, hps8, hpslt, hbh, hbf, hbend⟩ :=
        chainAt_concat_elim s bl 12 (s.brk - 4) hchain hbl
      have hb12 : 12 ≤ b := chainAt_le s bl0 12 b hch0
      cases al
      · subst hbleq
        exact heapInvWith_heapInv _ _
          (extend_heap_inv_aux2 s z b ps bl0 hz8 hz hbz hbrk8 hbrk16 hbound hpro1 hpro2
            hch0 hps hps8 hbh hbf hbend hnodup hiff)
      · subst hbleq
        refine heapInvWith_heapInv _ _
          (extend_heap_inv_aux s z ps (bl0 ++ [(b, ps, true)]) hz8 hz hbz hbrk8 hbrk16
            hbound hpro1 hpro2 hchain hnodup hiff hps8 (by omega) hpslt (by omega) ?_ ?_)
        · rw [show s.brk - 4 - 4 = b + ps - 4 from by omega]
          exact hbf
        · rw [show s.brk - 4 - ps = b from by omega]
          exact hbh
  · have hfail : extend_heap s (z : Int) = (s, none) := by
      unfold extend_heap mem_sbrk
      rw [if_neg (by omega)]
    rw [hfail]
    exact ⟨hbrk8, hbrk16, hbound, hpro1, hpro2, hepi, bl, hchain, hnodup, hiff⟩

theorem find_fit_walk_spec (s : AllocState) (r : Int) :
    ∀ l bp, find_fit_walk s r l = some bp → bp ∈ l ∧ r ≤ mm_block_size s bp := by
  intro l
  induction l with
  | nil => intro bp h; exact absurd h (by simp [find_fit_walk])
  | cons hd rest ih =>
    intro bp h
    unfold find_fit_walk at h
    by_cases hc : r ≤ mm_block_size s hd
    · rw [if_pos hc] at h
      injection h with h
      subst h
      exact ⟨List.mem_cons_self _ _, hc⟩
    · rw [if_neg hc] at h
      obtain ⟨h1, h2⟩ := ih bp h
      exact ⟨List.mem_cons_of_mem _ h1, h2⟩

theorem find_fit_spec (s : AllocState) (r : Int) (bp : Nat)
    (h : find_fit s r = some bp) : bp ∈ s.freeList ∧ r ≤ mm_block_size s bp :=
  find_fit_walk_spec s r s.freeList bp h

/-- The facts about `place` that `mm_malloc` needs: the returned handle is
8-aligned at offset 4, break and budget are untouched, and the handle's
header records an allocated block of size at least the request. -/
theorem place_for_malloc (s : AllocState) (bp S R : Nat)
    (hbp4 : bp % 8 = 4)
    (hhdr : readWord s bp = packTag (S : Int) 0)
    (hS8 : S % 8 = 0) (hS : 16 ≤ S) (hSlt : S < 2147483648)
    (hR8 : R % 8 = 0) (hR : 16 ≤ R) (hRS : R ≤ S) :
    (place s bp (R : Int)).2 % 8 = 4 ∧
    (place s bp (R : Int)).1.brk = s.brk ∧
    (place s bp (R : Int)).1.budget = s.budget ∧
    ∃ sz : Nat, R ≤ sz ∧ sz ≤ S ∧ sz % 8 = 0 ∧ sz < 2147483648 ∧
      readWord (place s bp (R : Int)).1 ((place s bp (R : Int)).2) = packTag (sz : Int) 1 := by
  have hbs := mm_block_size_read s bp S 0 hhdr hS8 hSlt (by omega)
  by_cases h1 : 16 ≤ S - R
  · by_cases h2 : 75 ≤ R
    · have hnew : (S : Int) - (R : Int) = ((S - R : Nat) : Int) := by omega
      simp only [place]
      rw [hbs, asInt32_toWord32_small ((S : Int) - (R : Int)) (by omega) (by omega), hnew, if_pos (by exact_mod_cast by omega : (16 : Int) ≤ ((S - R : Nat) : Int)),
        if_pos (by exact_mod_cast h2 : (75 : Int) ≤ (R : Int))]
      simp only [mm_block_set_header_eq]
      rw [mm_block_set_footer_coe _ bp (S - R) 1 (by omega)]
      have hnb : mm_block_next (writeWord (writeWord s bp (packTag ((S - R : Nat) : Int) 1))
          (bp + (S - R) - 4) (packTag ((S - R : Nat) : Int) 1)) bp = bp + (S - R) :=
        mm_block_next_read _ _ (S - R) 1
          (by rw [readWord_writeWord_other _ _ _ _ (by omega) (by omega) (by omega),
            readWord_writeWord_self]) (by omega) (by omega) (by omega)
      rw [hnb, mm_block_set_footer_coe _ (bp + (S - R)) R 1 (by omega),
        mm_block_set_footer_coe _ bp (S - R) 0 (by omega)]
      refine ⟨by omega, rfl, rfl, R, le_refl _, by omega, hR8, by omega, ?_⟩
      dsimp only
      rw [readWord_writeWord_other _ _ _ _ (by omega) (by omega) (by omega),
        readWord_writeWord_other _ _ _ _ (by omega) (by omega) (by omega),
        readWord_writeWord_other _ _ _ _ (by omega) (by omega) (by omega),
        readWord_writeWord_self]
    · have hnew : (S : Int) - (R : Int) = ((S - R : Nat) : Int) := by omega
      simp only [place]
      rw [hbs, asInt32_toWord32_small ((S : Int) - (R : Int)) (by omega) (by omega), hnew, if_pos (by exact_mod_cast by omega : (16 : Int) ≤ ((S - R : Nat) : Int)),
        if_neg (by exact_mod_cast by omega : ¬ (75 : Int) ≤ (R : Int))]
      simp only [mm_block_set_header_eq]
      rw [mm_block_set_footer_coe _ bp R 1 (by omega)]
      have hnb : mm_block_next (writeWord (writeWord s bp (packTag (R : Int) 1))
          (bp + R - 4) (packTag (R : Int) 1)) bp = bp + R :=
        mm_block_next_read _ _ R 1
          (by rw [readWord_writeWord_other _ _ _ _ (by omega) (by omega) (by omega),
            readWord_writeWord_self]) (by omega) (by omega) (by omega)
      rw [hnb, mm_block_set_footer_coe _ (bp + R) (S - R) 0 (by omega)]
      refine ⟨by omega, rfl, rfl, R, le_refl _, by omega, hR8, by omega, ?_⟩
      dsimp only
      rw [readWord_mm_list_remove,
        readWord_writeWord_other _ _ _ _ (by omega) (by omega) (by omega),
        readWord_writeWord_other _ _ _ _ (by omega) (by omega) (by omega),
        readWord_mm_list_prepend,
        readWord_writeWord_other _ _ _ _ (by omega) (by omega) (by omega),
        readWord_writeWord_self]
  · simp only [place]
    rw [hbs, asInt32_toWord32_small ((S : Int) - (R : Int)) (by omega) (by omega),
      if_neg (by omega : ¬ (16 : Int) ≤ (S : Int) - (R : Int))]
    simp only [mm_block_set_header_eq]
    rw [mm_block_set_footer_coe _ bp S 1 (by omega)]
    refine ⟨by omega, rfl, rfl, S, by omega, le_refl _, hS8, hSlt, ?_⟩
    dsimp only
    rw [readWord_mm_list_remove,
      readWord_writeWord_other _ _ _ _ (by omega) (by omega) (by omega),
      readWord_writeWord_self]

theorem mm_malloc_loop_found (s : AllocState) (R bp : Nat)
    (hR8 : R % 8 = 0) (hR16 : 16 ≤ R)
    (hinv : HeapInv s) (hmem : bp ∈ s.freeList) (hfit : (R : Int) ≤ mm_block_size s bp) :
    ((place s bp (R : Int)).2 + 4) % 8 = 0 ∧ 4 ≤ (place s bp (R : Int)).2 + 4 ∧
    ∃ sz : Nat, R ≤ sz ∧ sz % 8 = 0 ∧ sz < 2147483648 ∧
      readWord (place s bp (R : Int)).1 ((place s bp (R : Int)).2 + 4 - 4) =
        packTag (sz : Int) 1 := by
  obtain ⟨hbrk8, hbrk16, hbound, hpro1, hpro2, hepi, bl, hchain, hnodup, hiff⟩ := hinv
  obtain ⟨S, hmemS⟩ := (mem_freeAddrs bl bp).1 ((hiff bp).1 hmem)
  obtain ⟨hb8, hS16, hS8, hSlt, hge12, hle, hhdr, hfoot⟩ :=
    chainAt_props s bl 12 (s.brk - 4) hchain (by norm_num) bp S false hmemS
  have hhdr0 : readWord s bp = packTag (S : Int) 0 := hhdr
  have hbs := mm_block_size_read s bp S 0 hhdr0 hS8 hSlt (by omega)
  have hRS : R ≤ S := by
    rw [hbs] at hfit
    exact_mod_cast hfit
  obtain ⟨q1, q2, q3, ⟨sz, hsz1, hsz2, hsz3, hsz4, hsz5⟩⟩ :=
    place_for_malloc s bp S R hb8 hhdr0 hS8 hS16 hSlt hR8 hR16 hRS
  refine ⟨by omega, by omega, sz, hsz1, hsz3, hsz4, ?_⟩
  rw [show (place s bp (R : Int)).2 + 4 - 4 = (place s bp (R : Int)).2 from by omega]
  exact hsz5

theorem mm_malloc_loop_post (R : Nat) (hR8 : R % 8 = 0) (hR16 : 16 ≤ R) :
    ∀ fuel (s s' : AllocState) (p : Nat), HeapInv s →
      mm_malloc_loop fuel s (R : Int) (find_fit s (R : Int)) = (s', some p) →
      p % 8 = 0 ∧ 4 ≤ p ∧
      ∃ sz : Nat, R ≤ sz ∧ sz % 8 = 0 ∧ sz < 2147483648 ∧
        readWord s' (p - 4) = packTag (sz : Int) 1 := by
  intro fuel
  induction fuel with
  | zero =>
    intro s s' p hinv hrun
    cases hff : find_fit s (R : Int) with
    | none =>
      rw [hff] at hrun
      have : mm_malloc_loop 0 s (R : Int) none = (s, none) := rfl
      rw [this] at hrun
      injection hrun with h1 h2
      cases h2
    | some bp =>
      rw [hff] at hrun
      obtain ⟨hmem, hfit⟩ := find_fit_spec s (R : Int) bp hff
      have hred : mm_malloc_loop 0 s (R : Int) (some bp) =
          ((place s bp (R : Int)).1, some ((place s bp (R : Int)).2 + 4)) := rfl
      rw [hred] at hrun
      injection hrun with h1 h2
      injection h2 with h2
      subst h1
      subst h2
      exact mm_malloc_loop_found s R bp hR8 hR16 hinv hmem hfit
  | succ k ih =>
    intro s s' p hinv hrun
    cases hff : find_fit s (R : Int) with
    | some bp =>
      rw [hff] at hrun
      obtain ⟨hmem, hfit⟩ := find_fit_spec s (R : Int) bp hff
      have hred : mm_malloc_loop (k + 1) s (R : Int) (some bp) =
          ((place s bp (R : Int)).1, some ((place s bp (R : Int)).2 + 4)) := rfl
      rw [hred] at hrun
      injection hrun with h1 h2
      injection h2 with h2
      subst h1
      subst h2
      exact mm_malloc_loop_found s R bp hR8 hR16 hinv hmem hfit
    | none =>
      rw [hff] at hrun
      have htempp : (if (R : Int) > 512 then (R : Int) else 512) =
          ((if R > 512 then R else 512 : Nat) : Int) := by
        by_cases hc : R > 512
        · rw [if_pos (by exact_mod_cast hc), if_pos hc]
        · rw [if_neg (by exact_mod_cast hc), if_neg hc]
          norm_num
      have hstep : mm_malloc_loop (k + 1) s (R : Int) none =
          mm_malloc_loop k (extend_heap s (if (R : Int) > 512 then (R : Int) else 512)).1
            (R : Int)
            (find_fit (extend_heap s
              (if (R : Int) > 512 then (R : Int) else 512)).1 (R : Int)) := rfl
      rw [hstep, htempp] at hrun
      have hz8 : (if R > 512 then R else 512) % 8 = 0 := by
        by_cases hc : R > 512
        · rw [if_pos hc]; exact hR8
        · rw [if_neg hc]
      have hz16 : 16 ≤ (if R > 512 then R else 512) := by
        by_cases hc : R > 512
        · rw [if_pos hc]; exact hR16
        · rw [if_neg hc]; norm_num
      have hinv' := extend_heap_inv s (if R > 512 then R else 512) hz8 hz16 hinv
      exact ih _ s' p hinv' hrun

/-- Claim C2 (amended: the request is restricted to `n + 15 < 2^31`; beyond
that the `size_t`-to-`int` truncation makes the claim false, see the
counterexample): for every successful `allocate(n)` with `0 < n` from a
well-formed heap state, the returned payload pointer sits exactly 4 bytes
past the owning block's header address, is 8-byte aligned, and the owning
block is allocated with block size at least `n + 8` rounded up to a
multiple of 8, so its payload capacity (block size minus 8) is at least
`n`. -/
theorem mm_malloc_aligned_capacity (fuel : Nat) (s : AllocState) (n : Nat)
    (s' : AllocState) (p : Nat) (hinv : HeapInv s) (hn : 0 < n)
    (hlt : n + 15 < 2147483648)
    (hrun : mm_malloc fuel s n = (s', some p)) :
    p % 8 = 0 ∧ p = (p - 4) + 4 ∧
    ∃ sz : Nat, sz % 8 = 0 ∧ roundUp8 (n + 8) ≤ sz ∧ (n : Int) ≤ (sz : Int) - 8 ∧
      readWord s' (p - 4) = packTag (sz : Int) 1 := by
  have hup : n + 8 ≤ roundUp8 (n + 8) ∧ roundUp8 (n + 8) ≤ n + 15 ∧
      roundUp8 (n + 8) % 8 = 0 := by
    unfold roundUp8
    omega
  have hreq := required_eq_roundUp8 n hn hlt
  simp only [mm_malloc] at hrun
  rw [if_neg (by omega), hreq] at hrun
  obtain ⟨hp8, hp4, sz, h1, h2, h3, h4⟩ :=
    mm_malloc_loop_post (roundUp8 (n + 8)) (by omega) (by omega) fuel s s' p hinv hrun
  refine ⟨hp8, by omega, sz, h2, h1, by omega, h4⟩

theorem chainAt_congr_on (s t : AllocState) :
    ∀ bl a e, chainAt s a e bl → a % 4 = 0 →
      (∀ x, x % 4 = 0 → a ≤ x → x < e → readWord t x = readWord s x) →
      chainAt t a e bl := by
  intro bl
  induction bl with
  | nil => intro a e h _ _; exact h
  | cons hd rest ih =>
    intro a e h ha hagree
    obtain ⟨b, sz, al⟩ := hd
    obtain ⟨hb, hsz, h8, hlt, hh, hf, hrest⟩ := h
    have hae := chainAt_le s rest (a + sz) e hrest
    refine ⟨hb, hsz, h8, hlt, ?_, ?_, ?_⟩
    · rw [hagree a ha (le_refl _) (by omega)]
      exact hh
    · rw [hagree (a + sz - 4) (by omega) (by omega) (by omega)]
      exact hf
    · exact ih (a + sz) e hrest (by omega)
        (fun x hx4 hx1 hx2 => hagree x hx4 (by omega) hx2)

theorem chainAt_append_intro (s : AllocState) :
    ∀ bl1 bl2 a m e, chainAt s a m bl1 → chainAt s m e bl2 →
      chainAt s a e (bl1 ++ bl2) := by
  intro bl1
  induction bl1 with
  | nil =>
    intro bl2 a m e h1 h2
    have ham : a = m := h1
    subst ham
    exact h2
  | cons hd rest ih =>
    intro bl2 a m e h1 h2
    obtain ⟨b, sz, al⟩ := hd
    obtain ⟨hb, hsz, h8, hlt, hh, hf, hrest⟩ := h1
    exact ⟨hb, hsz, h8, hlt, hh, hf, ih bl2 (a + sz) m e hrest h2⟩

theorem chainAt_append_elim (s : AllocState) :
    ∀ bl1 bl2 a e, chainAt s a e (bl1 ++ bl2) →
      ∃ m, chainAt s a m bl1 ∧ chainAt s m e bl2 := by
  intro bl1
  induction bl1 with
  | nil => intro bl2 a e h; exact ⟨a, rfl, h⟩
  | cons hd rest ih =>
    intro bl2 a e h
    obtain ⟨b, sz, al⟩ := hd
    obtain ⟨hb, hsz, h8, hlt, hh, hf, hrest⟩ := h
    obtain ⟨m, hm1, hm2⟩ := ih bl2 (a + sz) e hrest
    exact ⟨m, ⟨hb, hsz, h8, hlt, hh, hf, hm1⟩, hm2⟩

theorem chainAt_mem_split (s : AllocState) (bl : List (Nat × Nat × Bool))
    (a e b sz : Nat) (al : Bool) (h : chainAt s a e bl) (hmem : (b, sz, al) ∈ bl) :
    ∃ bl1 bl2, bl = bl1 ++ (b, sz, al) :: bl2 ∧ chainAt s a b bl1 ∧
      16 ≤ sz ∧ sz % 8 = 0 ∧ sz < 2147483648 ∧
      readWord s b = packTag (sz : Int) (bitOf al) ∧
      readWord s (b + sz - 4) = packTag (sz : Int) (bitOf al) ∧
      chainAt s (b + sz) e bl2 := by
  obtain ⟨bl1, bl2, heq⟩ := List.append_of_mem hmem
  subst heq
  obtain ⟨m, hm1, hm2⟩ := chainAt_append_elim s bl1 ((b, sz, al) :: bl2) a e h
  obtain ⟨hb, hsz, h8, hlt, hh, hf, hrest⟩ := hm2
  subst hb
  exact ⟨bl1, bl2, rfl, hm1, hsz, h8, hlt, hh, hf, hrest⟩

theorem chainAt_mem_lb (s : AllocState) :
    ∀ bl a e b sz al, chainAt s a e bl → (b, sz, al) ∈ bl → a ≤ b ∧ b + sz ≤ e := by
  intro bl
  induction bl with
  | nil => intro a e b sz al _ hmem; exact absurd hmem (List.not_mem_nil _)
  | cons hd rest ih =>
    intro a e b sz al h hmem
    obtain ⟨b0, sz0, al0⟩ := hd
    obtain ⟨hb0, hsz0, h80, hlt0, hh0, hf0, hrest⟩ := h
    rcases List.mem_cons.1 hmem with heq | hmem'
    · have h123 : b = b0 ∧ sz = sz0 ∧ al = al0 := by simpa [Prod.ext_iff] using heq
      obtain ⟨rfl, rfl, rfl⟩ := h123
      have hle := chainAt_le s rest (a + sz) e hrest
      omega
    · have := ih (a + sz0) e b sz al hrest hmem'
      omega

theorem chainAt_addr_unique (s : AllocState) :
    ∀ bl a e b sz al sz' al', chainAt s a e bl →
      (b, sz, al) ∈ bl → (b, sz', al') ∈ bl → sz = sz' ∧ al = al' := by
  intro bl
  induction bl with
  | nil => intro a e b sz al sz' al' _ hmem; exact absurd hmem (List.not_mem_nil _)
  | cons hd rest ih =>
    intro a e b sz al sz' al' h h1 h2
    obtain ⟨b0, sz0, al0⟩ := hd
    obtain ⟨hb0, hsz0, h80, hlt0, hh0, hf0, hrest⟩ := h
    rcases List.mem_cons.1 h1 with e1 | m1 <;> rcases List.mem_cons.1 h2 with e2 | m2
    · have q1 : b = b0 ∧ sz = sz0 ∧ al = al0 := by simpa [Prod.ext_iff] using e1
      have q2 : b = b0 ∧ sz' = sz0 ∧ al' = al0 := by simpa [Prod.ext_iff] using e2
      obtain ⟨-, rfl, rfl⟩ := q1
      obtain ⟨-, rfl, rfl⟩ := q2
      exact ⟨rfl, rfl⟩
    · have q1 : b = b0 ∧ sz = sz0 ∧ al = al0 := by simpa [Prod.ext_iff] using e1
      have q2 := chainAt_mem_lb s rest (a + sz0) e b sz' al' hrest m2
      obtain ⟨rfl, -, -⟩ := q1
      omega
    · have q2 : b = b0 ∧ sz' = sz0 ∧ al' = al0 := by simpa [Prod.ext_iff] using e2
      have q1 := chainAt_mem_lb s rest (a + sz0) e b sz al hrest m1
      obtain ⟨rfl, -, -⟩ := q2
      omega
    · exact ih (a + sz0) e b sz al sz' al' hrest m1 m2

/-- Shape of `free_coalesce` when both physical neighbours are free: the
successor is removed from the free list, the free list is otherwise
untouched (the predecessor stays), and the merged tags are written at the
predecessor's address, which is returned. -/
theorem free_coalesce_merge_both (s : AllocState) (bp SZ NS PS al : Nat)
    (hbp4 : bp % 4 = 0) (hbp : 8 ≤ bp) (hPSbp : PS ≤ bp)
    (hPS8 : PS % 8 = 0) (hPS : 16 ≤ PS)
    (hSZ8 : SZ % 8 = 0) (hSZ : 16 ≤ SZ)
    (hNS8 : NS % 8 = 0) (hNS : 16 ≤ NS)
    (hlt : SZ + NS + PS < 2147483648) (hal : al ≤ 1)
    (hhdr : readWord s bp = packTag (SZ : Int) al)
    (hLfoot : readWord s (bp - 4) = packTag (PS : Int) 0)
    (hLhead : readWord s (bp - PS) = packTag (PS : Int) 0)
    (hNh : readWord s (bp + SZ) = packTag (NS : Int) 0) :
    free_coalesce s bp =
      (writeWord (writeWord (mm_list_remove
          (writeWord (writeWord s bp (packTag (SZ : Int) 0)) (bp + SZ - 4)
            (packTag (SZ : Int) 0))
          (bp + SZ))
          (bp - PS) (packTag ((SZ + NS + PS : Nat) : Int) 0))
        (bp - PS + (SZ + NS + PS) - 4) (packTag ((SZ + NS + PS : Nat) : Int) 0),
        bp - PS) := by
  have hbs := mm_block_size_read s bp SZ al hhdr hSZ8 (by omega) hal
  simp only [free_coalesce]
  rw [hbs]
  simp only [mm_block_set_header_eq]
  rw [mm_block_set_footer_coe _ bp SZ 0 (by omega)]
  have hf : readWord (writeWord (writeWord s bp (packTag (SZ : Int) 0))
      (bp + SZ - 4) (packTag (SZ : Int) 0)) (bp - 4) = packTag (PS : Int) 0 := by
    rw [readWord_writeWord_other _ _ _ _ (by omega) (by omega) (by omega),
      readWord_writeWord_other _ _ _ _ (by omega) (by omega) (by omega)]
    exact hLfoot
  have hprev := mm_block_prev_read _ bp PS 0 hf hPS8 (by omega) (by omega) hPSbp
  rw [hprev]
  have hping : readWord (writeWord (writeWord s bp (packTag (SZ : Int) 0))
      (bp + SZ - 4) (packTag (SZ : Int) 0)) (bp - PS) = packTag (PS : Int) 0 := by
    rw [readWord_writeWord_other _ _ _ _ (by omega) (by omega) (by omega),
      readWord_writeWord_other _ _ _ _ (by omega) (by omega) (by omega)]
    exact hLhead
  have hpa := mm_block_allocated_read _ (bp - PS) PS 0 hping hPS8 (by omega) (by omega)
  rw [hpa]
  have hh : readWord (writeWord (writeWord s bp (packTag (SZ : Int) 0))
      (bp + SZ - 4) (packTag (SZ : Int) 0)) bp = packTag (SZ : Int) 0 := by
    rw [readWord_writeWord_other _ _ _ _ (by omega) (by omega) (by omega),
      readWord_writeWord_self]
  have hnext := mm_block_next_read _ bp SZ 0 hh hSZ8 (by omega) (by omega)
  rw [hnext]
  have hng : readWord (writeWord (writeWord s bp (packTag (SZ : Int) 0))
      (bp + SZ - 4) (packTag (SZ : Int) 0)) (bp + SZ) = packTag (NS : Int) 0 := by
    rw [readWord_writeWord_other _ _ _ _ (by omega) (by omega) (by omega),
      readWord_writeWord_other _ _ _ _ (by omega) (by omega) (by omega)]
    exact hNh
  have hna := mm_block_allocated_read _ (bp + SZ) NS 0 hng hNS8 (by omega) (by omega)
  rw [hna, if_neg (by omega : ¬ ((0 : Nat) ≠ 0 ∧ (0 : Nat) ≠ 0)),
    if_neg (by omega : ¬ ((0 : Nat) ≠ 0 ∧ (0 : Nat) = 0)),
    if_neg (by omega : ¬ ((0 : Nat) = 0 ∧ (0 : Nat) ≠ 0))]
  have hns := mm_block_size_read _ (bp + SZ) NS 0 hng hNS8 (by omega) (by omega)
  have hps := mm_block_size_read _ (bp - PS) PS 0 hping hPS8 (by omega) (by omega)
  rw [hns, hps,
    show (SZ : Int) + (NS : Int) + (PS : Int) = ((SZ + NS + PS : Nat) : Int) from by
      push_cast; ring]
  have hprev3 : mm_block_prev (mm_list_remove (writeWord (writeWord s bp
      (packTag (SZ : Int) 0)) (bp + SZ - 4) (packTag (SZ : Int) 0)) (bp + SZ)) bp =
      bp - PS :=
    mm_block_prev_read _ bp PS 0 (by rw [readWord_mm_list_remove]; exact hf)
      hPS8 (by omega) (by omega) hPSbp
  rw [hprev3]
  have hprev4 : mm_block_prev (writeWord (mm_list_remove (writeWord (writeWord s bp
      (packTag (SZ : Int) 0)) (bp + SZ - 4) (packTag (SZ : Int) 0)) (bp + SZ))
      (bp - PS) (packTag ((SZ + NS + PS : Nat) : Int) 0)) bp = bp - PS :=
    mm_block_prev_read _ bp PS 0
      (by rw [readWord_writeWord_other _ _ _ _ (by omega) (by omega) (by omega),
        readWord_mm_list_remove]; exact hf)
      hPS8 (by omega) (by omega) hPSbp
  rw [hprev4, mm_block_set_footer_coe _ (bp - PS) (SZ + NS + PS) 0 (by omega)]
  have hprev5 : mm_block_prev (writeWord (writeWord (mm_list_remove (writeWord (writeWord s bp
      (packTag (SZ : Int) 0)) (bp + SZ - 4) (packTag (SZ : Int) 0)) (bp + SZ))
      (bp - PS) (packTag ((SZ + NS + PS : Nat) : Int) 0))
      (bp - PS + (SZ + NS + PS) - 4) (packTag ((SZ + NS + PS : Nat) : Int) 0)) bp =
      bp - PS :=
    mm_block_prev_read _ bp PS 0
      (by rw [readWord_writeWord_other _ _ _ _ (by omega) (by omega) (by omega),
        readWord_writeWord_other _ _ _ _ (by omega) (by omega) (by omega),
        readWord_mm_list_remove]; exact hf)
      hPS8 (by omega) (by omega) hPSbp
  rw [hprev5]

theorem place_eq_nosplit (s : AllocState) (bp S R : Nat)
    (hbp4 : bp % 4 = 0)
    (hhdr : readWord s bp = packTag (S : Int) 0)
    (hS8 : S % 8 = 0) (hS : 16 ≤ S) (hSlt : S < 2147483648)
    (hR8 : R % 8 = 0) (_hR : 16 ≤ R) (_hRS : R ≤ S) (hsr : S - R < 16) :
    place s bp (R : Int) =
      (mm_list_remove (writeWord (writeWord s bp (packTag (S : Int) 1))
        (bp + S - 4) (packTag (S : Int) 1)) bp, bp) := by
  have hbs := mm_block_size_read s bp S 0 hhdr hS8 hSlt (by omega)
  simp only [place]
  rw [hbs, asInt32_toWord32_small ((S : Int) - (R : Int)) (by omega) (by omega),
      if_neg (by omega : ¬ (16 : Int) ≤ (S : Int) - (R : Int))]
  simp only [mm_block_set_header_eq]
  rw [mm_block_set_footer_coe _ bp S 1 (by omega)]

theorem place_eq_high (s : AllocState) (bp S R : Nat)
    (hbp4 : bp % 4 = 0)
    (hhdr : readWord s bp = packTag (S : Int) 0)
    (hS8 : S % 8 = 0) (hS : 16 ≤ S) (hSlt : S < 2147483648)
    (hR8 : R % 8 = 0) (_hR : 16 ≤ R) (hRS : R ≤ S) (hsr : 16 ≤ S - R) (h75 : 75 ≤ R) :
    place s bp (R : Int) =
      (writeWord (writeWord (writeWord (writeWord (writeWord (writeWord s
        bp (packTag ((S - R : Nat) : Int) 1)) (bp + (S - R) - 4)
          (packTag ((S - R : Nat) : Int) 1))
        (bp + (S - R)) (packTag (R : Int) 1)) (bp + (S - R) + R - 4) (packTag (R : Int) 1))
        bp (packTag ((S - R : Nat) : Int) 0)) (bp + (S - R) - 4)
          (packTag ((S - R : Nat) : Int) 0),
      bp + (S - R)) := by
  have hbs := mm_block_size_read s bp S 0 hhdr hS8 hSlt (by omega)
  have hnew : (S : Int) - (R : Int) = ((S - R : Nat) : Int) := by omega
  simp only [place]
  rw [hbs, asInt32_toWord32_small ((S : Int) - (R : Int)) (by omega) (by omega), hnew, if_pos (by exact_mod_cast by omega : (16 : Int) ≤ ((S - R : Nat) : Int)),
    if_pos (by exact_mod_cast h75 : (75 : Int) ≤ (R : Int))]
  simp only [mm_block_set_header_eq]
  rw [mm_block_set_footer_coe _ bp (S - R) 1 (by omega)]
  have hnb : mm_block_next (writeWord (writeWord s bp (packTag ((S - R : Nat) : Int) 1))
      (bp + (S - R) - 4) (packTag ((S - R : Nat) : Int) 1)) bp = bp + (S - R) :=
    mm_block_next_read _ _ (S - R) 1
      (by rw [readWord_writeWord_other _ _ _ _ (by omega) (by omega) (by omega),
        readWord_writeWord_self]) (by omega) (by omega) (by omega)
  rw [hnb, mm_block_set_footer_coe _ (bp + (S - R)) R 1 (by omega),
    mm_block_set_footer_coe _ bp (S - R) 0 (by omega)]

theorem place_eq_low (s : AllocState) (bp S R : Nat)
    (hbp4 : bp % 4 = 0)
    (hhdr : readWord s bp = packTag (S : Int) 0)
    (hS8 : S % 8 = 0) (_hS : 16 ≤ S) (hSlt : S < 2147483648)
    (hR8 : R % 8 = 0) (hR : 16 ≤ R) (hRS : R ≤ S) (hsr : 16 ≤ S - R) (h75 : R < 75) :
    place s bp (R : Int) =
      (mm_list_remove (writeWord (writeWord (mm_list_prepend (writeWord (writeWord s
        bp (packTag (R : Int) 1)) (bp + R - 4) (packTag (R : Int) 1)) (bp + R))
        (bp + R) (packTag ((S - R : Nat) : Int) 0)) (bp + R + (S - R) - 4)
          (packTag ((S - R : Nat) : Int) 0)) bp,
      bp) := by
  have hbs := mm_block_size_read s bp S 0 hhdr hS8 hSlt (by omega)
  have hnew : (S : Int) - (R : Int) = ((S - R : Nat) : Int) := by omega
  simp only [place]
  rw [hbs, asInt32_toWord32_small ((S : Int) - (R : Int)) (by omega) (by omega), hnew, if_pos (by exact_mod_cast by omega : (16 : Int) ≤ ((S - R : Nat) : Int)),
    if_neg (by exact_mod_cast by omega : ¬ (75 : Int) ≤ (R : Int))]
  simp only [mm_block_set_header_eq]
  rw [mm_block_set_footer_coe _ bp R 1 (by omega)]
  have hnb : mm_block_next (writeWord (writeWord s bp (packTag (R : Int) 1))
      (bp + R - 4) (packTag (R : Int) 1)) bp = bp + R :=
    mm_block_next_read _ _ R 1
      (by rw [readWord_writeWord_other _ _ _ _ (by omega) (by omega) (by omega),
        readWord_writeWord_self]) (by omega) (by omega) (by omega)
  rw [hnb, mm_block_set_footer_coe _ (bp + R) (S - R) 0 (by omega)]

theorem mem_skip_middle (x bp : Nat) (l1 l2 : List Nat) (h1 : bp ∉ l1) (h2 : bp ∉ l2) :
    (x ≠ bp ∧ x ∈ l1 ++ bp :: l2) ↔ x ∈ l1 ++ l2 := by
  simp only [List.mem_append, List.mem_cons]
  constructor
  · rintro ⟨hne, (h | rfl | h)⟩
    · exact Or.inl h
    · exact absurd rfl hne
    · exact Or.inr h
  · rintro (h | h)
    · exact ⟨fun hx => h1 (hx ▸ h), Or.inl h⟩
    · exact ⟨fun hx => h2 (hx ▸ h), Or.inr (Or.inr h)⟩

theorem heapInv_heap4096 : HeapInv heap4096 := by
  refine ⟨by decide, by decide, by decide, by decide, by decide, by decide,
    [(12, 64, false)], ⟨rfl, by decide, by decide, by decide, by decide, by decide,
      show (12 + 64 : Nat) = heap4096.brk - 4 by decide⟩,
    by decide, ?_⟩
  intro x
  have h : heap4096.freeList = [12] := by decide
  rw [h]
  simp [freeAddrs]

/-- Witness for the amended capacity statement: on the freshly initialized
4096-byte heap, `mm_malloc 100` succeeds with payload pointer 480 and the
theorem's conclusion holds there. -/
theorem mm_malloc_aligned_capacity_witness :
    HeapInv heap4096 ∧ 0 < 100 ∧ 100 + 15 < 2147483648 ∧
    (480 % 8 = 0 ∧ 480 = (480 - 4) + 4 ∧
      ∃ sz : Nat, sz % 8 = 0 ∧ roundUp8 (100 + 8) ≤ sz ∧ (100 : Int) ≤ (sz : Int) - 8 ∧
        readWord (mm_malloc 4 heap4096 100).1 (480 - 4) = packTag (sz : Int) 1) := by
  have hrun : mm_malloc 4 heap4096 100 = ((mm_malloc 4 heap4096 100).1, some 480) := by
    have h2 : (mm_malloc 4 heap4096 100).2 = some 480 := by decide
    rw [← h2]
  exact ⟨heapInv_heap4096, by decide, by decide,
    mm_malloc_aligned_capacity 4 heap4096 100 _ 480 heapInv_heap4096 (by decide)
      (by decide) hrun⟩

theorem mm_list_remove_brk (s : AllocState) (b : Nat) : (mm_list_remove s b).brk = s.brk := rfl

theorem mm_list_remove_budget (s : AllocState) (b : Nat) :
    (mm_list_remove s b).budget = s.budget := rfl

theorem mm_list_prepend_brk (s : AllocState) (b : Nat) : (mm_list_prepend s b).brk = s.brk := rfl

theorem mm_list_prepend_budget (s : AllocState) (b : Nat) :
    (mm_list_prepend s b).budget = s.budget := rfl

theorem mm_list_prepend_freeList (s : AllocState) (b : Nat) :
    (mm_list_prepend s b).freeList = b :: s.freeList := rfl

/-- `place` with no split (`S - R < 16`): the whole block becomes allocated
in the chain and its address leaves the free list. -/
theorem place_invWith_nosplit (s : AllocState) (bl1 bl2 : List (Nat × Nat × Bool)) (bp S R : Nat)
    (hbrk8 : s.brk % 8 = 0) (hbrk16 : 16 ≤ s.brk) (hbound : s.brk + s.budget < 2147483648)
    (hpro1 : readWord s 4 = packTag (8 : Int) 1)
    (hpro2 : readWord s 8 = packTag (8 : Int) 1)
    (hepi : readWord s (s.brk - 4) = packTag (0 : Int) 1)
    (hch1 : chainAt s 12 bp bl1) (hch2 : chainAt s (bp + S) (s.brk - 4) bl2)
    (hnodup : s.freeList.Nodup)
    (hiff : ∀ x, x ∈ s.freeList ↔ x ∈ freeAddrs (bl1 ++ (bp, S, false) :: bl2))
    (hbp84 : bp % 8 = 4)
    (hS16 : 16 ≤ S) (hS8 : S % 8 = 0) (hSlt : S < 2147483648)
    (hhdr : readWord s bp = packTag (S : Int) 0)
    (hR8 : R % 8 = 0) (hR : 16 ≤ R) (hRS : R ≤ S) (hsr : S - R < 16) :
    HeapInvWith (place s bp (R : Int)).1 (bl1 ++ (bp, S, true) :: bl2) ∧
    (place s bp (R : Int)).2 = bp := by
  have hbp12 : 12 ≤ bp := chainAt_le s bl1 12 bp hch1
  have hbpe : bp + S ≤ s.brk - 4 := chainAt_le s bl2 (bp + S) (s.brk - 4) hch2
  have hnb1 : bp ∉ freeAddrs bl1 := by
    intro hx
    obtain ⟨sx, hm⟩ := (mem_freeAddrs bl1 bp).1 hx
    obtain ⟨-, h16, -, -, -, hle, -, -⟩ :=
      chainAt_props s bl1 12 bp hch1 (by norm_num) bp sx false hm
    omega
  have hnb2 : bp ∉ freeAddrs bl2 := by
    intro hx
    obtain ⟨sx, hm⟩ := (mem_freeAddrs bl2 bp).1 hx
    obtain ⟨hge, -⟩ := chainAt_mem_lb s bl2 (bp + S) (s.brk - 4) bp sx false hch2 hm
    omega
  have hfa : freeAddrs (bl1 ++ (bp, S, false) :: bl2) =
      freeAddrs bl1 ++ bp :: freeAddrs bl2 := by
    rw [freeAddrs_append]
    rfl
  have hfa' : freeAddrs (bl1 ++ (bp, S, true) :: bl2) =
      freeAddrs bl1 ++ freeAddrs bl2 := by
    rw [freeAddrs_append]
    rfl
  have heq := place_eq_nosplit s bp S R (by omega) hhdr hS8 hS16 hSlt hR8 hR hRS hsr
  rw [heq]
  refine ⟨?_, rfl⟩
  simp only [HeapInvWith, mm_list_remove_brk, writeWord_brk, mm_list_remove_budget,
    writeWord_budget, mm_list_remove_freeList, writeWord_freeList]
  refine ⟨hbrk8, hbrk16, hbound, ?_, ?_, ?_, ?_, ?_, ?_⟩
  · rw [readWord_mm_list_remove,
      readWord_writeWord_other _ _ _ _ (by omega) (by omega) (by omega),
      readWord_writeWord_other _ _ _ _ (by omega) (by omega) (by omega)]
    exact hpro1
  · rw [readWord_mm_list_remove,
      readWord_writeWord_other _ _ _ _ (by omega) (by omega) (by omega),
      readWord_writeWord_other _ _ _ _ (by omega) (by omega) (by omega)]
    exact hpro2
  · rw [readWord_mm_list_remove,
      readWord_writeWord_other _ _ _ _ (by omega) (by omega) (by omega),
      readWord_writeWord_other _ _ _ _ (by omega) (by omega) (by omega)]
    exact hepi
  · refine chainAt_append_intro _ bl1 ((bp, S, true) :: bl2) 12 bp (s.brk - 4) ?_ ?_
    · refine chainAt_congr_on s _ bl1 12 bp hch1 (by norm_num) ?_
      intro x hx4 hx1 hx2
      rw [readWord_mm_list_remove,
        readWord_writeWord_other _ _ _ _ (by omega) hx4 (by omega),
        readWord_writeWord_other _ _ _ _ (by omega) hx4 (by omega)]
    · refine ⟨rfl, hS16, hS8, hSlt, ?_, ?_, ?_⟩
      · rw [readWord_mm_list_remove,
          readWord_writeWord_other _ _ _ _ (by omega) (by omega) (by omega),
          readWord_writeWord_self]
        rfl
      · rw [readWord_mm_list_remove, readWord_writeWord_self]
        rfl
      · refine chainAt_congr_on s _ bl2 (bp + S) (s.brk - 4) hch2 (by omega) ?_
        intro x hx4 hx1 hx2
        rw [readWord_mm_list_remove,
          readWord_writeWord_other _ _ _ _ (by omega) hx4 (by omega),
          readWord_writeWord_other _ _ _ _ (by omega) hx4 (by omega)]
  · exact hnodup.erase _
  · intro x
    rw [hfa', List.Nodup.mem_erase_iff hnodup, hiff x, hfa]
    exact mem_skip_middle x bp _ _ hnb1 hnb2

/-- `place` with a split and a ≥75-byte request: the allocated piece sits at
the high end, the free remainder keeps the low address and the free list is
untouched. -/
theorem place_invWith_high (s : AllocState) (bl1 bl2 : List (Nat × Nat × Bool)) (bp S R : Nat)
    (hbrk8 : s.brk % 8 = 0) (hbrk16 : 16 ≤ s.brk) (hbound : s.brk + s.budget < 2147483648)
    (hpro1 : readWord s 4 = packTag (8 : Int) 1)
    (hpro2 : readWord s 8 = packTag (8 : Int) 1)
    (hepi : readWord s (s.brk - 4) = packTag (0 : Int) 1)
    (hch1 : chainAt s 12 bp bl1) (hch2 : chainAt s (bp + S) (s.brk - 4) bl2)
    (hnodup : s.freeList.Nodup)
    (hiff : ∀ x, x ∈ s.freeList ↔ x ∈ freeAddrs (bl1 ++ (bp, S, false) :: bl2))
    (hbp84 : bp % 8 = 4)
    (hS16 : 16 ≤ S) (hS8 : S % 8 = 0) (hSlt : S < 2147483648)
    (hhdr : readWord s bp = packTag (S : Int) 0)
    (hR8 : R % 8 = 0) (hR : 16 ≤ R) (hRS : R ≤ S) (hsr : 16 ≤ S - R) (h75 : 75 ≤ R) :
    HeapInvWith (place s bp (R : Int)).1
      (bl1 ++ (bp, S - R, false) :: (bp + (S - R), R, true) :: bl2) ∧
    (place s bp (R : Int)).2 = bp + (S - R) := by
  have hbp12 : 12 ≤ bp := chainAt_le s bl1 12 bp hch1
  have hbpe : bp + S ≤ s.brk - 4 := chainAt_le s bl2 (bp + S) (s.brk - 4) hch2
  have hfa : freeAddrs (bl1 ++ (bp, S, false) :: bl2) =
      freeAddrs bl1 ++ bp :: freeAddrs bl2 := by
    rw [freeAddrs_append]
    rfl
  have hfa' : freeAddrs (bl1 ++ (bp, S - R, false) :: (bp + (S - R), R, true) :: bl2) =
      freeAddrs bl1 ++ bp :: freeAddrs bl2 := by
    rw [freeAddrs_append]
    rfl
  have heq := place_eq_high s bp S R (by omega) hhdr hS8 hS16 hSlt hR8 hR hRS hsr h75
  rw [heq]
  refine ⟨?_, rfl⟩
  have hout : ∀ x, x % 4 = 0 → (x < bp ∨ bp + S ≤ x) →
      readWord (writeWord (writeWord (writeWord (writeWord (writeWord (writeWord s
        bp (packTag ((S - R : Nat) : Int) 1)) (bp + (S - R) - 4)
          (packTag ((S - R : Nat) : Int) 1))
        (bp + (S - R)) (packTag (R : Int) 1)) (bp + (S - R) + R - 4) (packTag (R : Int) 1))
        bp (packTag ((S - R : Nat) : Int) 0)) (bp + (S - R) - 4)
          (packTag ((S - R : Nat) : Int) 0)) x = readWord s x := by
    intro x hx4 hx
    rw [readWord_writeWord_other _ _ _ _ (by omega) hx4 (by omega),
      readWord_writeWord_other _ _ _ _ (by omega) hx4 (by omega),
      readWord_writeWord_other _ _ _ _ (by omega) hx4 (by omega),
      readWord_writeWord_other _ _ _ _ (by omega) hx4 (by omega),
      readWord_writeWord_other _ _ _ _ (by omega) hx4 (by omega),
      readWord_writeWord_other _ _ _ _ (by omega) hx4 (by omega)]
  simp only [HeapInvWith, writeWord_brk, writeWord_budget, writeWord_freeList]
  refine ⟨hbrk8, hbrk16, hbound, ?_, ?_, ?_, ?_, hnodup, ?_⟩
  · rw [hout 4 (by norm_num) (by omega)]
    exact hpro1
  · rw [hout 8 (by norm_num) (by omega)]
    exact hpro2
  · rw [hout (s.brk - 4) (by omega) (by omega)]
    exact hepi
  · refine chainAt_append_intro _ bl1 ((bp, S - R, false) :: (bp + (S - R), R, true) :: bl2)
      12 bp (s.brk - 4) ?_ ?_
    · exact chainAt_congr_on s _ bl1 12 bp hch1 (by norm_num)
        (fun x hx4 hx1 hx2 => hout x hx4 (Or.inl hx2))
    · refine ⟨rfl, hsr, by omega, by omega, ?_, ?_, ?_⟩
      · rw [readWord_writeWord_other _ _ _ _ (by omega) (by omega) (by omega),
          readWord_writeWord_self]
        rfl
      · rw [readWord_writeWord_self]
        rfl
      · refine ⟨rfl, hR, hR8, by omega, ?_, ?_, ?_⟩
        · rw [readWord_writeWord_other _ _ _ _ (by omega) (by omega) (by omega),
            readWord_writeWord_other _ _ _ _ (by omega) (by omega) (by omega),
            readWord_writeWord_other _ _ _ _ (by omega) (by omega) (by omega),
            readWord_writeWord_self]
          rfl
        · rw [readWord_writeWord_other _ _ _ _ (by omega) (by omega) (by omega),
            readWord_writeWord_other _ _ _ _ (by omega) (by omega) (by omega),
            readWord_writeWord_self]
          rfl
        · have hch2' : chainAt s (bp + (S - R) + R) (s.brk - 4) bl2 := by
            rw [show bp + (S - R) + R = bp + S from by omega]
            exact hch2
          exact chainAt_congr_on s _ bl2 (bp + (S - R) + R) (s.brk - 4) hch2' (by omega)
            (fun x hx4 hx1 hx2 => hout x hx4 (Or.inr (by omega)))
  · intro x
    rw [hfa', hiff x, hfa]

/-- `place` with a split and a <75-byte request: the allocated piece sits at
the low end and leaves the free list, the free remainder at the high end is
prepended. -/
theorem place_invWith_low (s : AllocState) (bl1 bl2 : List (Nat × Nat × Bool)) (bp S R : Nat)
    (hbrk8 : s.brk % 8 = 0) (hbrk16 : 16 ≤ s.brk) (hbound : s.brk + s.budget < 2147483648)
    (hpro1 : readWord s 4 = packTag (8 : Int) 1)
    (hpro2 : readWord s 8 = packTag (8 : Int) 1)
    (hepi : readWord s (s.brk - 4) = packTag (0 : Int) 1)
    (hch1 : chainAt s 12 bp bl1) (hch2 : chainAt s (bp + S) (s.brk - 4) bl2)
    (hnodup : s.freeList.Nodup)
    (hiff : ∀ x, x ∈ s.freeList ↔ x ∈ freeAddrs (bl1 ++ (bp, S, false) :: bl2))
    (hbp84 : bp % 8 = 4)
    (hS16 : 16 ≤ S) (hS8 : S % 8 = 0) (hSlt : S < 2147483648)
    (hhdr : readWord s bp = packTag (S : Int) 0)
    (hR8 : R % 8 = 0) (hR : 16 ≤ R) (hRS : R ≤ S) (hsr : 16 ≤ S - R) (h75 : R < 75) :
    HeapInvWith (place s bp (R : Int)).1
      (bl1 ++ (bp, R, true) :: (bp + R, S - R, false) :: bl2) ∧
    (place s bp (R : Int)).2 = bp := by
  have hbp12 : 12 ≤ bp := chainAt_le s bl1 12 bp hch1
  have hbpe : bp + S ≤ s.brk - 4 := chainAt_le s bl2 (bp + S) (s.brk - 4) hch2
  have hnb1 : bp ∉ freeAddrs bl1 := by
    intro hx
    obtain ⟨sx, hm⟩ := (mem_freeAddrs bl1 bp).1 hx
    obtain ⟨-, h16, -, -, -, hle, -, -⟩ :=
      chainAt_props s bl1 12 bp hch1 (by norm_num) bp sx false hm
    omega
  have hnb2 : bp ∉ freeAddrs bl2 := by
    intro hx
    obtain ⟨sx, hm⟩ := (mem_freeAddrs bl2 bp).1 hx
    obtain ⟨hge, -⟩ := chainAt_mem_lb s bl2 (bp + S) (s.brk - 4) bp sx false hch2 hm
    omega
  have hfa : freeAddrs (bl1 ++ (bp, S, false) :: bl2) =
      freeAddrs bl1 ++ bp :: freeAddrs bl2 := by
    rw [freeAddrs_append]
    rfl
  have hfa' : freeAddrs (bl1 ++ (bp, R, true) :: (bp + R, S - R, false) :: bl2) =
      freeAddrs bl1 ++ (bp + R) :: freeAddrs bl2 := by
    rw [freeAddrs_append]
    rfl
  have hnpr : bp + R ∉ s.freeList.erase bp := by
    intro hx
    have hx' := (hiff (bp + R)).1 (List.mem_of_mem_erase hx)
    rw [hfa] at hx'
    rcases List.mem_append.1 hx' with h | h
    · obtain ⟨sx, hm⟩ := (mem_freeAddrs bl1 (bp + R)).1 h
      obtain ⟨-, hle⟩ := chainAt_mem_lb s bl1 12 bp (bp + R) sx false hch1 hm
      omega
    · rcases List.mem_cons.1 h with h | h
      · omega
      · obtain ⟨sx, hm⟩ := (mem_freeAddrs bl2 (bp + R)).1 h
        obtain ⟨hge, -⟩ := chainAt_mem_lb s bl2 (bp + S) (s.brk - 4) (bp + R) sx false hch2 hm
        omega
  have herase : ((bp + R) :: s.freeList).erase bp = (bp + R) :: s.freeList.erase bp := by
    rw [List.erase_cons, if_neg (by simp only [beq_iff_eq]; omega)]
  have heq := place_eq_low s bp S R (by omega) hhdr hS8 hS16 hSlt hR8 hR hRS hsr h75
  rw [heq]
  refine ⟨?_, rfl⟩
  have hout : ∀ x, x % 4 = 0 → (x < bp ∨ bp + S ≤ x) →
      readWord (mm_list_remove (writeWord (writeWord (mm_list_prepend (writeWord (writeWord s
        bp (packTag (R : Int) 1)) (bp + R - 4) (packTag (R : Int) 1)) (bp + R))
        (bp + R) (packTag ((S - R : Nat) : Int) 0)) (bp + R + (S - R) - 4)
          (packTag ((S - R : Nat) : Int) 0)) bp) x = readWord s x := by
    intro x hx4 hx
    rw [readWord_mm_list_remove,
      readWord_writeWord_other _ _ _ _ (by omega) hx4 (by omega),
      readWord_writeWord_other _ _ _ _ (by omega) hx4 (by omega),
      readWord_mm_list_prepend,
      readWord_writeWord_other _ _ _ _ (by omega) hx4 (by omega),
      readWord_writeWord_other _ _ _ _ (by omega) hx4 (by omega)]
  simp only [HeapInvWith, mm_list_remove_brk, writeWord_brk, mm_list_prepend_brk,
    mm_list_remove_budget, writeWord_budget, mm_list_prepend_budget,
    mm_list_remove_freeList, writeWord_freeList, mm_list_prepend_freeList]
  refine ⟨hbrk8, hbrk16, hbound, ?_, ?_, ?_, ?_, ?_, ?_⟩
  · rw [hout 4 (by norm_num) (by omega)]
    exact hpro1
  · rw [hout 8 (by norm_num) (by omega)]
    exact hpro2
  · rw [hout (s.brk - 4) (by omega) (by omega)]
    exact hepi
  · refine chainAt_append_intro _ bl1 ((bp, R, true) :: (bp + R, S - R, false) :: bl2)
      12 bp (s.brk - 4) ?_ ?_
    · exact chainAt_congr_on s _ bl1 12 bp hch1 (by norm_num)
        (fun x hx4 hx1 hx2 => hout x hx4 (Or.inl hx2))
    · refine ⟨rfl, hR, hR8, by omega, ?_, ?_, ?_⟩
      · rw [readWord_mm_list_remove,
          readWord_writeWord_other _ _ _ _ (by omega) (by omega) (by omega),
          readWord_writeWord_other _ _ _ _ (by omega) (by omega) (by omega),
          readWord_mm_list_prepend,
          readWord_writeWord_other _ _ _ _ (by omega) (by omega) (by omega),
          readWord_writeWord_self]
        rfl
      · rw [readWord_mm_list_remove,
          readWord_writeWord_other _ _ _ _ (by omega) (by omega) (by omega),
          readWord_writeWord_other _ _ _ _ (by omega) (by omega) (by omega),
          readWord_mm_list_prepend,
          readWord_writeWord_self]
        rfl
      · refine ⟨rfl, hsr, by omega, by omega, ?_, ?_, ?_⟩
        · rw [readWord_mm_list_remove,
            readWord_writeWord_other _ _ _ _ (by omega) (by omega) (by omega),
            readWord_writeWord_self]
          rfl
        · rw [readWord_mm_list_remove, readWord_writeWord_self]
          rfl
        · have hch2' : chainAt s (bp + R + (S - R)) (s.brk - 4) bl2 := by
            rw [show bp + R + (S - R) = bp + S from by omega]
            exact hch2
          exact chainAt_congr_on s _ bl2 (bp + R + (S - R)) (s.brk - 4) hch2' (by omega)
            (fun x hx4 hx1 hx2 => hout x hx4 (Or.inr (by omega)))
  · rw [herase]
    exact List.nodup_cons.2 ⟨hnpr, hnodup.erase _⟩
  · intro x
    rw [herase, hfa', List.mem_cons, List.Nodup.mem_erase_iff hnodup, hiff x, hfa,
      mem_skip_middle x bp _ _ hnb1 hnb2]
    simp only [List.mem_append, List.mem_cons]
    tauto

/-- `place` on a free chain block preserves the heap invariant: some new
chain covers the heap, every allocated block survives untouched, and the
returned handle heads an allocated block of at least the requested size. -/
theorem place_invWith (s : AllocState) (bl : List (Nat × Nat × Bool)) (bp S R : Nat)
    (hw : HeapInvWith s bl) (hmem : (bp, S, false) ∈ bl)
    (hR8 : R % 8 = 0) (hR : 16 ≤ R) (hRS : R ≤ S) :
    ∃ bl', HeapInvWith (place s bp (R : Int)).1 bl' ∧
      (∀ b sz, (b, sz, true) ∈ bl → (b, sz, true) ∈ bl') ∧
      ∃ szr, ((place s bp (R : Int)).2, szr, true) ∈ bl' ∧ R ≤ szr ∧ szr < 2147483648 := by
  obtain ⟨hbrk8, hbrk16, hbound, hpro1, hpro2, hepi, hchain, hnodup, hiff0⟩ := hw
  obtain ⟨hb84, -, -, -, -, -, -, -⟩ :=
    chainAt_props s bl 12 (s.brk - 4) hchain (by norm_num) bp S false hmem
  obtain ⟨bl1, bl2, hsplit, hch1, hS16, hS8, hSlt, hhdr', hfoot', hch2⟩ :=
    chainAt_mem_split s bl 12 (s.brk - 4) bp S false hchain hmem
  have hhdr : readWord s bp = packTag (S : Int) 0 := hhdr'
  have hiff : ∀ x, x ∈ s.freeList ↔ x ∈ freeAddrs (bl1 ++ (bp, S, false) :: bl2) := by
    intro x
    rw [← hsplit]
    exact hiff0 x
  by_cases h1 : 16 ≤ S - R
  · by_cases h2 : 75 ≤ R
    · obtain ⟨hinv, hhandle⟩ := place_invWith_high s bl1 bl2 bp S R hbrk8 hbrk16 hbound
        hpro1 hpro2 hepi hch1 hch2 hnodup hiff hb84 hS16 hS8 hSlt hhdr hR8 hR hRS h1 h2
      refine ⟨_, hinv, ?_, R, ?_, le_refl _, by omega⟩
      · intro b sz hb
        rw [hsplit] at hb
        rcases List.mem_append.1 hb with h | h
        · exact List.mem_append.2 (Or.inl h)
        · rcases List.mem_cons.1 h with hEq | h
          · simp [Prod.ext_iff] at hEq
          · exact List.mem_append.2
              (Or.inr (List.mem_cons_of_mem _ (List.mem_cons_of_mem _ h)))
      · rw [hhandle]
        exact List.mem_append.2 (Or.inr (List.mem_cons_of_mem _ (List.mem_cons_self _ _)))
    · obtain ⟨hinv, hhandle⟩ := place_invWith_low s bl1 bl2 bp S R hbrk8 hbrk16 hbound
        hpro1 hpro2 hepi hch1 hch2 hnodup hiff hb84 hS16 hS8 hSlt hhdr hR8 hR hRS h1
        (by omega)
      refine ⟨_, hinv, ?_, R, ?_, le_refl _, by omega⟩
      · intro b sz hb
        rw [hsplit] at hb
        rcases List.mem_append.1 hb with h | h
        · exact List.mem_append.2 (Or.inl h)
        · rcases List.mem_cons.1 h with hEq | h
          · simp [Prod.ext_iff] at hEq
          · exact List.mem_append.2
              (Or.inr (List.mem_cons_of_mem _ (List.mem_cons_of_mem _ h)))
      · rw [hhandle]
        exact List.mem_append.2 (Or.inr (List.mem_cons_self _ _))
  · obtain ⟨hinv, hhandle⟩ := place_invWith_nosplit s bl1 bl2 bp S R hbrk8 hbrk16 hbound
      hpro1 hpro2 hepi hch1 hch2 hnodup hiff hb84 hS16 hS8 hSlt hhdr hR8 hR hRS (by omega)
    refine ⟨_, hinv, ?_, S, ?_, hRS, by omega⟩
    · intro b sz hb
      rw [hsplit] at hb
      rcases List.mem_append.1 hb with h | h
      · exact List.mem_append.2 (Or.inl h)
      · rcases List.mem_cons.1 h with hEq | h
        · simp [Prod.ext_iff] at hEq
        · exact List.mem_append.2 (Or.inr (List.mem_cons_of_mem _ h))
    · rw [hhandle]
      exact List.mem_append.2 (Or.inr (List.mem_cons_self _ _))

/-- `extend_heap` preserves the invariant with an explicit chain: the new
chain keeps every allocated block of the old one (the extension only
appends, or merges with, a trailing free block). -/
theorem extend_heap_invWith (s : AllocState) (z : Nat) (bl : List (Nat × Nat × Bool))
    (hz8 : z % 8 = 0) (hz : 16 ≤ z) (hw : HeapInvWith s bl) :
    ∃ bl', HeapInvWith (extend_heap s (z : Int)).1 bl' ∧
      (∀ b sz, (b, sz, true) ∈ bl → (b, sz, true) ∈ bl') := by
  obtain ⟨hbrk8, hbrk16, hbound, hpro1, hpro2, hepi, hchain, hnodup, hiff⟩ := hw
  by_cases hbz : z ≤ s.budget
  · by_cases hbl : bl = []
    · subst hbl
      have h12 : (12 : Nat) = s.brk - 4 := hchain
      refine ⟨[(s.brk - 4, z, false)], ?_, fun b sz h => absurd h (List.not_mem_nil _)⟩
      refine extend_heap_inv_aux s z 8 [] hz8 hz hbz hbrk8 hbrk16 hbound hpro1 hpro2
        hchain hnodup hiff (by norm_num) (by norm_num) (by norm_num) (by omega) ?_ ?_
      · rw [show s.brk - 4 - 4 = (8 : Nat) from by omega]
        exact hpro2
      · rw [show s.brk - 4 - 8 = (4 : Nat) from by omega]
        exact hpro1
    · obtain ⟨bl0, b, ps, al, hbleq, hch0, hps, hps8, hpslt, hbh, hbf, hbend⟩ :=
        chainAt_concat_elim s bl 12 (s.brk - 4) hchain hbl
      have hb12 : 12 ≤ b := chainAt_le s bl0 12 b hch0
      cases al
      · subst hbleq
        refine ⟨bl0 ++ [(b, z + ps, false)], ?_, ?_⟩
        · exact extend_heap_inv_aux2 s z b ps bl0 hz8 hz hbz hbrk8 hbrk16 hbound hpro1 hpro2
            hch0 hps hps8 hbh hbf hbend hnodup hiff
        · intro b' sz' h
          rcases List.mem_append.1 h with h | h
          · exact List.mem_append.2 (Or.inl h)
          · rcases List.mem_cons.1 h with h | h
            · simp [Prod.ext_iff] at h
            · exact absurd h (List.not_mem_nil _)
      · subst hbleq
        refine ⟨(bl0 ++ [(b, ps, true)]) ++ [(s.brk - 4, z, false)], ?_,
          fun b' sz' h => List.mem_append.2 (Or.inl h)⟩
        refine extend_heap_inv_aux s z ps (bl0 ++ [(b, ps, true)]) hz8 hz hbz hbrk8 hbrk16
          hbound hpro1 hpro2 hchain hnodup hiff hps8 (by omega) hpslt (by omega) ?_ ?_
        · rw [show s.brk - 4 - 4 = b + ps - 4 from by omega]
          exact hbf
        · rw [show s.brk - 4 - ps = b from by omega]
          exact hbh
  · have hfail : extend_heap s (z : Int) = (s, none) := by
      unfold extend_heap mem_sbrk
      rw [if_neg (by omega)]
    rw [hfail]
    exact ⟨bl, ⟨hbrk8, hbrk16, hbound, hpro1, hpro2, hepi, hchain, hnodup, hiff⟩,
      fun b sz h => h⟩

/-- The fit found by `find_fit` is a free chain block, so `place` preserves
the invariant there. -/
theorem place_found_invWith (s : AllocState) (bl : List (Nat × Nat × Bool)) (R bp : Nat)
    (hR8 : R % 8 = 0) (hR16 : 16 ≤ R) (hw : HeapInvWith s bl)
    (hmem : bp ∈ s.freeList) (hfit : (R : Int) ≤ mm_block_size s bp) :
    ∃ bl', HeapInvWith (place s bp (R : Int)).1 bl' ∧
      (∀ b sz, (b, sz, true) ∈ bl → (b, sz, true) ∈ bl') ∧
      ∃ szr, ((place s bp (R : Int)).2, szr, true) ∈ bl' ∧ R ≤ szr := by
  have hw' := hw
  obtain ⟨hbrk8, hbrk16, hbound, hpro1, hpro2, hepi, hchain, hnodup, hiff⟩ := hw'
  obtain ⟨S, hmemS⟩ := (mem_freeAddrs bl bp).1 ((hiff bp).1 hmem)
  obtain ⟨hb8, hS16, hS8, hSlt, -, -, hhdr, -⟩ :=
    chainAt_props s bl 12 (s.brk - 4) hchain (by norm_num) bp S false hmemS
  have hhdr0 : readWord s bp = packTag (S : Int) 0 := hhdr
  have hbs := mm_block_size_read s bp S 0 hhdr0 hS8 hSlt (by omega)
  have hRS : R ≤ S := by
    rw [hbs] at hfit
    exact_mod_cast hfit
  obtain ⟨bl', hinv, hframe, szr, hmem', hle, -⟩ :=
    place_invWith s bl bp S R hw hmemS hR8 hR16 hRS
  exact ⟨bl', hinv, hframe, szr, hmem', hle⟩

/-- The `mm_malloc` search loop preserves the invariant, keeps every
allocated block, and on success hands back a fresh allocated block of at
least the required size. -/
theorem mm_malloc_loop_invWith (R : Nat) (hR8 : R % 8 = 0) (hR16 : 16 ≤ R) :
    ∀ (fuel : Nat) (s : AllocState) (bl : List (Nat × Nat × Bool)), HeapInvWith s bl →
      ∃ bl', HeapInvWith (mm_malloc_loop fuel s (R : Int) (find_fit s (R : Int))).1 bl' ∧
        (∀ b sz, (b, sz, true) ∈ bl → (b, sz, true) ∈ bl') ∧
        (∀ p, (mm_malloc_loop fuel s (R : Int) (find_fit s (R : Int))).2 = some p →
          ∃ szr, (p - 4, szr, true) ∈ bl' ∧ R ≤ szr ∧ p = (p - 4) + 4) := by
  intro fuel
  induction fuel with
  | zero =>
    intro s bl hw
    cases hff : find_fit s (R : Int) with
    | none =>
      exact ⟨bl, hw, fun b sz h => h, fun p hp => Option.noConfusion hp⟩
    | some bp =>
      have hred : mm_malloc_loop 0 s (R : Int) (some bp) =
          ((place s bp (R : Int)).1, some ((place s bp (R : Int)).2 + 4)) := rfl
      rw [hred]
      obtain ⟨hmem, hfit⟩ := find_fit_spec s (R : Int) bp hff
      obtain ⟨bl', hinv, hframe, szr, hmem', hle⟩ :=
        place_found_invWith s bl R bp hR8 hR16 hw hmem hfit
      refine ⟨bl', hinv, hframe, ?_⟩
      intro p hp
      have hp' : (place s bp (R : Int)).2 + 4 = p := Option.some.inj hp
      refine ⟨szr, ?_, hle, by omega⟩
      rw [show p - 4 = (place s bp (R : Int)).2 from by omega]
      exact hmem'
  | succ k ih =>
    intro s bl hw
    cases hff : find_fit s (R : Int) with
    | some bp =>
      have hred : mm_malloc_loop (k + 1) s (R : Int) (some bp) =
          ((place s bp (R : Int)).1, some ((place s bp (R : Int)).2 + 4)) := rfl
      rw [hred]
      obtain ⟨hmem, hfit⟩ := find_fit_spec s (R : Int) bp hff
      obtain ⟨bl', hinv, hframe, szr, hmem', hle⟩ :=
        place_found_invWith s bl R bp hR8 hR16 hw hmem hfit
      refine ⟨bl', hinv, hframe, ?_⟩
      intro p hp
      have hp' : (place s bp (R : Int)).2 + 4 = p := Option.some.inj hp
      refine ⟨szr, ?_, hle, by omega⟩
      rw [show p - 4 = (place s bp (R : Int)).2 from by omega]
      exact hmem'
    | none =>
      have htempp : (if (R : Int) > 512 then (R : Int) else 512) =
          ((if R > 512 then R else 512 : Nat) : Int) := by
        by_cases hc : R > 512
        · rw [if_pos (by exact_mod_cast hc), if_pos hc]
        · rw [if_neg (by exact_mod_cast hc), if_neg hc]
          norm_num
      have hstep : mm_malloc_loop (k + 1) s (R : Int) none =
          mm_malloc_loop k (extend_heap s (if (R : Int) > 512 then (R : Int) else 512)).1
            (R : Int)
            (find_fit (extend_heap s
              (if (R : Int) > 512 then (R : Int) else 512)).1 (R : Int)) := rfl
      rw [hstep, htempp]
      have hz8 : (if R > 512 then R else 512) % 8 = 0 := by
        by_cases hc : R > 512
        · rw [if_pos hc]; exact hR8
        · rw [if_neg hc]
      have hz16 : 16 ≤ (if R > 512 then R else 512) := by
        by_cases hc : R > 512
        · rw [if_pos hc]; exact hR16
        · rw [if_neg hc]; norm_num
      obtain ⟨bl1, hw1, hfr1⟩ :=
        extend_heap_invWith s (if R > 512 then R else 512) bl hz8 hz16 hw
      obtain ⟨bl', hinv, hfr2, hres⟩ :=
        ih (extend_heap s ((if R > 512 then R else 512 : Nat) : Int)).1 bl1 hw1
      exact ⟨bl', hinv, fun b sz h => hfr2 b sz (hfr1 b sz h), hres⟩

/-- `mm_malloc` preserves the invariant for requests below the truncation
threshold, keeps every allocated block, and on success the returned payload
pointer's block is allocated with block size at least `n + 8`. -/
theorem mm_malloc_invWith (fuel : Nat) (s : AllocState) (n : Nat)
    (bl : List (Nat × Nat × Bool)) (hw : HeapInvWith s bl) (hn : n + 15 < 2147483648) :
    ∃ bl', HeapInvWith (mm_malloc fuel s n).1 bl' ∧
      (∀ b sz, (b, sz, true) ∈ bl → (b, sz, true) ∈ bl') ∧
      (∀ p, (mm_malloc fuel s n).2 = some p →
        ∃ szr, (p - 4, szr, true) ∈ bl' ∧ n + 8 ≤ szr ∧ p = (p - 4) + 4) := by
  by_cases h0 : n = 0
  · subst h0
    have hz : mm_malloc fuel s 0 = (s, none) := rfl
    rw [hz]
    exact ⟨bl, hw, fun b sz h => h, fun p hp => Option.noConfusion hp⟩
  · have hup : n + 8 ≤ roundUp8 (n + 8) ∧ roundUp8 (n + 8) ≤ n + 15 ∧
        roundUp8 (n + 8) % 8 = 0 := by
      unfold roundUp8
      omega
    have hreq := required_eq_roundUp8 n (Nat.pos_of_ne_zero h0) hn
    have hunfold : mm_malloc fuel s n = mm_malloc_loop fuel s
        ((roundUp8 (n + 8) : Nat) : Int) (find_fit s ((roundUp8 (n + 8) : Nat) : Int)) := by
      simp only [mm_malloc]
      rw [if_neg h0, hreq]
    rw [hunfold]
    obtain ⟨bl', hinv, hfr, hres⟩ :=
      mm_malloc_loop_invWith (roundUp8 (n + 8)) hup.2.2 (by omega) fuel s bl hw
    refine ⟨bl', hinv, hfr, ?_⟩
    intro p hp
    obtain ⟨szr, hm, hle, hpe⟩ := hres p hp
    exact ⟨szr, hm, by omega, hpe⟩

/-- Freeing a chain block whose physical neighbours are both allocated:
the block flips to free in place and is prepended to the free list. -/
theorem free_invWith_alloc_alloc (s : AllocState) (bl1 bl2 : List (Nat × Nat × Bool))
    (bp SZ P Q : Nat)
    (hbrk8 : s.brk % 8 = 0) (hbrk16 : 16 ≤ s.brk) (hbound : s.brk + s.budget < 2147483648)
    (hpro1 : readWord s 4 = packTag (8 : Int) 1)
    (hpro2 : readWord s 8 = packTag (8 : Int) 1)
    (hepi : readWord s (s.brk - 4) = packTag (0 : Int) 1)
    (hch1 : chainAt s 12 bp bl1) (hch2 : chainAt s (bp + SZ) (s.brk - 4) bl2)
    (hnodup : s.freeList.Nodup)
    (hiff : ∀ x, x ∈ s.freeList ↔ x ∈ freeAddrs (bl1 ++ (bp, SZ, true) :: bl2))
    (hbp84 : bp % 8 = 4)
    (hsz16 : 16 ≤ SZ) (hsz8 : SZ % 8 = 0) (hszlt : SZ < 2147483648)
    (hhdr : readWord s bp = packTag (SZ : Int) 1)
    (hP8 : P % 8 = 0) (hP : 8 ≤ P) (hPbp : P ≤ bp) (hPlt : P < 2147483648)
    (hLfoot : readWord s (bp - 4) = packTag (P : Int) 1)
    (hLhead : readWord s (bp - P) = packTag (P : Int) 1)
    (hQ8 : Q % 8 = 0) (hQlt : Q < 2147483648)
    (hNh : readWord s (bp + SZ) = packTag (Q : Int) 1) :
    HeapInvWith (free_coalesce s bp).1 (bl1 ++ (bp, SZ, false) :: bl2) := by
  have hbp12 : 12 ≤ bp := chainAt_le s bl1 12 bp hch1
  have hbpe : bp + SZ ≤ s.brk - 4 := chainAt_le s bl2 (bp + SZ) (s.brk - 4) hch2
  have hnb1 : bp ∉ freeAddrs bl1 := by
    intro hx
    obtain ⟨sx, hm⟩ := (mem_freeAddrs bl1 bp).1 hx
    obtain ⟨-, h16, -, -, -, hle, -, -⟩ :=
      chainAt_props s bl1 12 bp hch1 (by norm_num) bp sx false hm
    omega
  have hnb2 : bp ∉ freeAddrs bl2 := by
    intro hx
    obtain ⟨sx, hm⟩ := (mem_freeAddrs bl2 bp).1 hx
    obtain ⟨hge, -⟩ := chainAt_mem_lb s bl2 (bp + SZ) (s.brk - 4) bp sx false hch2 hm
    omega
  have hfaOld : freeAddrs (bl1 ++ (bp, SZ, true) :: bl2) =
      freeAddrs bl1 ++ freeAddrs bl2 := by
    rw [freeAddrs_append]
    rfl
  have hfaNew : freeAddrs (bl1 ++ (bp, SZ, false) :: bl2) =
      freeAddrs bl1 ++ bp :: freeAddrs bl2 := by
    rw [freeAddrs_append]
    rfl
  have hbpnot : bp ∉ s.freeList := by
    intro hx
    have hx' := (hiff bp).1 hx
    rw [hfaOld] at hx'
    rcases List.mem_append.1 hx' with h | h
    · exact hnb1 h
    · exact hnb2 h
  have heq := free_coalesce_both_alloc s bp SZ P Q 1 (by omega) (by omega) hPbp
    hP8 hP hPlt hsz8 hsz16 hszlt (le_refl _) hQ8 hQlt hhdr hLfoot hLhead hNh
  rw [heq]
  simp only [HeapInvWith, mm_list_prepend_brk, writeWord_brk, mm_list_prepend_budget,
    writeWord_budget, mm_list_prepend_freeList, writeWord_freeList]
  refine ⟨hbrk8, hbrk16, hbound, ?_, ?_, ?_, ?_, ?_, ?_⟩
  · rw [readWord_mm_list_prepend,
      readWord_writeWord_other _ _ _ _ (by omega) (by omega) (by omega),
      readWord_writeWord_other _ _ _ _ (by omega) (by omega) (by omega)]
    exact hpro1
  · rw [readWord_mm_list_prepend,
      readWord_writeWord_other _ _ _ _ (by omega) (by omega) (by omega),
      readWord_writeWord_other _ _ _ _ (by omega) (by omega) (by omega)]
    exact hpro2
  · rw [readWord_mm_list_prepend,
      readWord_writeWord_other _ _ _ _ (by omega) (by omega) (by omega),
      readWord_writeWord_other _ _ _ _ (by omega) (by omega) (by omega)]
    exact hepi
  · refine chainAt_append_intro _ bl1 ((bp, SZ, false) :: bl2) 12 bp (s.brk - 4) ?_ ?_
    · refine chainAt_congr_on s _ bl1 12 bp hch1 (by norm_num) ?_
      intro x hx4 hx1 hx2
      rw [readWord_mm_list_prepend,
        readWord_writeWord_other _ _ _ _ (by omega) hx4 (by omega),
        readWord_writeWord_other _ _ _ _ (by omega) hx4 (by omega)]
    · refine ⟨rfl, hsz16, hsz8, hszlt, ?_, ?_, ?_⟩
      · rw [readWord_mm_list_prepend,
          readWord_writeWord_other _ _ _ _ (by omega) (by omega) (by omega),
          readWord_writeWord_self]
        rfl
      · rw [readWord_mm_list_prepend, readWord_writeWord_self]
        rfl
      · refine chainAt_congr_on s _ bl2 (bp + SZ) (s.brk - 4) hch2 (by omega) ?_
        intro x hx4 hx1 hx2
        rw [readWord_mm_list_prepend,
          readWord_writeWord_other _ _ _ _ (by omega) hx4 (by omega),
          readWord_writeWord_other _ _ _ _ (by omega) hx4 (by omega)]
  · exact List.nodup_cons.2 ⟨hbpnot, hnodup⟩
  · intro x
    rw [List.mem_cons, hiff x, hfaOld, hfaNew]
    simp only [List.mem_append, List.mem_cons]
    tauto

/-- Freeing a chain block whose successor is free (predecessor allocated):
the two blocks merge at the freed block's address, the successor leaves the
free list and the merged block is prepended. -/
theorem free_invWith_alloc_free (s : AllocState) (bl1 bl2' : List (Nat × Nat × Bool))
    (bp SZ NS P : Nat)
    (hbrk8 : s.brk % 8 = 0) (hbrk16 : 16 ≤ s.brk) (hbound : s.brk + s.budget < 2147483648)
    (hpro1 : readWord s 4 = packTag (8 : Int) 1)
    (hpro2 : readWord s 8 = packTag (8 : Int) 1)
    (hepi : readWord s (s.brk - 4) = packTag (0 : Int) 1)
    (hch1 : chainAt s 12 bp bl1) (hch2 : chainAt s (bp + SZ + NS) (s.brk - 4) bl2')
    (hnodup : s.freeList.Nodup)
    (hiff : ∀ x, x ∈ s.freeList ↔
      x ∈ freeAddrs (bl1 ++ (bp, SZ, true) :: (bp + SZ, NS, false) :: bl2'))
    (hbp84 : bp % 8 = 4)
    (hsz16 : 16 ≤ SZ) (hsz8 : SZ % 8 = 0)
    (hNS16 : 16 ≤ NS) (hNS8 : NS % 8 = 0)
    (hhdr : readWord s bp = packTag (SZ : Int) 1)
    (hP8 : P % 8 = 0) (hP : 8 ≤ P) (hPbp : P ≤ bp) (hPlt : P < 2147483648)
    (hLfoot : readWord s (bp - 4) = packTag (P : Int) 1)
    (hLhead : readWord s (bp - P) = packTag (P : Int) 1)
    (hNh : readWord s (bp + SZ) = packTag (NS : Int) 0) :
    HeapInvWith (free_coalesce s bp).1 (bl1 ++ (bp, SZ + NS, false) :: bl2') := by
  have hbp12 : 12 ≤ bp := chainAt_le s bl1 12 bp hch1
  have hbpe : bp + SZ + NS ≤ s.brk - 4 := chainAt_le s bl2' (bp + SZ + NS) (s.brk - 4) hch2
  have hlt : SZ + NS < 2147483648 := by omega
  have hnb1 : ∀ y, bp ≤ y → y ∉ freeAddrs bl1 := by
    intro y hy hx
    obtain ⟨sx, hm⟩ := (mem_freeAddrs bl1 y).1 hx
    obtain ⟨-, h16, -, -, -, hle, -, -⟩ :=
      chainAt_props s bl1 12 bp hch1 (by norm_num) y sx false hm
    omega
  have hnb2 : ∀ y, y < bp + SZ + NS → y ∉ freeAddrs bl2' := by
    intro y hy hx
    obtain ⟨sx, hm⟩ := (mem_freeAddrs bl2' y).1 hx
    obtain ⟨hge, -⟩ := chainAt_mem_lb s bl2' (bp + SZ + NS) (s.brk - 4) y sx false hch2 hm
    omega
  have hfaOld : freeAddrs (bl1 ++ (bp, SZ, true) :: (bp + SZ, NS, false) :: bl2') =
      freeAddrs bl1 ++ (bp + SZ) :: freeAddrs bl2' := by
    rw [freeAddrs_append]
    rfl
  have hfaNew : freeAddrs (bl1 ++ (bp, SZ + NS, false) :: bl2') =
      freeAddrs bl1 ++ bp :: freeAddrs bl2' := by
    rw [freeAddrs_append]
    rfl
  have hbpnot : bp ∉ s.freeList.erase (bp + SZ) := by
    intro hx
    have hx' := (hiff bp).1 (List.mem_of_mem_erase hx)
    rw [hfaOld] at hx'
    rcases List.mem_append.1 hx' with h | h
    · exact hnb1 bp (le_refl _) h
    · rcases List.mem_cons.1 h with h | h
      · omega
      · exact hnb2 bp (by omega) h
  have heq := free_coalesce_merge_next s bp SZ NS P 1 (by omega) (by omega) hPbp
    hP8 hP hPlt hsz8 hsz16 hNS8 hNS16 hlt (le_refl _) hhdr hLfoot hLhead hNh
  rw [heq]
  have hch2c : chainAt s (bp + (SZ + NS)) (s.brk - 4) bl2' := by
    rw [show bp + (SZ + NS) = bp + SZ + NS from by omega]
    exact hch2
  have hout : ∀ x, x % 4 = 0 → (x < bp ∨ bp + SZ + NS ≤ x) →
      readWord (writeWord (writeWord (mm_list_prepend (mm_list_remove
          (writeWord (writeWord s bp (packTag (SZ : Int) 0)) (bp + SZ - 4)
            (packTag (SZ : Int) 0))
          (bp + SZ)) bp)
        bp (packTag ((SZ + NS : Nat) : Int) 0))
        (bp + (SZ + NS) - 4) (packTag ((SZ + NS : Nat) : Int) 0)) x = readWord s x := by
    intro x hx4 hx
    rw [readWord_writeWord_other _ _ _ _ (by omega) hx4 (by omega),
      readWord_writeWord_other _ _ _ _ (by omega) hx4 (by omega),
      readWord_mm_list_prepend, readWord_mm_list_remove,
      readWord_writeWord_other _ _ _ _ (by omega) hx4 (by omega),
      readWord_writeWord_other _ _ _ _ (by omega) hx4 (by omega)]
  simp only [HeapInvWith, mm_list_prepend_brk, mm_list_remove_brk, writeWord_brk,
    mm_list_prepend_budget, mm_list_remove_budget, writeWord_budget,
    mm_list_prepend_freeList, mm_list_remove_freeList, writeWord_freeList]
  refine ⟨hbrk8, hbrk16, hbound, ?_, ?_, ?_, ?_, ?_, ?_⟩
  · rw [hout 4 (by norm_num) (by omega)]
    exact hpro1
  · rw [hout 8 (by norm_num) (by omega)]
    exact hpro2
  · rw [hout (s.brk - 4) (by omega) (by omega)]
    exact hepi
  · refine chainAt_append_intro _ bl1 ((bp, SZ + NS, false) :: bl2') 12 bp (s.brk - 4) ?_ ?_
    · exact chainAt_congr_on s _ bl1 12 bp hch1 (by norm_num)
        (fun x hx4 hx1 hx2 => hout x hx4 (Or.inl hx2))
    · refine ⟨rfl, by omega, by omega, hlt, ?_, ?_, ?_⟩
      · rw [readWord_writeWord_other _ _ _ _ (by omega) (by omega) (by omega),
          readWord_writeWord_self]
        rfl
      · rw [readWord_writeWord_self]
        rfl
      · exact chainAt_congr_on s _ bl2' (bp + (SZ + NS)) (s.brk - 4) hch2c (by omega)
          (fun x hx4 hx1 hx2 => hout x hx4 (Or.inr (by omega)))
  · exact List.nodup_cons.2 ⟨hbpnot, hnodup.erase _⟩
  · intro x
    rw [List.mem_cons, List.Nodup.mem_erase_iff hnodup, hiff x, hfaOld, hfaNew,
      mem_skip_middle x (bp + SZ) _ _ (hnb1 (bp + SZ) (by omega)) (hnb2 (bp + SZ) (by omega))]
    simp only [List.mem_append, List.mem_cons]
    tauto

/-- Freeing a chain block whose predecessor is free (successor allocated):
the merged tags are written at the predecessor's address and the free list
is untouched. -/
theorem free_invWith_free_alloc (s : AllocState) (bl1' bl2 : List (Nat × Nat × Bool))
    (bp SZ PS Q : Nat)
    (hbrk8 : s.brk % 8 = 0) (hbrk16 : 16 ≤ s.brk) (hbound : s.brk + s.budget < 2147483648)
    (hpro1 : readWord s 4 = packTag (8 : Int) 1)
    (hpro2 : readWord s 8 = packTag (8 : Int) 1)
    (hepi : readWord s (s.brk - 4) = packTag (0 : Int) 1)
    (hPSbp : PS ≤ bp)
    (hch1 : chainAt s 12 (bp - PS) bl1') (hch2 : chainAt s (bp + SZ) (s.brk - 4) bl2)
    (hnodup : s.freeList.Nodup)
    (hiff : ∀ x, x ∈ s.freeList ↔
      x ∈ freeAddrs (bl1' ++ (bp - PS, PS, false) :: (bp, SZ, true) :: bl2))
    (hbp84 : bp % 8 = 4)
    (hsz16 : 16 ≤ SZ) (hsz8 : SZ % 8 = 0)
    (hPS16 : 16 ≤ PS) (hPS8 : PS % 8 = 0)
    (hhdr : readWord s bp = packTag (SZ : Int) 1)
    (hLfoot : readWord s (bp - 4) = packTag (PS : Int) 0)
    (hLhead : readWord s (bp - PS) = packTag (PS : Int) 0)
    (hQ8 : Q % 8 = 0) (hQlt : Q < 2147483648)
    (hNh : readWord s (bp + SZ) = packTag (Q : Int) 1) :
    HeapInvWith (free_coalesce s bp).1 (bl1' ++ (bp - PS, SZ + PS, false) :: bl2) := by
  have hq12 : 12 ≤ bp - PS := chainAt_le s bl1' 12 (bp - PS) hch1
  have hbpe : bp + SZ ≤ s.brk - 4 := chainAt_le s bl2 (bp + SZ) (s.brk - 4) hch2
  have hlt : SZ + PS < 2147483648 := by omega
  have hfaOld : freeAddrs (bl1' ++ (bp - PS, PS, false) :: (bp, SZ, true) :: bl2) =
      freeAddrs bl1' ++ (bp - PS) :: freeAddrs bl2 := by
    rw [freeAddrs_append]
    rfl
  have hfaNew : freeAddrs (bl1' ++ (bp - PS, SZ + PS, false) :: bl2) =
      freeAddrs bl1' ++ (bp - PS) :: freeAddrs bl2 := by
    rw [freeAddrs_append]
    rfl
  have heq := free_coalesce_merge_prev s bp SZ PS Q 1 (by omega) (by omega) hPSbp
    hPS8 hPS16 hsz8 hsz16 hlt (le_refl _) hQ8 hQlt hhdr hLfoot hLhead hNh
  rw [heq]
  have hch2c : chainAt s (bp - PS + (SZ + PS)) (s.brk - 4) bl2 := by
    rw [show bp - PS + (SZ + PS) = bp + SZ from by omega]
    exact hch2
  have hout : ∀ x, x % 4 = 0 → (x < bp - PS ∨ bp + SZ ≤ x) →
      readWord (writeWord (writeWord
          (writeWord (writeWord s bp (packTag (SZ : Int) 0)) (bp + SZ - 4)
            (packTag (SZ : Int) 0))
          (bp - PS) (packTag ((SZ + PS : Nat) : Int) 0))
        (bp - PS + (SZ + PS) - 4) (packTag ((SZ + PS : Nat) : Int) 0)) x = readWord s x := by
    intro x hx4 hx
    rw [readWord_writeWord_other _ _ _ _ (by omega) hx4 (by omega),
      readWord_writeWord_other _ _ _ _ (by omega) hx4 (by omega),
      readWord_writeWord_other _ _ _ _ (by omega) hx4 (by omega),
      readWord_writeWord_other _ _ _ _ (by omega) hx4 (by omega)]
  simp only [HeapInvWith, writeWord_brk, writeWord_budget, writeWord_freeList]
  refine ⟨hbrk8, hbrk16, hbound, ?_, ?_, ?_, ?_, hnodup, ?_⟩
  · rw [hout 4 (by norm_num) (by omega)]
    exact hpro1
  · rw [hout 8 (by norm_num) (by omega)]
    exact hpro2
  · rw [hout (s.brk - 4) (by omega) (by omega)]
    exact hepi
  · refine chainAt_append_intro _ bl1' ((bp - PS, SZ + PS, false) :: bl2)
      12 (bp - PS) (s.brk - 4) ?_ ?_
    · exact chainAt_congr_on s _ bl1' 12 (bp - PS) hch1 (by norm_num)
        (fun x hx4 hx1 hx2 => hout x hx4 (Or.inl hx2))
    · refine ⟨rfl, by omega, by omega, hlt, ?_, ?_, ?_⟩
      · rw [readWord_writeWord_other _ _ _ _ (by omega) (by omega) (by omega),
          readWord_writeWord_self]
        rfl
      · rw [readWord_writeWord_self]
        rfl
      · exact chainAt_congr_on s _ bl2 (bp - PS + (SZ + PS)) (s.brk - 4) hch2c (by omega)
          (fun x hx4 hx1 hx2 => hout x hx4 (Or.inr (by omega)))
  · intro x
    rw [hiff x, hfaOld, hfaNew]

/-- Freeing a chain block with both physical neighbours free: the successor
leaves the free list and the three blocks merge at the predecessor's
address, which keeps its free-list membership. -/
theorem free_invWith_free_free (s : AllocState) (bl1' bl2' : List (Nat × Nat × Bool))
    (bp SZ NS PS : Nat)
    (hbrk8 : s.brk % 8 = 0) (hbrk16 : 16 ≤ s.brk) (hbound : s.brk + s.budget < 2147483648)
    (hpro1 : readWord s 4 = packTag (8 : Int) 1)
    (hpro2 : readWord s 8 = packTag (8 : Int) 1)
    (hepi : readWord s (s.brk - 4) = packTag (0 : Int) 1)
    (hPSbp : PS ≤ bp)
    (hch1 : chainAt s 12 (bp - PS) bl1')
    (hch2 : chainAt s (bp + SZ + NS) (s.brk - 4) bl2')
    (hnodup : s.freeList.Nodup)
    (hiff : ∀ x, x ∈ s.freeList ↔
      x ∈ freeAddrs (bl1' ++ (bp - PS, PS, false) :: (bp, SZ, true) ::
        (bp + SZ, NS, false) :: bl2'))
    (hbp84 : bp % 8 = 4)
    (hsz16 : 16 ≤ SZ) (hsz8 : SZ % 8 = 0)
    (hPS16 : 16 ≤ PS) (hPS8 : PS % 8 = 0)
    (hNS16 : 16 ≤ NS) (hNS8 : NS % 8 = 0)
    (hhdr : readWord s bp = packTag (SZ : Int) 1)
    (hLfoot : readWord s (bp - 4) = packTag (PS : Int) 0)
    (hLhead : readWord s (bp - PS) = packTag (PS : Int) 0)
    (hNh : readWord s (bp + SZ) = packTag (NS : Int) 0) :
    HeapInvWith (free_coalesce s bp).1 (bl1' ++ (bp - PS, SZ + NS + PS, false) :: bl2') := by
  have hq12 : 12 ≤ bp - PS := chainAt_le s bl1' 12 (bp - PS) hch1
  have hbpe : bp + SZ + NS ≤ s.brk - 4 := chainAt_le s bl2' (bp + SZ + NS) (s.brk - 4) hch2
  have hlt : SZ + NS + PS < 2147483648 := by omega
  have hA : bp + SZ ∉ freeAddrs bl1' := by
    intro hx
    obtain ⟨sx, hm⟩ := (mem_freeAddrs bl1' (bp + SZ)).1 hx
    obtain ⟨-, hle⟩ := chainAt_mem_lb s bl1' 12 (bp - PS) (bp + SZ) sx false hch1 hm
    omega
  have hB : bp + SZ ∉ freeAddrs bl2' := by
    intro hx
    obtain ⟨sx, hm⟩ := (mem_freeAddrs bl2' (bp + SZ)).1 hx
    obtain ⟨hge, -⟩ := chainAt_mem_lb s bl2' (bp + SZ + NS) (s.brk - 4) (bp + SZ) sx false
      hch2 hm
    omega
  have hfaOld : freeAddrs (bl1' ++ (bp - PS, PS, false) :: (bp, SZ, true) ::
      (bp + SZ, NS, false) :: bl2') =
      freeAddrs bl1' ++ (bp - PS) :: (bp + SZ) :: freeAddrs bl2' := by
    rw [freeAddrs_append]
    rfl
  have hfaNew : freeAddrs (bl1' ++ (bp - PS, SZ + NS + PS, false) :: bl2') =
      freeAddrs bl1' ++ (bp - PS) :: freeAddrs bl2' := by
    rw [freeAddrs_append]
    rfl
  have heq := free_coalesce_merge_both s bp SZ NS PS 1 (by omega) (by omega) hPSbp
    hPS8 hPS16 hsz8 hsz16 hNS8 hNS16 hlt (le_refl _) hhdr hLfoot hLhead hNh
  rw [heq]
  have hch2c : chainAt s (bp - PS + (SZ + NS + PS)) (s.brk - 4) bl2' := by
    rw [show bp - PS + (SZ + NS + PS) = bp + SZ + NS from by omega]
    exact hch2
  have hout : ∀ x, x % 4 = 0 → (x < bp - PS ∨ bp + SZ + NS ≤ x) →
      readWord (writeWord (writeWord (mm_list_remove
          (writeWord (writeWord s bp (packTag (SZ : Int) 0)) (bp + SZ - 4)
            (packTag (SZ : Int) 0))
          (bp + SZ))
          (bp - PS) (packTag ((SZ + NS + PS : Nat) : Int) 0))
        (bp - PS + (SZ + NS + PS) - 4) (packTag ((SZ + NS + PS : Nat) : Int) 0)) x =
        readWord s x := by
    intro x hx4 hx
    rw [readWord_writeWord_other _ _ _ _ (by omega) hx4 (by omega),
      readWord_writeWord_other _ _ _ _ (by omega) hx4 (by omega),
      readWord_mm_list_remove,
      readWord_writeWord_other _ _ _ _ (by omega) hx4 (by omega),
      readWord_writeWord_other _ _ _ _ (by omega) hx4 (by omega)]
  simp only [HeapInvWith, mm_list_remove_brk, writeWord_brk, mm_list_remove_budget,
    writeWord_budget, mm_list_remove_freeList, writeWord_freeList]
  refine ⟨hbrk8, hbrk16, hbound, ?_, ?_, ?_, ?_, hnodup.erase _, ?_⟩
  · rw [hout 4 (by norm_num) (by omega)]
    exact hpro1
  · rw [hout 8 (by norm_num) (by omega)]
    exact hpro2
  · rw [hout (s.brk - 4) (by omega) (by omega)]
    exact hepi
  · refine chainAt_append_intro _ bl1' ((bp - PS, SZ + NS + PS, false) :: bl2')
      12 (bp - PS) (s.brk - 4) ?_ ?_
    · exact chainAt_congr_on s _ bl1' 12 (bp - PS) hch1 (by norm_num)
        (fun x hx4 hx1 hx2 => hout x hx4 (Or.inl hx2))
    · refine ⟨rfl, by omega, by omega, hlt, ?_, ?_, ?_⟩
      · rw [readWord_writeWord_other _ _ _ _ (by omega) (by omega) (by omega),
          readWord_writeWord_self]
        rfl
      · rw [readWord_writeWord_self]
        rfl
      · exact chainAt_congr_on s _ bl2' (bp - PS + (SZ + NS + PS)) (s.brk - 4) hch2c
          (by omega) (fun x hx4 hx1 hx2 => hout x hx4 (Or.inr (by omega)))
  · intro x
    rw [List.Nodup.mem_erase_iff hnodup, hiff x, hfaOld, hfaNew]
    simp only [List.mem_append, List.mem_cons]
    constructor
    · rintro ⟨hne, (h | h | h | h)⟩ <;> tauto
    · rintro (h | h | h)
      · exact ⟨fun he => hA (he ▸ h), Or.inl h⟩
      · exact ⟨by omega, Or.inr (Or.inl h)⟩
      · exact ⟨fun he => hB (he ▸ h), Or.inr (Or.inr (Or.inr h))⟩

/-- `free_coalesce` on an allocated chain block preserves the heap
invariant, whichever of the four neighbour configurations holds. -/
theorem free_coalesce_invWith (s : AllocState) (bl : List (Nat × Nat × Bool)) (bp SZ : Nat)
    (hw : HeapInvWith s bl) (hmem : (bp, SZ, true) ∈ bl) :
    ∃ bl', HeapInvWith (free_coalesce s bp).1 bl' := by
  obtain ⟨hbrk8, hbrk16, hbound, hpro1, hpro2, hepi, hchain, hnodup, hiff0⟩ := hw
  obtain ⟨hbp84, -, -, -, -, -, -, -⟩ :=
    chainAt_props s bl 12 (s.brk - 4) hchain (by norm_num) bp SZ true hmem
  obtain ⟨bl1, bl2, hsplit, hch1, hsz16, hsz8, hszlt, hhdr', hfoot', hch2⟩ :=
    chainAt_mem_split s bl 12 (s.brk - 4) bp SZ true hchain hmem
  have hhdr : readWord s bp = packTag (SZ : Int) 1 := hhdr'
  have hiff : ∀ x, x ∈ s.freeList ↔ x ∈ freeAddrs (bl1 ++ (bp, SZ, true) :: bl2) := by
    intro x
    rw [← hsplit]
    exact hiff0 x
  have hbp12 : 12 ≤ bp := chainAt_le s bl1 12 bp hch1
  have hprev : (∃ P : Nat, P % 8 = 0 ∧ 8 ≤ P ∧ P ≤ bp ∧ P < 2147483648 ∧
      readWord s (bp - 4) = packTag (P : Int) 1 ∧
      readWord s (bp - P) = packTag (P : Int) 1) ∨
    (∃ (bl1' : List (Nat × Nat × Bool)) (PS : Nat), PS % 8 = 0 ∧ 16 ≤ PS ∧ PS ≤ bp ∧
      chainAt s 12 (bp - PS) bl1' ∧
      bl1 = bl1' ++ [(bp - PS, PS, false)] ∧
      readWord s (bp - 4) = packTag (PS : Int) 0 ∧
      readWord s (bp - PS) = packTag (PS : Int) 0) := by
    by_cases hbl1 : bl1 = []
    · subst hbl1
      have h12 : (12 : Nat) = bp := hch1
      refine Or.inl ⟨8, by norm_num, le_refl _, by omega, by norm_num, ?_, ?_⟩
      · rw [show bp - 4 = (8 : Nat) from by omega]
        exact hpro2
      · rw [show bp - 8 = (4 : Nat) from by omega]
        exact hpro1
    · obtain ⟨bl1', q, qs, qal, hble, hch1', h16q, h8q, hltq, hqh, hqf, hqend⟩ :=
        chainAt_concat_elim s bl1 12 bp hch1 hbl1
      have hq12 : 12 ≤ q := chainAt_le s bl1' 12 q hch1'
      cases qal
      · refine Or.inr ⟨bl1', qs, h8q, h16q, by omega, ?_, ?_, ?_, ?_⟩
        · rw [show bp - qs = q from by omega]
          exact hch1'
        · rw [hble, show bp - qs = q from by omega]
        · rw [show bp - 4 = q + qs - 4 from by omega]
          exact hqf
        · rw [show bp - qs = q from by omega]
          exact hqh
      · refine Or.inl ⟨qs, h8q, by omega, by omega, hltq, ?_, ?_⟩
        · rw [show bp - 4 = q + qs - 4 from by omega]
          exact hqf
        · rw [show bp - qs = q from by omega]
          exact hqh
  have hnext : (∃ Q : Nat, Q % 8 = 0 ∧ Q < 2147483648 ∧
      readWord s (bp + SZ) = packTag (Q : Int) 1) ∨
    (∃ (bl2' : List (Nat × Nat × Bool)) (NS : Nat), NS % 8 = 0 ∧ 16 ≤ NS ∧
      chainAt s (bp + SZ + NS) (s.brk - 4) bl2' ∧
      bl2 = (bp + SZ, NS, false) :: bl2' ∧
      readWord s (bp + SZ) = packTag (NS : Int) 0) := by
    cases bl2 with
    | nil =>
      have hend : bp + SZ = s.brk - 4 := hch2
      refine Or.inl ⟨0, by norm_num, by norm_num, ?_⟩
      rw [hend]
      exact_mod_cast hepi
    | cons hd tl =>
      obtain ⟨m, ms, mal⟩ := hd
      obtain ⟨hb, h16m, h8m, hltm, hmh, hmf, hrest⟩ := hch2
      cases mal
      · exact Or.inr ⟨tl, ms, h8m, h16m, hrest, by rw [hb], hmh⟩
      · exact Or.inl ⟨ms, h8m, hltm, hmh⟩
  rcases hprev with ⟨P, hP8, hP, hPbp, hPlt, hLf, hLh⟩ |
    ⟨bl1', PS, hPS8, hPS16, hPSbp, hch1f, hble, hLf, hLh⟩ <;>
    rcases hnext with ⟨Q, hQ8, hQlt, hNh⟩ | ⟨bl2', NS, hNS8, hNS16, hch2f, hb2e, hNh⟩
  · exact ⟨_, free_invWith_alloc_alloc s bl1 bl2 bp SZ P Q hbrk8 hbrk16 hbound hpro1 hpro2
      hepi hch1 hch2 hnodup hiff hbp84 hsz16 hsz8 hszlt hhdr hP8 hP hPbp hPlt hLf hLh
      hQ8 hQlt hNh⟩
  · have hiffB : ∀ x, x ∈ s.freeList ↔
        x ∈ freeAddrs (bl1 ++ (bp, SZ, true) :: (bp + SZ, NS, false) :: bl2') := by
      intro x
      rw [hiff x, hb2e]
    exact ⟨_, free_invWith_alloc_free s bl1 bl2' bp SZ NS P hbrk8 hbrk16 hbound hpro1 hpro2
      hepi hch1 hch2f hnodup hiffB hbp84 hsz16 hsz8 hNS16 hNS8 hhdr hP8 hP hPbp hPlt
      hLf hLh hNh⟩
  · have hlst : (bl1' ++ [(bp - PS, PS, false)]) ++ (bp, SZ, true) :: bl2 =
        bl1' ++ (bp - PS, PS, false) :: (bp, SZ, true) :: bl2 := by
      simp
    have hiffC : ∀ x, x ∈ s.freeList ↔
        x ∈ freeAddrs (bl1' ++ (bp - PS, PS, false) :: (bp, SZ, true) :: bl2) := by
      intro x
      rw [hiff x, hble, hlst]
    exact ⟨_, free_invWith_free_alloc s bl1' bl2 bp SZ PS Q hbrk8 hbrk16 hbound hpro1 hpro2
      hepi hPSbp hch1f hch2 hnodup hiffC hbp84 hsz16 hsz8 hPS16 hPS8 hhdr hLf hLh
      hQ8 hQlt hNh⟩
  · have hlst : (bl1' ++ [(bp - PS, PS, false)]) ++ (bp, SZ, true) ::
        (bp + SZ, NS, false) :: bl2' =
        bl1' ++ (bp - PS, PS, false) :: (bp, SZ, true) :: (bp + SZ, NS, false) :: bl2' := by
      simp
    have hiffD : ∀ x, x ∈ s.freeList ↔
        x ∈ freeAddrs (bl1' ++ (bp - PS, PS, false) :: (bp, SZ, true) ::
          (bp + SZ, NS, false) :: bl2') := by
      intro x
      rw [hiff x, hble, hb2e, hlst]
    exact ⟨_, free_invWith_free_free s bl1' bl2' bp SZ NS PS hbrk8 hbrk16 hbound hpro1 hpro2
      hepi hPSbp hch1f hch2f hnodup hiffD hbp84 hsz16 hsz8 hPS16 hPS8 hNS16 hNS8 hhdr
      hLf hLh hNh⟩

theorem readWord_writeByte_other (s : AllocState) (a x v : Nat) (hx4 : x % 4 = 0)
    (h : x + 4 ≤ a ∨ a < x) : readWord (writeByte s a v) x = readWord s x := by
  have hne : x / 4 ≠ a / 4 := by omega
  simp [readWord, writeByte, hne]

theorem writeByte_brk (s : AllocState) (a v : Nat) : (writeByte s a v).brk = s.brk := rfl

theorem writeByte_budget (s : AllocState) (a v : Nat) :
    (writeByte s a v).budget = s.budget := rfl

theorem writeByte_freeList (s : AllocState) (a v : Nat) :
    (writeByte s a v).freeList = s.freeList := rfl

theorem memcpyBytes_brk :
    ∀ (k : Nat) (s : AllocState) (dst src : Nat), (memcpyBytes k s dst src).brk = s.brk := by
  intro k
  induction k with
  | zero => intro s dst src; rfl
  | succ n ih =>
    intro s dst src
    show (memcpyBytes n (writeByte s dst (readByte s src)) (dst + 1) (src + 1)).brk = s.brk
    rw [ih, writeByte_brk]

theorem memcpyBytes_budget :
    ∀ (k : Nat) (s : AllocState) (dst src : Nat),
      (memcpyBytes k s dst src).budget = s.budget := by
  intro k
  induction k with
  | zero => intro s dst src; rfl
  | succ n ih =>
    intro s dst src
    show (memcpyBytes n (writeByte s dst (readByte s src)) (dst + 1) (src + 1)).budget =
      s.budget
    rw [ih, writeByte_budget]

theorem memcpyBytes_freeList :
    ∀ (k : Nat) (s : AllocState) (dst src : Nat),
      (memcpyBytes k s dst src).freeList = s.freeList := by
  intro k
  induction k with
  | zero => intro s dst src; rfl
  | succ n ih =>
    intro s dst src
    show (memcpyBytes n (writeByte s dst (readByte s src)) (dst + 1) (src + 1)).freeList =
      s.freeList
    rw [ih, writeByte_freeList]

theorem readWord_memcpyBytes_other :
    ∀ (k : Nat) (s : AllocState) (dst src x : Nat), x % 4 = 0 →
      (x + 4 ≤ dst ∨ dst + k ≤ x) →
      readWord (memcpyBytes k s dst src) x = readWord s x := by
  intro k
  induction k with
  | zero => intro s dst src x _ _; rfl
  | succ n ih =>
    intro s dst src x hx4 hx
    show readWord (memcpyBytes n (writeByte s dst (readByte s src)) (dst + 1) (src + 1)) x =
      readWord s x
    rw [ih _ (dst + 1) (src + 1) x hx4 (by omega),
      readWord_writeByte_other s dst x _ hx4 (by omega)]

/-- A byte copy whose destination stays strictly inside one allocated
block's payload leaves the whole heap structure intact. -/
theorem memcpyBytes_invWith (s : AllocState) (bl : List (Nat × Nat × Bool))
    (b szb k dst src : Nat)
    (hw : HeapInvWith s bl) (hmemb : (b, szb, true) ∈ bl)
    (hdst : b + 4 ≤ dst) (hk : dst + k ≤ b + szb - 4) :
    HeapInvWith (memcpyBytes k s dst src) bl := by
  obtain ⟨hbrk8, hbrk16, hbound, hpro1, hpro2, hepi, hchain, hnodup, hiff⟩ := hw
  obtain ⟨hb84, hsz16, hsz8, hszlt, hb12, hbe, -, -⟩ :=
    chainAt_props s bl 12 (s.brk - 4) hchain (by norm_num) b szb true hmemb
  obtain ⟨bl1, bl2, hsplit, hch1, -, -, -, hhdr, hfoot, hch2⟩ :=
    chainAt_mem_split s bl 12 (s.brk - 4) b szb true hchain hmemb
  subst hsplit
  refine ⟨?_, ?_, ?_, ?_, ?_, ?_, ?_, ?_, ?_⟩
  · rw [memcpyBytes_brk]
    exact hbrk8
  · rw [memcpyBytes_brk]
    exact hbrk16
  · rw [memcpyBytes_brk, memcpyBytes_budget]
    exact hbound
  · rw [readWord_memcpyBytes_other k s dst src 4 (by norm_num) (by omega)]
    exact hpro1
  · rw [readWord_memcpyBytes_other k s dst src 8 (by norm_num) (by omega)]
    exact hpro2
  · rw [memcpyBytes_brk,
      readWord_memcpyBytes_other k s dst src (s.brk - 4) (by omega) (by omega)]
    exact hepi
  · rw [memcpyBytes_brk]
    refine chainAt_append_intro _ bl1 ((b, szb, true) :: bl2) 12 b (s.brk - 4) ?_ ?_
    · refine chainAt_congr_on s _ bl1 12 b hch1 (by norm_num) ?_
      intro x hx4 hx1 hx2
      exact readWord_memcpyBytes_other k s dst src x hx4 (by omega)
    · refine ⟨rfl, hsz16, hsz8, hszlt, ?_, ?_, ?_⟩
      · rw [readWord_memcpyBytes_other k s dst src b (by omega) (by omega)]
        exact hhdr
      · rw [readWord_memcpyBytes_other k s dst src (b + szb - 4) (by omega) (by omega)]
        exact hfoot
      · refine chainAt_congr_on s _ bl2 (b + szb) (s.brk - 4) hch2 (by omega) ?_
        intro x hx4 hx1 hx2
        exact readWord_memcpyBytes_other k s dst src x hx4 (by omega)
  · rw [memcpyBytes_freeList]
    exact hnodup
  · intro x
    rw [memcpyBytes_freeList]
    exact hiff x

/-- Absorbing a free successor in place (`mm_realloc`'s in-place growth):
the two chain entries merge into one allocated block and the successor
leaves the free list. -/
theorem realloc_absorb_invWith (s : AllocState) (bl1 bl2' : List (Nat × Nat × Bool))
    (bp SZ TZ : Nat)
    (hbrk8 : s.brk % 8 = 0) (hbrk16 : 16 ≤ s.brk) (hbound : s.brk + s.budget < 2147483648)
    (hpro1 : readWord s 4 = packTag (8 : Int) 1)
    (hpro2 : readWord s 8 = packTag (8 : Int) 1)
    (hepi : readWord s (s.brk - 4) = packTag (0 : Int) 1)
    (hch1 : chainAt s 12 bp bl1) (hch2 : chainAt s (bp + SZ + TZ) (s.brk - 4) bl2')
    (hnodup : s.freeList.Nodup)
    (hiff : ∀ x, x ∈ s.freeList ↔
      x ∈ freeAddrs (bl1 ++ (bp, SZ, true) :: (bp + SZ, TZ, false) :: bl2'))
    (hbp84 : bp % 8 = 4)
    (hsz16 : 16 ≤ SZ) (hsz8 : SZ % 8 = 0)
    (hTZ16 : 16 ≤ TZ) (hTZ8 : TZ % 8 = 0) :
    HeapInvWith
      (writeWord (writeWord (mm_list_remove s (bp + SZ))
          bp (packTag ((SZ + TZ : Nat) : Int) 1))
        (bp + (SZ + TZ) - 4) (packTag ((SZ + TZ : Nat) : Int) 1))
      (bl1 ++ (bp, SZ + TZ, true) :: bl2') := by
  have hbp12 : 12 ≤ bp := chainAt_le s bl1 12 bp hch1
  have hbpe : bp + SZ + TZ ≤ s.brk - 4 := chainAt_le s bl2' (bp + SZ + TZ) (s.brk - 4) hch2
  have hlt : SZ + TZ < 2147483648 := by omega
  have hnb1 : bp + SZ ∉ freeAddrs bl1 := by
    intro hx
    obtain ⟨sx, hm⟩ := (mem_freeAddrs bl1 (bp + SZ)).1 hx
    obtain ⟨-, hle⟩ := chainAt_mem_lb s bl1 12 bp (bp + SZ) sx false hch1 hm
    omega
  have hnb2 : bp + SZ ∉ freeAddrs bl2' := by
    intro hx
    obtain ⟨sx, hm⟩ := (mem_freeAddrs bl2' (bp + SZ)).1 hx
    obtain ⟨hge, -⟩ := chainAt_mem_lb s bl2' (bp + SZ + TZ) (s.brk - 4) (bp + SZ) sx false
      hch2 hm
    omega
  have hfaOld : freeAddrs (bl1 ++ (bp, SZ, true) :: (bp + SZ, TZ, false) :: bl2') =
      freeAddrs bl1 ++ (bp + SZ) :: freeAddrs bl2' := by
    rw [freeAddrs_append]
    rfl
  have hfaNew : freeAddrs (bl1 ++ (bp, SZ + TZ, true) :: bl2') =
      freeAddrs bl1 ++ freeAddrs bl2' := by
    rw [freeAddrs_append]
    rfl
  have hch2c : chainAt s (bp + (SZ + TZ)) (s.brk - 4) bl2' := by
    rw [show bp + (SZ + TZ) = bp + SZ + TZ from by omega]
    exact hch2
  have hout : ∀ x, x % 4 = 0 → (x < bp ∨ bp + SZ + TZ ≤ x) →
      readWord (writeWord (writeWord (mm_list_remove s (bp + SZ))
          bp (packTag ((SZ + TZ : Nat) : Int) 1))
        (bp + (SZ + TZ) - 4) (packTag ((SZ + TZ : Nat) : Int) 1)) x = readWord s x := by
    intro x hx4 hx
    rw [readWord_writeWord_other _ _ _ _ (by omega) hx4 (by omega),
      readWord_writeWord_other _ _ _ _ (by omega) hx4 (by omega),
      readWord_mm_list_remove]
  simp only [HeapInvWith, mm_list_remove_brk, writeWord_brk, mm_list_remove_budget,
    writeWord_budget, mm_list_remove_freeList, writeWord_freeList]
  refine ⟨hbrk8, hbrk16, hbound, ?_, ?_, ?_, ?_, hnodup.erase _, ?_⟩
  · rw [hout 4 (by norm_num) (by omega)]
    exact hpro1
  · rw [hout 8 (by norm_num) (by omega)]
    exact hpro2
  · rw [hout (s.brk - 4) (by omega) (by omega)]
    exact hepi
  · refine chainAt_append_intro _ bl1 ((bp, SZ + TZ, true) :: bl2') 12 bp (s.brk - 4) ?_ ?_
    · exact chainAt_congr_on s _ bl1 12 bp hch1 (by norm_num)
        (fun x hx4 hx1 hx2 => hout x hx4 (Or.inl hx2))
    · refine ⟨rfl, by omega, by omega, hlt, ?_, ?_, ?_⟩
      · rw [readWord_writeWord_other _ _ _ _ (by omega) (by omega) (by omega),
          readWord_writeWord_self]
        rfl
      · rw [readWord_writeWord_self]
        rfl
      · exact chainAt_congr_on s _ bl2' (bp + (SZ + TZ)) (s.brk - 4) hch2c (by omega)
          (fun x hx4 hx1 hx2 => hout x hx4 (Or.inr (by omega)))
  · intro x
    rw [List.Nodup.mem_erase_iff hnodup, hiff x, hfaOld, hfaNew,
      mem_skip_middle x (bp + SZ) _ _ hnb1 hnb2]

/-- The allocate-copy-free fallback of `mm_realloc` preserves the
invariant: the fresh allocation preserves it, the copy stays inside the new
block's payload, and the final free is of a live allocated block. -/
theorem mm_realloc_copy_invWith (fuel : Nat) (s : AllocState) (p n sz : Nat)
    (bl : List (Nat × Nat × Bool))
    (hw : HeapInvWith s bl) (hmem : (p - 4, sz, true) ∈ bl)
    (hn : n + 15 < 2147483648) :
    ∃ bl', HeapInvWith (mm_realloc_copy fuel s p n (sz - 8)).1 bl' := by
  obtain ⟨bl1, hw1, hfr, hres⟩ := mm_malloc_invWith fuel s n bl hw hn
  cases hr2 : (mm_malloc fuel s n).2 with
  | none =>
    have hred : mm_realloc_copy fuel s p n (sz - 8) = ((mm_malloc fuel s n).1, none) := by
      simp only [mm_realloc_copy]
      rw [hr2]
    rw [hred]
    exact ⟨bl1, hw1⟩
  | some q =>
    obtain ⟨szr, hmq, hcap, hqe⟩ := hres q hr2
    have hred : mm_realloc_copy fuel s p n (sz - 8) =
        (mm_free (memcpyBytes
            (intToSizeT (if sz - 8 > n then sizeTToInt n else sizeTToInt (sz - 8)))
            (mm_malloc fuel s n).1 q p) (some p),
          some q) := by
      simp only [mm_realloc_copy]
      rw [hr2]
    have hk : intToSizeT (if sz - 8 > n then sizeTToInt n else sizeTToInt (sz - 8)) ≤ n := by
      by_cases hcmp : sz - 8 > n
      · rw [if_pos hcmp, sizeTToInt_small n (by omega), intToSizeT_coe n (by omega)]
      · rw [if_neg hcmp, sizeTToInt_small (sz - 8) (by omega),
          intToSizeT_coe (sz - 8) (by omega)]
        omega
    have hw2 := memcpyBytes_invWith (mm_malloc fuel s n).1 bl1 (q - 4) szr
      (intToSizeT (if sz - 8 > n then sizeTToInt n else sizeTToInt (sz - 8))) q p
      hw1 hmq (by omega) (by omega)
    have hmem2 : (p - 4, sz, true) ∈ bl1 := hfr (p - 4) sz hmem
    obtain ⟨bl', hw'⟩ := free_coalesce_invWith _ bl1 (p - 4) sz hw2 hmem2
    rw [hred]
    exact ⟨bl', hw'⟩

/-- `mm_realloc` on a live payload pointer preserves the heap invariant
through all its paths: free (size 0), in-place fit, in-place absorption of
a free successor, and allocate-copy-free. -/
theorem mm_realloc_some_invWith (fuel : Nat) (s : AllocState) (p n sz : Nat)
    (bl : List (Nat × Nat × Bool)) (hw : HeapInvWith s bl)
    (hmem : (p - 4, sz, true) ∈ bl) (hn : n + 15 < 2147483648) :
    ∃ bl', HeapInvWith (mm_realloc fuel s (some p) n).1 bl' := by
  have hw' := hw
  obtain ⟨hbrk8, hbrk16, hbound, hpro1, hpro2, hepi, hchain, hnodup, hiff0⟩ := hw'
  obtain ⟨hb84, hsz16, hsz8, hszlt, hb12, hbe, hhdr', hfoot'⟩ :=
    chainAt_props s bl 12 (s.brk - 4) hchain (by norm_num) (p - 4) sz true hmem
  have hhdr : readWord s (p - 4) = packTag (sz : Int) 1 := hhdr'
  have hbs := mm_block_size_read s (p - 4) sz 1 hhdr hsz8 hszlt (by omega)
  have hbn := mm_block_next_read s (p - 4) sz 1 hhdr hsz8 hszlt (by omega)
  by_cases h0 : n = 0
  · have hred : mm_realloc fuel s (some p) n = (mm_free s (some p), none) := by
      simp only [mm_realloc]
      rw [if_pos h0]
    rw [hred]
    exact free_coalesce_invWith s bl (p - 4) sz hw hmem
  by_cases hfit : n ≤ sz - 8
  · have hred : mm_realloc fuel s (some p) n = (s, some p) := by
      simp only [mm_realloc]
      rw [if_neg h0, hbs, intToSizeT_coe_sub_eight sz (by omega) (by omega), if_pos hfit]
    rw [hred]
    exact ⟨bl, hw⟩
  obtain ⟨bl1, bl2, hsplit, hch1, -, -, -, -, -, hch2⟩ :=
    chainAt_mem_split s bl 12 (s.brk - 4) (p - 4) sz true hchain hmem
  have hiff : ∀ x, x ∈ s.freeList ↔ x ∈ freeAddrs (bl1 ++ (p - 4, sz, true) :: bl2) := by
    intro x
    rw [← hsplit]
    exact hiff0 x
  cases bl2 with
  | nil =>
    have hend : p - 4 + sz = s.brk - 4 := hch2
    have hta : mm_block_allocated s (p - 4 + sz) = 1 := by
      rw [hend]
      exact mm_block_allocated_read s (s.brk - 4) 0 1 (by exact_mod_cast hepi)
        (by norm_num) (by norm_num) (by norm_num)
    have hred : mm_realloc fuel s (some p) n = mm_realloc_copy fuel s p n (sz - 8) := by
      simp only [mm_realloc]
      rw [if_neg h0, hbs, intToSizeT_coe_sub_eight sz (by omega) (by omega), if_neg hfit,
        hbn, hta, if_neg (by norm_num)]
    rw [hred]
    exact mm_realloc_copy_invWith fuel s p n sz bl hw hmem hn
  | cons hd bl2' =>
    obtain ⟨m, tz, tal⟩ := hd
    obtain ⟨hm, htz16, htz8, htzlt, hth, htf, hrest⟩ := hch2
    subst hm
    cases tal with
    | true =>
      have hta : mm_block_allocated s (p - 4 + sz) = 1 :=
        mm_block_allocated_read s (p - 4 + sz) tz 1 hth htz8 htzlt (by norm_num)
      have hred : mm_realloc fuel s (some p) n = mm_realloc_copy fuel s p n (sz - 8) := by
        simp only [mm_realloc]
        rw [if_neg h0, hbs, intToSizeT_coe_sub_eight sz (by omega) (by omega), if_neg hfit,
          hbn, hta, if_neg (by norm_num)]
      rw [hred]
      exact mm_realloc_copy_invWith fuel s p n sz bl hw hmem hn
    | false =>
      have hta : mm_block_allocated s (p - 4 + sz) = 0 :=
        mm_block_allocated_read s (p - 4 + sz) tz 0 hth htz8 htzlt (by norm_num)
      have hts := mm_block_size_read s (p - 4 + sz) tz 0 hth htz8 htzlt (by norm_num)
      have hlt2 : sz + tz < 2147483648 := by
        have := chainAt_le s bl2' (p - 4 + sz + tz) (s.brk - 4) hrest
        omega
      have hc : (sz + tz) % 18446744073709551616 = sz + tz := by omega
      have hcond : (sz + tz + 18446744073709551616 - 8) % 18446744073709551616 =
          sz + tz - 8 := by omega
      by_cases habs : n ≤ sz + tz - 8
      · have hred : mm_realloc fuel s (some p) n =
            (writeWord (writeWord (mm_list_remove s (p - 4 + sz))
                (p - 4) (packTag ((sz + tz : Nat) : Int) 1))
              (p - 4 + (sz + tz) - 4) (packTag ((sz + tz : Nat) : Int) 1), some p) := by
          simp only [mm_realloc]
          rw [if_neg h0, hbs, intToSizeT_coe_sub_eight sz (by omega) (by omega), if_neg hfit,
            hbn, hta, if_pos rfl, hts, intToSizeT_coe sz (by omega),
            intToSizeT_coe tz (by omega), hc, hcond, if_pos habs,
            sizeTToInt_small (sz + tz) (by omega),
            mm_block_set_footer_coe _ (p - 4) (sz + tz) 1 (by omega), mm_block_set_header_eq]
        rw [hred]
        exact ⟨bl1 ++ (p - 4, sz + tz, true) :: bl2',
          realloc_absorb_invWith s bl1 bl2' (p - 4) sz tz hbrk8 hbrk16 hbound hpro1 hpro2
            hepi hch1 hrest hnodup hiff hb84 hsz16 hsz8 htz16 htz8⟩
      · have hred : mm_realloc fuel s (some p) n = mm_realloc_copy fuel s p n (sz - 8) := by
          simp only [mm_realloc]
          rw [if_neg h0, hbs, intToSizeT_coe_sub_eight sz (by omega) (by omega), if_neg hfit,
            hbn, hta, if_pos rfl, hts, intToSizeT_coe sz (by omega),
            intToSizeT_coe tz (by omega), hc, hcond, if_neg habs]
        rw [hred]
        exact mm_realloc_copy_invWith fuel s p n sz bl hw hmem hn

/-- `mm_init` establishes the heap-structure invariant on every backing
store of at least 16 bytes (whether or not the pre-seeding 64-byte
extension succeeds). -/
theorem mm_init_heapInv (B : Nat) (h16 : 16 ≤ B) (hB : B < 2147483648) :
    HeapInv (mm_init (initState B)).1 := by
  have hsbrk : mem_sbrk (mm_list_init (initState B)) 16 =
      (some 0, { mem := fun _ => 0, brk := 16, budget := B - 16, freeList := [] }) := by
    unfold mem_sbrk mm_list_init initState
    rw [if_pos ⟨by norm_num, by exact_mod_cast h16⟩]
    rfl
  have hred : (mm_init (initState B)).1 =
      (extend_heap (writeWord (writeWord (writeWord (writeWord
        { mem := fun _ => 0, brk := 16, budget := B - 16, freeList := [] }
        0 (packTag 0 0)) 4 (packTag 8 1)) 8 (packTag 8 1)) 12 (packTag 0 1)) 64).1 := by
    simp only [mm_init]
    rw [hsbrk]
    rfl
  rw [hred]
  refine extend_heap_inv _ 64 (by norm_num) (by norm_num)
    ⟨?_, ?_, ?_, ?_, ?_, ?_, [], ?_, List.nodup_nil, ?_⟩
  · show (16 : Nat) % 8 = 0
    norm_num
  · show (16 : Nat) ≤ 16
    exact le_refl _
  · show 16 + (B - 16) < 2147483648
    omega
  · show readWord _ 4 = packTag (8 : Int) 1
    rfl
  · show readWord _ 8 = packTag (8 : Int) 1
    rfl
  · show readWord _ 12 = packTag (0 : Int) 1
    rfl
  · show (12 : Nat) = 16 - 4
    norm_num
  · intro x
    show x ∈ ([] : List Nat) ↔ x ∈ freeAddrs []
    simp [freeAddrs]

/-- Every state reachable through the allocator's public operations (with
requests below the truncation threshold and live pointers) satisfies the
heap-structure invariant. -/
theorem reachable_heapInv (s : AllocState) (h : Reachable s) : HeapInv s := by
  induction h with
  | init B h16 hB => exact mm_init_heapInv B h16 hB
  | malloc s fuel n h hn ih =>
    obtain ⟨bl, hw⟩ := heapInv_heapInvWith s ih
    obtain ⟨bl', hw', -, -⟩ := mm_malloc_invWith fuel s n bl hw hn
    exact heapInvWith_heapInv _ _ hw'
  | free_null s h ih => exact ih
  | free s p sz bl h hw hmem hp ih =>
    obtain ⟨bl', hw'⟩ := free_coalesce_invWith s bl (p - 4) sz hw hmem
    exact heapInvWith_heapInv _ _ hw'
  | realloc_null s fuel n h hn ih =>
    obtain ⟨bl, hw⟩ := heapInv_heapInvWith s ih
    obtain ⟨bl', hw', -, -⟩ := mm_malloc_invWith fuel s n bl hw hn
    exact heapInvWith_heapInv _ _ hw'
  | realloc s fuel p n sz bl h hw hmem hp hn ih =>
    obtain ⟨bl', hw'⟩ := mm_realloc_some_invWith fuel s p n sz bl hw hmem hn
    exact heapInvWith_heapInv _ _ hw'

theorem heapInv_freeListInvariant (s : AllocState) (h : HeapInv s) : FreeListInvariant s := by
  obtain ⟨h1, h2, h3, h4, h5, h6, bl, hchain, hnodup, hiff⟩ := h
  refine ⟨bl, hchain, hnodup, ?_, ?_⟩
  · intro b sz al hmem
    constructor
    · intro hb
      obtain ⟨sz', hmem'⟩ := (mem_freeAddrs bl b).1 ((hiff b).1 hb)
      obtain ⟨-, hal⟩ :=
        chainAt_addr_unique s bl 12 (s.brk - 4) b sz al sz' false hchain hmem hmem'
      exact hal
    · intro hal
      subst hal
      exact (hiff b).2 ((mem_freeAddrs bl b).2 ⟨sz, hmem⟩)
  · intro x hx
    exact (mem_freeAddrs bl x).1 ((hiff x).1 hx)

/-- Claim C9 (amended: the calls' requests must stay below the 32-bit
truncation threshold, `n + 15 < 2^31`, and free/resize must receive live
payload pointers or null; beyond the threshold the free list is corrupted,
see the counterexample): from every state reachable from `init()` by such
allocate/free/resize calls, some block chain covers the heap and a block is
in the free list iff its allocation bit is false; every free-list entry is
a block, and no block appears in the free list twice. -/
theorem reachable_free_list_invariant (s : AllocState) (h : Reachable s) :
    FreeListInvariant s :=
  heapInv_freeListInvariant s (reachable_heapInv s h)

/-- Witness: the freshly initialized 4096-byte heap is reachable and
satisfies the free-list invariant. -/
theorem reachable_free_list_invariant_witness :
    Reachable heap4096 ∧ FreeListInvariant heap4096 :=
  ⟨Reachable.init 4096 (by norm_num) (by norm_num),
    reachable_free_list_invariant heap4096
      (Reachable.init 4096 (by norm_num) (by norm_num))⟩

/-- Counterexample to the unamended claim C9: one `mm_malloc (2^64 - 24)`
worth of request bits, `mm_malloc 4294967272`, truncates to the `int` -24
and a required block size of -8; no arithmetic on this path overflows, so
`place` takes its low-end split branch with size -8, computes the "next"
block at `12 + (-8) = 4` — the prologue — and prepends address 4 to the
free list.  The free list ends as `[4]`, and address 4 cannot be a block
of any chain (chain blocks start at address 12 or beyond), so the
free-list invariant fails after a single over-threshold request. -/
theorem malloc_huge_request_corrupts_free_list :
    (mm_malloc 1 heap4096 4294967272).1.freeList = [4] ∧
    ¬ FreeListInvariant (mm_malloc 1 heap4096 4294967272).1 := by
  have hfl : (mm_malloc 1 heap4096 4294967272).1.freeList = [4] := by decide
  refine ⟨hfl, ?_⟩
  rintro ⟨bl, hchain, hnodup, hblk, hlist⟩
  have h4 : (4 : Nat) ∈ (mm_malloc 1 heap4096 4294967272).1.freeList := by
    rw [hfl]
    exact List.mem_singleton.2 rfl
  obtain ⟨sz, hmem⟩ := hlist 4 h4
  obtain ⟨hge, -⟩ := chainAt_mem_lb _ bl 12 _ 4 sz false hchain hmem
  omega
